import Mathlib

/-!
# Verification of the UNO round engine (`src/model/round.ts`)

This file gives a shallow embedding of the round state machine implemented in
`src/model/round.ts` and proves/refutes the specification claims about it.

The class `RoundImpl` mutates its fields in place and throws `Error`s; we embed
it as explicit state passing: every public operation has type
`RoundState → Except String α × RoundState`, where the second component is the
state of the object when the call returns *or throws* (a thrown exception in
TypeScript leaves the object with all mutations performed up to the throw).

The card/deck collaborator (`./deck`, `./uno`) is not part of the repository
sources; the few pieces the round engine consumes (`canPlay`, `colors`,
`deck.fromMemento` validation) are modelled from the spec, as marked below.
-/

set_option maxHeartbeats 1000000

namespace Uno

/-- The fixed color set of the external deck collaborator. -/
inductive Color where
  | red
  | yellow
  | green
  | blue
deriving DecidableEq, Repr

/-- Card variants, per the data model: `NUMBERED(color, number)`, `SKIP(color)`,
`REVERSE(color)`, `DRAW(color)`, `WILD`, `WILD DRAW`.  Wild variants carry no
intrinsic color. -/
inductive Card where
  | numbered (color : Color) (number : Nat)
  | skip (color : Color)
  | reverse (color : Color)
  | draw (color : Color)
  | wild
  | wildDraw
deriving DecidableEq, Repr

/-- The intrinsic color of a card (`'color' in card` in the TypeScript). -/
def cardColor : Card → Option Color
  | Card.numbered c _ => some c
  | Card.skip c => some c
  | Card.reverse c => some c
  | Card.draw c => some c
  | Card.wild => none
  | Card.wildDraw => none

/-- `card.type === 'WILD' || card.type === 'WILD DRAW'`. -/
def isWild : Card → Bool
  | Card.wild => true
  | Card.wildDraw => true
  | _ => false

/-- Modelled from the spec: the external deck collaborator's list of valid
colors (`deck.colors`), a fixed enumerable set. -/
def colors : List Color := [Color.red, Color.yellow, Color.green, Color.blue]

/-- `ensureColorValue`: validates a color against `deck.colors`.  For the closed
`Color` enumeration the check always succeeds. -/
def ensureColorValue (c : Color) : Except String Color :=
  if colors.contains c then Except.ok c else Except.error "Invalid color"

/-- Two non-wild cards share their rank/type (same number for numbered cards,
same action kind for action cards). -/
def sameSymbol : Card → Card → Bool
  | Card.numbered _ n, Card.numbered _ m => n == m
  | Card.skip _, Card.skip _ => true
  | Card.reverse _, Card.reverse _ => true
  | Card.draw _, Card.draw _ => true
  | _, _ => false

/-- Modelled from the spec: the external legality predicate
`canPlay(card, topCard, enforcedColor?)` from `./uno` (not in the repository
sources): a card is playable if it is a wild variant, or if its color matches
the effective current color (enforced color if set, else the top card's color),
or if it shares the top card's rank/type for numbered/action matches. -/
def cardCanPlay (card top : Card) (enforced : Option Color) : Bool :=
  if isWild card then true
  else
    let effective : Option Color :=
      match enforced with
      | some c => some c
      | none => cardColor top
    (match cardColor card, effective with
     | some a, some b => a == b
     | _, _ => false)
    || sameSymbol card top

/-- Modelled from the spec: the external `deck.fromMemento` validation rejects
malformed card records; a numbered card must carry a digit 0–9. -/
def validCard : Card → Bool
  | Card.numbered _ n => n ≤ 9
  | _ => true

/-- Sequential validation with early error (the order in which `deck.fromMemento`
deals the validated cards back out). -/
def mapExcept (f : Card → Except String Card) : List Card → Except String (List Card)
  | [] => Except.ok []
  | a :: t =>
    match f a with
    | Except.error e => Except.error e
    | Except.ok b =>
      match mapExcept f t with
      | Except.error e => Except.error e
      | Except.ok bs => Except.ok (b :: bs)

/-- `cloneCardsWithValidation`: serializes each card and revalidates it through
the external deck's `fromMemento` (modelled from the spec: well-formed cards are
reproduced unchanged, malformed ones rejected). -/
def cloneCardsWithValidation (cards : List Card) : Except String (List Card) :=
  mapExcept (fun c => if validCard c then Except.ok c else Except.error "Invalid card") cards

/-- Validation of every hand in turn. -/
def cloneHandsWithValidation : List (List Card) → Except String (List (List Card))
  | [] => Except.ok []
  | h :: t =>
    match cloneCardsWithValidation h with
    | Except.error e => Except.error e
    | Except.ok h' =>
      match cloneHandsWithValidation t with
      | Except.error e => Except.error e
      | Except.ok t' => Except.ok (h' :: t')

/-- `mod(value, modulus)` from round.ts: JavaScript `%` (truncated remainder)
followed by adding the modulus when negative, normalizing into `[0, modulus)`
for positive moduli. -/
def tsMod (value : Int) (modulus : Nat) : Nat :=
  let r := value.tmod (modulus : Int)
  (if 0 ≤ r then r else r + (modulus : Int)).toNat

/-- `ensureIndex(index, count, label)`: fails unless the index is an integer in
`[0, count)` (indices are embedded as integers, so the `Number.isInteger` check
is always satisfied). -/
def ensureIndex (index : Int) (count : Nat) (label : String) : Except String Unit :=
  if index < 0 ∨ (count : Int) ≤ index then
    Except.error (label ++ " is out of bounds")
  else
    Except.ok ()

/-- `currentDirection` labels in the memento. -/
inductive DirectionLabel where
  | clockwise
  | counterclockwise
deriving DecidableEq, Repr

/-- `toDirection`. -/
def toDirection : DirectionLabel → Int
  | DirectionLabel.clockwise => 1
  | DirectionLabel.counterclockwise => -1

/-- The `pendingUno` field: which player is accusable and whether the window is
still open. -/
structure PendingUno where
  player : Nat
  windowOpen : Bool
deriving DecidableEq, Repr

/-- The mutable state of a `RoundImpl` instance (the end-of-round listener list
is omitted: it holds functions and is observable only through callback
invocation, which no claim concerns). -/
structure RoundState where
  players : List String
  dealer : Int
  hands : List (List Card)
  drawPileCards : List Card
  discardPileCards : List Card
  direction : Int
  currentPlayerIndex : Option Nat
  enforcedColor : Option Color
  unoDeclared : List Bool
  pendingUno : Option PendingUno
  ended : Bool
  winnerIndex : Option Nat
  cachedScore : Option Nat
deriving DecidableEq, Repr

namespace RoundState

/-- `this.playerCount` (fixed at construction as `players.length`). -/
def playerCount (s : RoundState) : Nat := s.players.length

/-- `this.topCard()`: the last element of the discard pile.  The constructor
rejects an empty discard pile, so the default is never read on a constructed
round. -/
def topCardD (s : RoundState) : Card := s.discardPileCards.getLastD Card.wild

end RoundState

/-- The memento format (`RoundMemento`).  `dealer`/`playerInTurn` are embedded
as integers so that out-of-bounds mementos are representable. -/
structure RoundMemento where
  players : List String
  hands : List (List Card)
  drawPile : List Card
  discardPile : List Card
  currentColor : Color
  currentDirection : DirectionLabel
  dealer : Int
  playerInTurn : Option Int
deriving DecidableEq, Repr

/-- The winners accumulator of the constructor and of `createRoundFromMemento`:
indices of empty hands, in order. -/
def winnersAux : Nat → List (List Card) → List Nat
  | _, [] => []
  | i, h :: t => if h.isEmpty then i :: winnersAux (i + 1) t else winnersAux (i + 1) t

def winnersOf (hands : List (List Card)) : List Nat := winnersAux 0 hands

/-- The `RoundImpl` constructor: copies the supplied state, initialises the
declared-UNO flags, and validates non-empty discard and at most one empty hand;
one empty hand makes the round start ended with that player as winner. -/
def mkRoundImpl (players : List String) (dealer : Int) (hands : List (List Card))
    (drawPile discardPile : List Card) (direction : Int)
    (currentPlayer : Option Nat) (enforcedColor : Option Color) :
    Except String RoundState :=
  if discardPile.length = 0 then
    Except.error "Discard pile cannot be empty"
  else
    if 1 < (winnersOf hands).length then
      Except.error "Round cannot be initialised with multiple winners"
    else if (winnersOf hands).length = 1 then
      Except.ok
        { players := players, dealer := dealer, hands := hands,
          drawPileCards := drawPile, discardPileCards := discardPile,
          direction := direction, currentPlayerIndex := none,
          enforcedColor := enforcedColor,
          unoDeclared := List.replicate players.length false,
          pendingUno := none, ended := true, winnerIndex := (winnersOf hands).head?,
          cachedScore := none }
    else
      match currentPlayer with
      | none => Except.error "playerInTurn must be defined for an unfinished round"
      | some cur =>
        Except.ok
          { players := players, dealer := dealer, hands := hands,
            drawPileCards := drawPile, discardPileCards := discardPile,
            direction := direction, currentPlayerIndex := some cur,
            enforcedColor := enforcedColor,
            unoDeclared := List.replicate players.length false,
            pendingUno := none, ended := false, winnerIndex := none,
            cachedScore := none }

/-- `validatePlayers`. -/
def validatePlayers (players : List String) : Except String Unit :=
  if players.length < 2 then Except.error "A round requires at least two players"
  else if 10 < players.length then Except.error "A round supports at most ten players"
  else Except.ok ()

/-- The `playerInTurn` step of `createRoundFromMemento`: ignored for a finished
memento, required and bounds-checked for an unfinished one. -/
def mementoCurrentPlayer (finished : Bool) (playerInTurn : Option Int) (count : Nat) :
    Except String (Option Nat) :=
  if finished then Except.ok none
  else
    match playerInTurn with
    | none => Except.error "playerInTurn is required for unfinished rounds"
    | some p =>
      match ensureIndex p count "playerInTurn" with
      | Except.error e => Except.error e
      | Except.ok () => Except.ok (some p.toNat)

/-- The top-card/`currentColor` consistency step of `createRoundFromMemento`. -/
def mementoEnforcedColor (top : Card) (normalizedColor : Color) :
    Except String (Option Color) :=
  if isWild top then Except.ok (some normalizedColor)
  else
    match cardColor top with
    | some c =>
      if c = normalizedColor then Except.ok none
      else Except.error "currentColor must match the color of the top discard"
    | none => Except.error "currentColor must match the color of the top discard"

/-- `createRoundFromMemento`: full re-validation of the snapshot, then the
`RoundImpl` constructor. -/
def createRoundFromMemento (m : RoundMemento) : Except String RoundState :=
  match validatePlayers m.players with
  | Except.error e => Except.error e
  | Except.ok () =>
  match ensureIndex m.dealer m.players.length "dealer" with
  | Except.error e => Except.error e
  | Except.ok () =>
  match ensureColorValue m.currentColor with
  | Except.error e => Except.error e
  | Except.ok normalizedColor =>
  if m.hands.length ≠ m.players.length then
    Except.error "Hands count must equal players count"
  else
  match cloneHandsWithValidation m.hands with
  | Except.error e => Except.error e
  | Except.ok hands =>
  match cloneCardsWithValidation m.drawPile with
  | Except.error e => Except.error e
  | Except.ok drawPile =>
  match cloneCardsWithValidation m.discardPile with
  | Except.error e => Except.error e
  | Except.ok discardPile =>
  if discardPile.length = 0 then
    Except.error "Discard pile cannot be empty"
  else
  if 1 < (winnersOf hands).length then
    Except.error "Round memento cannot contain multiple winners"
  else
  match mementoCurrentPlayer ((winnersOf hands).length == 1) m.playerInTurn
      m.players.length with
  | Except.error e => Except.error e
  | Except.ok currentPlayer =>
  match mementoEnforcedColor (discardPile.getLastD Card.wild) normalizedColor with
  | Except.error e => Except.error e
  | Except.ok enforcedColor =>
    mkRoundImpl m.players m.dealer hands drawPile discardPile
      (toDirection m.currentDirection) currentPlayer enforcedColor

namespace RoundState

/-- `this.canPlay(cardIndex)`. -/
def roundCanPlay (s : RoundState) (cardIndex : Nat) : Bool :=
  if s.ended then false
  else
    match s.currentPlayerIndex with
    | none => false
    | some cur =>
      let hand := s.hands.getD cur []
      if hand.length ≤ cardIndex then false
      else cardCanPlay (hand.getD cardIndex Card.wild) s.topCardD s.enforcedColor

/-- `this.canPlayAny()`. -/
def roundCanPlayAny (s : RoundState) : Bool :=
  if s.ended then false
  else
    match s.currentPlayerIndex with
    | none => false
    | some cur =>
      (s.hands.getD cur []).any (fun c => cardCanPlay c s.topCardD s.enforcedColor)

/-- `this.markActionBy(player)`: an action by anyone other than the pending-UNO
holder closes the accusation window.  Only `pendingUno` is touched. -/
def markActionBy (player : Nat) (s : RoundState) : RoundState :=
  { s with pendingUno :=
      match s.pendingUno with
      | none => none
      | some pu =>
        if pu.player ≠ player then some { pu with windowOpen := false } else some pu }

/-- The `pendingUno` value after the main branch of `updateUnoStateFor`. -/
def unoPending1 (player : Nat) (handSize : Nat) (declared : Bool)
    (pending : Option PendingUno) : Option PendingUno :=
  if handSize = 1 then
    if declared = false then some { player := player, windowOpen := true }
    else
      match pending with
      | some pu => if pu.player = player then none else some pu
      | none => none
  else
    match pending with
    | some pu => if pu.player = player then none else some pu
    | none => none

/-- `this.updateUnoStateFor(player)`: only `unoDeclared` and `pendingUno` are
touched (the trailing consistency check reads the unchanged hands). -/
def updateUnoStateFor (player : Nat) (s : RoundState) : RoundState :=
  let handSize := (s.hands.getD player []).length
  let declared1 :=
    if handSize = 1 then s.unoDeclared else s.unoDeclared.set player false
  let pending1 :=
    unoPending1 player handSize (s.unoDeclared.getD player false) s.pendingUno
  let pending2 :=
    match pending1 with
    | some pu =>
      if (s.hands.getD pu.player []).length ≠ 1 then none else some pu
    | none => none
  { s with unoDeclared := declared1, pendingUno := pending2 }

/-- `this.refillDrawPile()`: moves all discard cards except the top into a
fresh draw pile (running the injected shuffler over them), keeping the top as
the whole discard pile; fails if at most the top card remains. -/
def refillDrawPile (shuffler : List Card → List Card) (s : RoundState) :
    Except String Unit × RoundState :=
  if 0 < s.drawPileCards.length then (Except.ok (), s)
  else if s.discardPileCards.length ≤ 1 then
    (Except.error "Cannot replenish draw pile", s)
  else
    match s.discardPileCards.getLast? with
    | none => (Except.error "Cannot replenish draw pile", s)
    | some top =>
      (Except.ok (),
       { s with drawPileCards := shuffler s.discardPileCards.dropLast,
                discardPileCards := [top] })

/-- `this.takeFromDrawPile()`: refill when empty, then shift the front card. -/
def takeFromDrawPile (shuffler : List Card → List Card) (s : RoundState) :
    Except String Card × RoundState :=
  match (if s.drawPileCards.length = 0 then refillDrawPile shuffler s
         else (Except.ok (), s)) with
  | (Except.error e, s1) => (Except.error e, s1)
  | (Except.ok (), s1) =>
    match s1.drawPileCards with
    | [] => (Except.error "No cards available to draw", s1)
    | c :: rest => (Except.ok c, { s1 with drawPileCards := rest })

/-- `this.drawCardsForPlayer(player, count)`: takes `count` cards one at a time,
pushing each into the player's hand; an exhaustion error mid-loop leaves the
cards already pushed. -/
def drawCardsForPlayer (shuffler : List Card → List Card) (player : Nat) :
    Nat → RoundState → Except String Unit × RoundState
  | 0, s => (Except.ok (), s)
  | n + 1, s =>
    match takeFromDrawPile shuffler s with
    | (Except.error e, s1) => (Except.error e, s1)
    | (Except.ok c, s1) =>
      drawCardsForPlayer shuffler player n
        { s1 with hands := s1.hands.set player (s1.hands.getD player [] ++ [c]) }

/-- `this.applyPenalty(player, cards)`. -/
def applyPenalty (shuffler : List Card → List Card) (player : Nat) (count : Nat)
    (s : RoundState) : Except String Unit × RoundState :=
  match drawCardsForPlayer shuffler player count s with
  | (Except.error e, s1) => (Except.error e, s1)
  | (Except.ok (), s1) => (Except.ok (), updateUnoStateFor player s1)

/-- `this.advance(steps)`: only `currentPlayerIndex` is touched. -/
def advance (steps : Nat) (s : RoundState) : RoundState :=
  { s with currentPlayerIndex :=
      match s.currentPlayerIndex with
      | none => none
      | some cur => some (tsMod ((cur : Int) + (steps : Int) * s.direction) s.playerCount) }

/-- `this.nextIndexFromCurrent(offset)` for a known current player. -/
def nextIndexFromCurrent (current : Nat) (offset : Nat) (s : RoundState) : Nat :=
  tsMod ((current : Int) + (offset : Int) * s.direction) s.playerCount

/-- `this.computeScore(winner)`: sum of card points over all non-winning hands. -/
def cardPoints : Card → Nat
  | Card.numbered _ n => n
  | Card.skip _ => 20
  | Card.reverse _ => 20
  | Card.draw _ => 20
  | Card.wild => 50
  | Card.wildDraw => 50

def computeScoreAux (winner : Nat) : Nat → List (List Card) → Nat
  | _, [] => 0
  | i, h :: t =>
    (if i = winner then 0 else (h.map cardPoints).sum) + computeScoreAux winner (i + 1) t

def computeScore (winner : Nat) (s : RoundState) : Nat :=
  computeScoreAux winner 0 s.hands

/-- `this.finishRound(winner)` (listener multicast omitted, see above). -/
def finishRound (winner : Nat) (s : RoundState) : RoundState :=
  if s.ended then s
  else
    { s with ended := true, winnerIndex := some winner, currentPlayerIndex := none,
             cachedScore := some (s.computeScore winner) }

/-- The card-to-discard move inside `play`: `hand.splice(cardIndex, 1)` followed
by `discardPileCards.push(card)`. -/
def playMove (current : Nat) (cardIndex : Nat) (card : Card) (s : RoundState) :
    RoundState :=
  { s with hands := s.hands.set current ((s.hands.getD current []).eraseIdx cardIndex),
           discardPileCards := s.discardPileCards ++ [card] }

/-- The wild/non-wild color handling inside `play`, reached after the card has
already been moved to the discard pile. -/
def setEnforcedForCard (card : Card) (color : Option Color) (s : RoundState) :
    Except String Unit × RoundState :=
  if isWild card then
    match color with
    | none => (Except.error "Color must be specified when playing a wild card", s)
    | some c =>
      match ensureColorValue c with
      | Except.error e => (Except.error e, s)
      | Except.ok c' => (Except.ok (), { s with enforcedColor := some c' })
  else
    match color with
    | some _ => (Except.error "Color can only be provided for wild cards", s)
    | none => (Except.ok (), { s with enforcedColor := none })

/-- The `switch (card.type)` inside `play`: computes the step count and applies
reverse/penalty effects. -/
def cardEffects (shuffler : List Card → List Card) (current : Nat) (card : Card)
    (s : RoundState) : Except String Nat × RoundState :=
  match card with
  | Card.skip _ => (Except.ok 2, s)
  | Card.reverse _ =>
    if s.playerCount = 2 then (Except.ok 2, { s with direction := -s.direction })
    else (Except.ok 1, { s with direction := -s.direction })
  | Card.draw _ =>
    match applyPenalty shuffler (nextIndexFromCurrent current 1 s) 2 s with
    | (Except.error e, s1) => (Except.error e, s1)
    | (Except.ok (), s1) => (Except.ok 2, markActionBy (nextIndexFromCurrent current 1 s) s1)
  | Card.wild => (Except.ok 1, s)
  | Card.wildDraw =>
    match applyPenalty shuffler (nextIndexFromCurrent current 1 s) 4 s with
    | (Except.error e, s1) => (Except.error e, s1)
    | (Except.ok (), s1) => (Except.ok 2, markActionBy (nextIndexFromCurrent current 1 s) s1)
  | Card.numbered _ _ => (Except.ok 1, s)

/-- The tail of `play` after the effects switch: recompute the actor's UNO
state, finish the round if the hand emptied, otherwise advance. -/
def playFinish (current : Nat) (steps : Nat) (s : RoundState) : RoundState :=
  let s5 := updateUnoStateFor current s
  if (s5.hands.getD current []).length = 0 then
    finishRound current { s5 with pendingUno := none }
  else if s5.ended then s5
  else advance steps s5

/-- `play(cardIndex, color?)`.  (`markActionBy` leaves `hands` untouched, so the
card is read off `s.hands` directly, exactly the array the TypeScript reads.) -/
def play (shuffler : List Card → List Card) (cardIndex : Nat) (color : Option Color)
    (s : RoundState) : Except String Card × RoundState :=
  if s.ended then (Except.error "Round has finished", s)
  else
    match s.currentPlayerIndex with
    | none => (Except.error "No player currently in turn", s)
    | some current =>
      if (s.hands.getD current []).length ≤ cardIndex then
        (Except.error "Card index out of bounds", s)
      else if (markActionBy current s).roundCanPlay cardIndex = false then
        (Except.error "Card cannot be played", markActionBy current s)
      else
        match setEnforcedForCard ((s.hands.getD current []).getD cardIndex Card.wild)
            color
            (playMove current cardIndex
              ((s.hands.getD current []).getD cardIndex Card.wild)
              (markActionBy current s)) with
        | (Except.error e, s2') => (Except.error e, s2')
        | (Except.ok (), s3) =>
          match cardEffects shuffler current
              ((s.hands.getD current []).getD cardIndex Card.wild) s3 with
          | (Except.error e, s4) => (Except.error e, s4)
          | (Except.ok steps, s4) =>
            (Except.ok ((s.hands.getD current []).getD cardIndex Card.wild),
              playFinish current steps s4)

/-- The trailing turn-advance decision of `draw()`: the turn moves on only when
the drawn card is not playable against the (unchanged) top/enforced color. -/
def drawAdvance (c : Card) (s4 : RoundState) : RoundState :=
  if cardCanPlay c s4.topCardD s4.enforcedColor then s4 else advance 1 s4

/-- `draw()`. -/
def draw (shuffler : List Card → List Card) (s : RoundState) :
    Except String Card × RoundState :=
  if s.ended then (Except.error "Round has finished", s)
  else
    match s.currentPlayerIndex with
    | none => (Except.error "No player currently in turn", s)
    | some current =>
      match takeFromDrawPile shuffler (markActionBy current s) with
      | (Except.error e, s2) => (Except.error e, s2)
      | (Except.ok c, s2) =>
        (Except.ok c,
          drawAdvance c
            (updateUnoStateFor current
              { s2 with hands := s2.hands.set current (s2.hands.getD current [] ++ [c]) }))

/-- The state change of a successful `sayUno`: set the declared flag, close any
window pending on the declaring player. -/
def sayUnoApply (p : Nat) (s : RoundState) : RoundState :=
  { s with unoDeclared := s.unoDeclared.set p true,
           pendingUno :=
             match s.pendingUno with
             | some pu => if pu.player = p then none else some pu
             | none => none }

/-- `sayUno(playerIndex)`. -/
def sayUno (playerIndex : Int) (s : RoundState) : Except String Unit × RoundState :=
  match ensureIndex playerIndex s.playerCount "player" with
  | Except.error e => (Except.error e, s)
  | Except.ok () =>
    if s.ended then (Except.error "Round has finished", s)
    else if 2 < (s.hands.getD playerIndex.toNat []).length then
      (Except.error "UNO can only be declared with two or fewer cards", s)
    else
      (Except.ok (), sayUnoApply playerIndex.toNat s)

/-- `catchUnoFailure({accuser, accused})`. -/
def catchUnoFailure (shuffler : List Card → List Card) (accuser accused : Int)
    (s : RoundState) : Except String Bool × RoundState :=
  match ensureIndex accuser s.playerCount "player" with
  | Except.error e => (Except.error e, s)
  | Except.ok () =>
  match ensureIndex accused s.playerCount "player" with
  | Except.error e => (Except.error e, s)
  | Except.ok () =>
    match s.pendingUno with
    | none => (Except.ok false, s)
    | some pu =>
      if pu.player ≠ accused.toNat then (Except.ok false, s)
      else if pu.windowOpen = false then (Except.ok false, s)
      else if s.unoDeclared.getD accused.toNat false then (Except.ok false, s)
      else if (s.hands.getD accused.toNat []).length ≠ 1 then (Except.ok false, s)
      else
        match applyPenalty shuffler accused.toNat 4 { s with pendingUno := none } with
        | (Except.error e, s2) => (Except.error e, s2)
        | (Except.ok (), s2) =>
          (Except.ok true,
            { s2 with unoDeclared := s2.unoDeclared.set accused.toNat false })

/-- `this.currentColor()`: the enforced color, else the top card's intrinsic
color; throws on a colorless top with no enforced color. -/
def currentColorE (s : RoundState) : Except String Color :=
  match s.enforcedColor with
  | some c => Except.ok c
  | none =>
    match s.discardPileCards.getLast? with
    | none => Except.error "Current color is undefined"
    | some top =>
      match cardColor top with
      | some c => Except.ok c
      | none => Except.error "Current color is undefined"

/-- `toMemento()`: a deep value snapshot (card cloning is the identity on the
value-typed embedding). -/
def toMemento (s : RoundState) : Except String RoundMemento :=
  match currentColorE s with
  | Except.error e => Except.error e
  | Except.ok c =>
    Except.ok
      { players := s.players, hands := s.hands, drawPile := s.drawPileCards,
        discardPile := s.discardPileCards, currentColor := c,
        currentDirection :=
          if s.direction = 1 then DirectionLabel.clockwise
          else DirectionLabel.counterclockwise,
        dealer := s.dealer,
        playerInTurn :=
          if s.ended then none else s.currentPlayerIndex.map (fun n => (n : Int)) }

end RoundState

/-!
## Pile views

`drawPile()` evaluates `new DrawPileView(this.drawPileCards)` and
`discardPile()` evaluates `new DiscardPileView(this.discardPileCards)`: the view
object stores a reference to the very array the round owns (no copy is made), so
the mutating view methods (`deal`, the in-place `shuffle`) act directly on the
round's internal pile.  As state transformations on the owning round: -/

namespace RoundState

/-- `DrawPileView.deal()` = `this.pile.shift()` on the round's own
`drawPileCards` array. -/
def drawPileViewDeal (s : RoundState) : Option Card × RoundState :=
  match s.drawPileCards with
  | [] => (none, s)
  | c :: rest => (some c, { s with drawPileCards := rest })

/-- `DrawPileView.shuffle(f)` = `f(this.pile)` in place on the round's own
`drawPileCards` array. -/
def drawPileViewShuffle (f : List Card → List Card) (s : RoundState) : RoundState :=
  { s with drawPileCards := f s.drawPileCards }

/-- `DiscardPileView.deal()` = `this.pile.shift()` on the round's own
`discardPileCards` array. -/
def discardPileViewDeal (s : RoundState) : Option Card × RoundState :=
  match s.discardPileCards with
  | [] => (none, s)
  | c :: rest => (some c, { s with discardPileCards := rest })

end RoundState

/-!
## Initial deal

`createRound` builds the initial state in a retry loop: each attempt shuffles a
fresh full deck (external `createInitialDeck`, drained into a plain list), deals
round-robin, flips the first discard, retries on a wild flip, and resolves
opening-card effects.  One attempt, given the drained shuffled deck as a list,
is embedded below; `none` covers both the retry-on-wild case and the
deck-exhaustion errors. -/

structure InitialState where
  hands : List (List Card)
  drawPile : List Card
  discardPile : List Card
  currentPlayer : Nat
  direction : Int
deriving DecidableEq, Repr

/-- The round-robin deal: `hands[p]` receives the cards at positions
`p, p + n, p + 2n, …` of the shuffled deck, matching the nested
card-by-card `shift` loops. -/
def dealHands (playersLen cardsPerPlayer : Nat) (cards : List Card) :
    List (List Card) :=
  (List.range playersLen).map (fun p =>
    (List.range cardsPerPlayer).map
      (fun i => cards.getD (i * playersLen + p) Card.wild))

/-- The opening-card `switch` of `buildInitialState`, resolved relative to the
dealer. -/
def openingEffects (playersLen dealer : Nat) (hands : List (List Card))
    (firstDiscard : Card) (rest' : List Card) : Option InitialState :=
  match firstDiscard with
  | Card.skip _ =>
    some { hands := hands, drawPile := rest', discardPile := [firstDiscard],
           currentPlayer := tsMod ((dealer : Int) + 2) playersLen, direction := 1 }
  | Card.reverse _ =>
    if playersLen = 2 then
      some { hands := hands, drawPile := rest', discardPile := [firstDiscard],
             currentPlayer := dealer, direction := -1 }
    else
      some { hands := hands, drawPile := rest', discardPile := [firstDiscard],
             currentPlayer := tsMod ((dealer : Int) - 1) playersLen, direction := -1 }
  | Card.draw _ =>
    if rest'.length < 2 then none
    else
      some { hands := hands.set (tsMod ((dealer : Int) + 1) playersLen)
               (hands.getD (tsMod ((dealer : Int) + 1) playersLen) [] ++ rest'.take 2),
             drawPile := rest'.drop 2, discardPile := [firstDiscard],
             currentPlayer := tsMod ((dealer : Int) + 2) playersLen, direction := 1 }
  | _ =>
    some { hands := hands, drawPile := rest', discardPile := [firstDiscard],
           currentPlayer := tsMod ((dealer : Int) + 1) playersLen, direction := 1 }

def buildInitialAttempt (playersLen : Nat) (dealer : Nat) (cardsPerPlayer : Nat)
    (cards : List Card) : Option InitialState :=
  if cards.length < playersLen * cardsPerPlayer + 1 then none
  else
    match cards.drop (playersLen * cardsPerPlayer) with
    | [] => none
    | firstDiscard :: rest' =>
      if isWild firstDiscard then none
      else
        openingEffects playersLen dealer (dealHands playersLen cardsPerPlayer cards)
          firstDiscard rest'

/-- The state `createRound` hands to the `RoundImpl` constructor after a
successful deal attempt. -/
def mkRoundFromInitial (players : List String) (dealer : Int) (init : InitialState) :
    Except String RoundState :=
  mkRoundImpl players dealer init.hands init.drawPile init.discardPile
    init.direction (some init.currentPlayer) none

/-! ## List and arithmetic helpers -/

theorem getD_set_self {α : Type} (l : List α) (i : Nat) (a d : α) (h : i < l.length) :
    (l.set i a).getD i d = a := by
  simp [List.getD_eq_getElem?_getD, List.getElem?_set_self h]

theorem getD_set_other {α : Type} (l : List α) {i j : Nat} (a d : α) (h : i ≠ j) :
    (l.set i a).getD j d = l.getD j d := by
  simp [List.getD_eq_getElem?_getD, List.getElem?_set_ne h]

theorem getD_mem {α : Type} {l : List α} {j : Nat} (d : α) (h : j < l.length) :
    l.getD j d ∈ l := by
  rw [List.getD_eq_getElem?_getD, List.getElem?_eq_getElem h]
  exact List.getElem_mem h

theorem exists_getD_of_mem {α : Type} {l : List α} {a : α} (d : α) (h : a ∈ l) :
    ∃ j, j < l.length ∧ l.getD j d = a := by
  obtain ⟨⟨j, hj⟩, hget⟩ := List.mem_iff_get.mp h
  refine ⟨j, hj, ?_⟩
  rw [List.getD_eq_getElem?_getD, List.getElem?_eq_getElem hj]
  simpa using hget

theorem getD_append_left {α : Type} (l l' : List α) (j : Nat) (d : α)
    (h : j < l.length) : (l ++ l').getD j d = l.getD j d := by
  simp [List.getD_eq_getElem?_getD, List.getElem?_append_left h]

/-- `tmod` negates with its first argument. -/
theorem tmod_neg_left (a b : Int) : (-a).tmod b = -(a.tmod b) := by
  rw [Int.tmod_def, Int.tmod_def, Int.neg_tdiv]
  ring

theorem tmod_lower (v n : Int) (h : 0 < n) : -n < v.tmod n := by
  have h2 := tmod_neg_left v n
  have h3 := Int.tmod_lt_of_pos (-v) h
  omega

/-- For a positive modulus, `tsMod` agrees with the mathematical (Euclidean)
remainder. -/
theorem tsMod_eq_emod (v : Int) (n : Nat) (h : 0 < n) :
    (tsMod v n : Int) = v % (n : Int) := by
  have hn : (0 : Int) < (n : Int) := by exact_mod_cast h
  have hup := Int.tmod_lt_of_pos v hn
  have hlow := tmod_lower v (n : Int) hn
  have hcong : (v.tmod (n : Int)) % (n : Int) = v % (n : Int) := by
    rw [Int.tmod_def]
    conv_lhs => rw [sub_eq_add_neg, neg_mul_eq_mul_neg]
    rw [Int.add_mul_emod_self_left]
  unfold tsMod
  by_cases hr : 0 ≤ v.tmod (n : Int)
  · simp only [hr, if_pos]
    rw [Int.toNat_of_nonneg hr, ← hcong, Int.emod_eq_of_lt hr hup]
  · simp only [hr, if_neg, if_false]
    have h0 : 0 ≤ v.tmod (n : Int) + (n : Int) := by omega
    rw [Int.toNat_of_nonneg h0, ← hcong]
    have : (v.tmod (n : Int) + (n : Int)) % (n : Int) = (v.tmod (n : Int)) % (n : Int) := by
      have := Int.add_mul_emod_self_left (v.tmod (n : Int)) (n : Int) 1
      simp only [mul_one] at this
      exact this
    rw [← this, Int.emod_eq_of_lt h0 (by omega)]

theorem tsMod_lt (v : Int) (n : Nat) (h : 0 < n) : tsMod v n < n := by
  have hn : (0 : Int) < (n : Int) := by exact_mod_cast h
  have := Int.emod_lt_of_pos v hn
  have heq := tsMod_eq_emod v n h
  omega

theorem tsMod_of_lt {v : Int} {n : Nat} (h0 : 0 ≤ v) (h : v < (n : Int)) :
    (tsMod v n : Int) = v := by
  have hn : (0 : Nat) < n := by
    by_contra hc
    interval_cases n
    omega
  rw [tsMod_eq_emod v n hn, Int.emod_eq_of_lt h0 h]

/-- Stepping one seat in either direction never stays on the same player when
there are at least two seats. -/
theorem tsMod_step_ne {cur : Nat} {n : Nat} {d : Int} (hcur : cur < n) (hn : 2 ≤ n)
    (hd : d = 1 ∨ d = -1) : tsMod ((cur : Int) + 1 * d) n ≠ cur := by
  intro hEq
  have hn0 : 0 < n := by omega
  have heq := tsMod_eq_emod ((cur : Int) + 1 * d) n hn0
  have hcc : ((cur : Int)) % (n : Int) = (cur : Int) := by
    apply Int.emod_eq_of_lt (by exact_mod_cast Nat.zero_le cur)
    exact_mod_cast hcur
  have hde : ((cur : Int) + 1 * d) % (n : Int) = (cur : Int) := by
    rw [← heq, hEq]
  have hdvd : ((1 : Int) * d) % (n : Int) = 0 := by
    have := Int.sub_emod ((cur : Int) + 1 * d) (cur : Int) (n : Int)
    simp only [add_sub_cancel_left] at this
    rw [this, hde, hcc, sub_self, Int.zero_emod]
  have hd1 : ((1 : Int) * d) = d := one_mul d
  rw [hd1] at hdvd
  have hdv : (n : Int) ∣ d := Int.dvd_of_emod_eq_zero hdvd
  rcases hd with h1 | h1 <;> rw [h1] at hdv
  · have := Int.le_of_dvd (by omega) hdv
    omega
  · have h2 : (n : Int) ∣ 1 := (dvd_neg).mp hdv
    have := Int.le_of_dvd (by omega) h2
    omega

/-! ## Winners-list lemmas -/

theorem winnersAux_eq_nil_iff (i : Nat) (hands : List (List Card)) :
    winnersAux i hands = [] ↔ ∀ h ∈ hands, h ≠ [] := by
  induction hands generalizing i with
  | nil => simp [winnersAux]
  | cons h t ih =>
    by_cases he : h.isEmpty
    · have : h = [] := List.isEmpty_iff.mp he
      simp [winnersAux, he, this]
    · have hne : h ≠ [] := fun hc => he (by simp [hc])
      simp only [winnersAux, he, if_neg, Bool.false_eq_true, ite_false]
      rw [ih (i + 1)]
      constructor
      · intro ha h' hm
        rcases List.mem_cons.mp hm with rfl | hm'
        · exact hne
        · exact ha h' hm'
      · intro ha h' hm
        exact ha h' (List.mem_cons_of_mem _ hm)

theorem winnersAux_singleton_of (i : Nat) (hands : List (List Card)) (k : Nat)
    (hk : k < hands.length) (he : hands.getD k [] = [])
    (ho : ∀ j, j < hands.length → j ≠ k → hands.getD j [] ≠ []) :
    winnersAux i hands = [i + k] := by
  induction hands generalizing i k with
  | nil => simp at hk
  | cons h t ih =>
    cases k with
    | zero =>
      have hh : h = [] := by simpa using he
      have hrest : winnersAux (i + 1) t = [] := by
        rw [winnersAux_eq_nil_iff]
        intro h' hm
        obtain ⟨j, hj, hget⟩ := exists_getD_of_mem ([] : List Card) hm
        have := ho (j + 1) (by simpa using Nat.succ_lt_succ hj) (by omega)
        simp only [List.getD_cons_succ] at this
        rw [hget] at this
        exact this
      simp [winnersAux, hh, hrest]
    | succ k' =>
      have hh : h ≠ [] := by
        have := ho 0 (by omega) (by omega)
        simpa using this
      have hhe : h.isEmpty = false := by
        cases h with
        | nil => exact absurd rfl hh
        | cons a t' => rfl
      simp only [winnersAux, hhe, Bool.false_eq_true, ite_false]
      have := ih (i + 1) k' (by simpa using Nat.lt_of_succ_lt_succ hk)
        (by simpa using he)
        (by
          intro j hj hjk
          have := ho (j + 1) (by simpa using Nat.succ_lt_succ hj) (by omega)
          simpa using this)
      rw [this]
      congr 1
      omega

theorem winnersAux_singleton_inv (i : Nat) (hands : List (List Card)) (w : Nat)
    (h : winnersAux i hands = [w]) :
    ∃ k, k < hands.length ∧ w = i + k ∧ hands.getD k [] = [] ∧
      ∀ j, j < hands.length → j ≠ k → hands.getD j [] ≠ [] := by
  induction hands generalizing i with
  | nil => simp [winnersAux] at h
  | cons hd t ih =>
    by_cases he : hd.isEmpty
    · have hh : hd = [] := List.isEmpty_iff.mp he
      simp only [winnersAux, he, ite_true] at h
      obtain ⟨hw1, hw2⟩ := List.cons_eq_cons.mp h
      refine ⟨0, by simp, by omega, by simpa using hh, ?_⟩
      intro j hj hj0
      cases j with
      | zero => omega
      | succ j' =>
        rw [winnersAux_eq_nil_iff] at hw2
        simp only [List.getD_cons_succ]
        intro hc
        have hjlen : j' < t.length := by simpa using hj
        exact hw2 (t.getD j' []) (getD_mem ([] : List Card) hjlen) hc
    · have hh : hd ≠ [] := fun hc => he (by simp [hc])
      simp only [winnersAux, he, Bool.false_eq_true, ite_false] at h
      obtain ⟨k, hk, hw, hke, hko⟩ := ih (i + 1) h
      refine ⟨k + 1, by simpa using Nat.succ_lt_succ hk, by omega,
        by simpa using hke, ?_⟩
      intro j hj hjk
      cases j with
      | zero => simpa using hh
      | succ j' =>
        have := hko j' (by simpa using Nat.lt_of_succ_lt_succ hj) (by omega)
        simpa using this

theorem winnersOf_eq_nil_iff (hands : List (List Card)) :
    winnersOf hands = [] ↔ ∀ h ∈ hands, h ≠ [] :=
  winnersAux_eq_nil_iff 0 hands

theorem winnersOf_singleton_of (hands : List (List Card)) (k : Nat)
    (hk : k < hands.length) (he : hands.getD k [] = [])
    (ho : ∀ j, j < hands.length → j ≠ k → hands.getD j [] ≠ []) :
    winnersOf hands = [k] := by
  have := winnersAux_singleton_of 0 hands k hk he ho
  simpa using this

theorem winnersOf_singleton_inv (hands : List (List Card)) (w : Nat)
    (h : winnersOf hands = [w]) :
    w < hands.length ∧ hands.getD w [] = [] ∧
      ∀ j, j < hands.length → j ≠ w → hands.getD j [] ≠ [] := by
  obtain ⟨k, hk, hw, hke, hko⟩ := winnersAux_singleton_inv 0 hands w h
  have : w = k := by omega
  subst this
  exact ⟨hk, hke, hko⟩

/-- Emptiness count for the "at most one empty hand" invariant. -/
def countEmptyHands (hands : List (List Card)) : Nat :=
  (hands.filter (fun h => h.isEmpty)).length

theorem winnersAux_length (i : Nat) (hands : List (List Card)) :
    (winnersAux i hands).length = countEmptyHands hands := by
  induction hands generalizing i with
  | nil => simp [winnersAux, countEmptyHands]
  | cons h t ih =>
    by_cases he : h.isEmpty <;>
      simp [winnersAux, countEmptyHands, he, List.filter_cons, ih (i + 1)]

theorem countEmptyHands_eq (hands : List (List Card)) :
    countEmptyHands hands = (winnersOf hands).length :=
  (winnersAux_length 0 hands).symm

/-! ## Card helpers -/

theorem ensureColorValue_ok (c : Color) : ensureColorValue c = Except.ok c := by
  cases c <;> rfl

theorem cardColor_isSome_of_not_wild {c : Card} (h : isWild c = false) :
    ∃ col, cardColor c = some col := by
  cases c <;> simp [cardColor] <;> simp [isWild] at h

theorem cardCanPlay_wild (c top : Card) (enforced : Option Color) (h : isWild c = true) :
    cardCanPlay c top enforced = true := by
  unfold cardCanPlay
  rw [h]
  rfl

theorem isWild_iff_cardColor_none (c : Card) : isWild c = true ↔ cardColor c = none := by
  cases c <;> simp [isWild, cardColor]

/-! ## The claim vocabulary for turn advancement (C4) -/

/-- The step count of the variant effect table: 1 for NUMBERED and WILD, 2 for
SKIP, DRAW and WILD DRAW, and for REVERSE 2 in a two-player round (acting as a
skip) and 1 otherwise. -/
def stepCount (card : Card) (n : Nat) : Nat :=
  match card with
  | Card.skip _ => 2
  | Card.reverse _ => if n = 2 then 2 else 1
  | Card.draw _ => 2
  | Card.wildDraw => 2
  | _ => 1

/-- The direction after playing a card: flipped by REVERSE, otherwise kept. -/
def dirAfter (card : Card) (dir : Int) : Int :=
  match card with
  | Card.reverse _ => -dir
  | _ => dir

/-! ## Frame lemmas for the state helpers -/

namespace RoundState

@[simp] theorem markActionBy_players (p : Nat) (s : RoundState) :
    (markActionBy p s).players = s.players := rfl

@[simp] theorem markActionBy_dealer (p : Nat) (s : RoundState) :
    (markActionBy p s).dealer = s.dealer := rfl

@[simp] theorem markActionBy_hands (p : Nat) (s : RoundState) :
    (markActionBy p s).hands = s.hands := rfl

@[simp] theorem markActionBy_drawPileCards (p : Nat) (s : RoundState) :
    (markActionBy p s).drawPileCards = s.drawPileCards := rfl

@[simp] theorem markActionBy_discardPileCards (p : Nat) (s : RoundState) :
    (markActionBy p s).discardPileCards = s.discardPileCards := rfl

@[simp] theorem markActionBy_direction (p : Nat) (s : RoundState) :
    (markActionBy p s).direction = s.direction := rfl

@[simp] theorem markActionBy_currentPlayerIndex (p : Nat) (s : RoundState) :
    (markActionBy p s).currentPlayerIndex = s.currentPlayerIndex := rfl

@[simp] theorem markActionBy_enforcedColor (p : Nat) (s : RoundState) :
    (markActionBy p s).enforcedColor = s.enforcedColor := rfl

@[simp] theorem markActionBy_unoDeclared (p : Nat) (s : RoundState) :
    (markActionBy p s).unoDeclared = s.unoDeclared := rfl

@[simp] theorem markActionBy_ended (p : Nat) (s : RoundState) :
    (markActionBy p s).ended = s.ended := rfl

@[simp] theorem markActionBy_winnerIndex (p : Nat) (s : RoundState) :
    (markActionBy p s).winnerIndex = s.winnerIndex := rfl

@[simp] theorem markActionBy_cachedScore (p : Nat) (s : RoundState) :
    (markActionBy p s).cachedScore = s.cachedScore := rfl

@[simp] theorem markActionBy_topCardD (p : Nat) (s : RoundState) :
    (markActionBy p s).topCardD = s.topCardD := rfl

@[simp] theorem markActionBy_playerCount (p : Nat) (s : RoundState) :
    (markActionBy p s).playerCount = s.playerCount := rfl

theorem markActionBy_pendingUno_none (p : Nat) (s : RoundState)
    (h : s.pendingUno = none) : (markActionBy p s).pendingUno = none := by
  unfold markActionBy
  rw [h]

@[simp] theorem updateUnoStateFor_players (p : Nat) (s : RoundState) :
    (updateUnoStateFor p s).players = s.players := rfl

@[simp] theorem updateUnoStateFor_dealer (p : Nat) (s : RoundState) :
    (updateUnoStateFor p s).dealer = s.dealer := rfl

@[simp] theorem updateUnoStateFor_hands (p : Nat) (s : RoundState) :
    (updateUnoStateFor p s).hands = s.hands := rfl

@[simp] theorem updateUnoStateFor_drawPileCards (p : Nat) (s : RoundState) :
    (updateUnoStateFor p s).drawPileCards = s.drawPileCards := rfl

@[simp] theorem updateUnoStateFor_discardPileCards (p : Nat) (s : RoundState) :
    (updateUnoStateFor p s).discardPileCards = s.discardPileCards := rfl

@[simp] theorem updateUnoStateFor_direction (p : Nat) (s : RoundState) :
    (updateUnoStateFor p s).direction = s.direction := rfl

@[simp] theorem updateUnoStateFor_currentPlayerIndex (p : Nat) (s : RoundState) :
    (updateUnoStateFor p s).currentPlayerIndex = s.currentPlayerIndex := rfl

@[simp] theorem updateUnoStateFor_enforcedColor (p : Nat) (s : RoundState) :
    (updateUnoStateFor p s).enforcedColor = s.enforcedColor := rfl

@[simp] theorem updateUnoStateFor_ended (p : Nat) (s : RoundState) :
    (updateUnoStateFor p s).ended = s.ended := rfl

@[simp] theorem updateUnoStateFor_winnerIndex (p : Nat) (s : RoundState) :
    (updateUnoStateFor p s).winnerIndex = s.winnerIndex := rfl

@[simp] theorem updateUnoStateFor_cachedScore (p : Nat) (s : RoundState) :
    (updateUnoStateFor p s).cachedScore = s.cachedScore := rfl

@[simp] theorem updateUnoStateFor_topCardD (p : Nat) (s : RoundState) :
    (updateUnoStateFor p s).topCardD = s.topCardD := rfl

@[simp] theorem updateUnoStateFor_playerCount (p : Nat) (s : RoundState) :
    (updateUnoStateFor p s).playerCount = s.playerCount := rfl

theorem updateUnoStateFor_unoDeclared_length (p : Nat) (s : RoundState) :
    (updateUnoStateFor p s).unoDeclared.length = s.unoDeclared.length := by
  simp only [updateUnoStateFor]
  by_cases h : (s.hands.getD p []).length = 1
  · rw [if_pos h]
  · rw [if_neg h]
    exact List.length_set s.unoDeclared p false

@[simp] theorem advance_players (k : Nat) (s : RoundState) :
    (advance k s).players = s.players := rfl

@[simp] theorem advance_dealer (k : Nat) (s : RoundState) :
    (advance k s).dealer = s.dealer := rfl

@[simp] theorem advance_hands (k : Nat) (s : RoundState) :
    (advance k s).hands = s.hands := rfl

@[simp] theorem advance_drawPileCards (k : Nat) (s : RoundState) :
    (advance k s).drawPileCards = s.drawPileCards := rfl

@[simp] theorem advance_discardPileCards (k : Nat) (s : RoundState) :
    (advance k s).discardPileCards = s.discardPileCards := rfl

@[simp] theorem advance_direction (k : Nat) (s : RoundState) :
    (advance k s).direction = s.direction := rfl

@[simp] theorem advance_enforcedColor (k : Nat) (s : RoundState) :
    (advance k s).enforcedColor = s.enforcedColor := rfl

@[simp] theorem advance_unoDeclared (k : Nat) (s : RoundState) :
    (advance k s).unoDeclared = s.unoDeclared := rfl

@[simp] theorem advance_pendingUno (k : Nat) (s : RoundState) :
    (advance k s).pendingUno = s.pendingUno := rfl

@[simp] theorem advance_ended (k : Nat) (s : RoundState) :
    (advance k s).ended = s.ended := rfl

@[simp] theorem advance_winnerIndex (k : Nat) (s : RoundState) :
    (advance k s).winnerIndex = s.winnerIndex := rfl

@[simp] theorem advance_cachedScore (k : Nat) (s : RoundState) :
    (advance k s).cachedScore = s.cachedScore := rfl

@[simp] theorem advance_topCardD (k : Nat) (s : RoundState) :
    (advance k s).topCardD = s.topCardD := rfl

@[simp] theorem advance_playerCount (k : Nat) (s : RoundState) :
    (advance k s).playerCount = s.playerCount := rfl

theorem advance_currentPlayerIndex_some (k : Nat) (s : RoundState) (cur : Nat)
    (h : s.currentPlayerIndex = some cur) :
    (advance k s).currentPlayerIndex =
      some (tsMod ((cur : Int) + (k : Int) * s.direction) s.playerCount) := by
  unfold advance
  rw [h]

theorem finishRound_fields (w : Nat) (s : RoundState) :
    (finishRound w s).players = s.players ∧ (finishRound w s).dealer = s.dealer ∧
    (finishRound w s).hands = s.hands ∧
    (finishRound w s).drawPileCards = s.drawPileCards ∧
    (finishRound w s).discardPileCards = s.discardPileCards ∧
    (finishRound w s).direction = s.direction ∧
    (finishRound w s).enforcedColor = s.enforcedColor ∧
    (finishRound w s).unoDeclared = s.unoDeclared ∧
    (finishRound w s).pendingUno = s.pendingUno := by
  unfold finishRound
  by_cases h : s.ended <;> simp [h]

theorem finishRound_of_not_ended (w : Nat) (s : RoundState) (h : s.ended = false) :
    (finishRound w s).ended = true ∧ (finishRound w s).winnerIndex = some w ∧
    (finishRound w s).currentPlayerIndex = none := by
  unfold finishRound
  simp [h]

/-- A shuffler permutes its input (the spec's `shuffle(sequence) -> void` is an
in-place shuffle). -/
def IsShuffler (f : List Card → List Card) : Prop := ∀ l, (f l).Perm l

theorem isShuffler_id : IsShuffler (fun l => l) := fun _ => List.Perm.refl _

/-- Everything except the two piles is untouched, the top card is preserved, and
a non-empty discard pile stays non-empty. -/
def PileOnlyFrame (s s' : RoundState) : Prop :=
  s'.players = s.players ∧ s'.dealer = s.dealer ∧ s'.hands = s.hands ∧
  s'.direction = s.direction ∧ s'.currentPlayerIndex = s.currentPlayerIndex ∧
  s'.enforcedColor = s.enforcedColor ∧ s'.unoDeclared = s.unoDeclared ∧
  s'.pendingUno = s.pendingUno ∧ s'.ended = s.ended ∧
  s'.winnerIndex = s.winnerIndex ∧ s'.cachedScore = s.cachedScore ∧
  s'.topCardD = s.topCardD ∧
  (s.discardPileCards ≠ [] → s'.discardPileCards ≠ [])

theorem pileOnlyFrame_refl (s : RoundState) : PileOnlyFrame s s :=
  ⟨rfl, rfl, rfl, rfl, rfl, rfl, rfl, rfl, rfl, rfl, rfl, rfl, id⟩

theorem refillDrawPile_frame (sh : List Card → List Card) (s : RoundState) :
    PileOnlyFrame s (refillDrawPile sh s).2 := by
  unfold refillDrawPile
  by_cases h1 : 0 < s.drawPileCards.length
  · rw [if_pos h1]
    exact pileOnlyFrame_refl s
  · rw [if_neg h1]
    by_cases h2 : s.discardPileCards.length ≤ 1
    · rw [if_pos h2]
      exact pileOnlyFrame_refl s
    · rw [if_neg h2]
      cases hlast : s.discardPileCards.getLast? with
      | none => exact pileOnlyFrame_refl s
      | some top =>
        refine ⟨rfl, rfl, rfl, rfl, rfl, rfl, rfl, rfl, rfl, rfl, rfl, ?_, ?_⟩
        · show ([top] : List Card).getLastD Card.wild = s.discardPileCards.getLastD Card.wild
          rw [List.getLastD_eq_getLast? Card.wild s.discardPileCards, hlast]
          rfl
        · intro _
          simp

theorem pileOnlyFrame_trans {s s' s'' : RoundState}
    (h1 : PileOnlyFrame s s') (h2 : PileOnlyFrame s' s'') : PileOnlyFrame s s'' := by
  obtain ⟨a1, a2, a3, a4, a5, a6, a7, a8, a9, a10, a11, a12, a13⟩ := h1
  obtain ⟨b1, b2, b3, b4, b5, b6, b7, b8, b9, b10, b11, b12, b13⟩ := h2
  exact ⟨b1.trans a1, b2.trans a2, b3.trans a3, b4.trans a4, b5.trans a5,
    b6.trans a6, b7.trans a7, b8.trans a8, b9.trans a9, b10.trans a10,
    b11.trans a11, b12.trans a12, fun hne => b13 (a13 hne)⟩

theorem step_frame_aux (sh : List Card → List Card) (s s1 : RoundState)
    (r : Except String Unit)
    (heq : (if s.drawPileCards.length = 0 then refillDrawPile sh s
            else (Except.ok (), s)) = (r, s1)) : PileOnlyFrame s s1 := by
  by_cases h1 : s.drawPileCards.length = 0
  · rw [if_pos h1] at heq
    have hframe := refillDrawPile_frame sh s
    rw [heq] at hframe
    exact hframe
  · rw [if_neg h1] at heq
    have := congrArg Prod.snd heq
    simp only [] at this
    rw [← this]
    exact pileOnlyFrame_refl s

theorem takeFromDrawPile_frame (sh : List Card → List Card) (s : RoundState) :
    PileOnlyFrame s (takeFromDrawPile sh s).2 := by
  unfold takeFromDrawPile
  split
  case _ e s1 heq => exact step_frame_aux sh s s1 _ heq
  case _ s1 heq =>
    split
    case _ => exact step_frame_aux sh s s1 _ heq
    case _ c rest hd =>
      exact pileOnlyFrame_trans (step_frame_aux sh s s1 _ heq)
        ⟨rfl, rfl, rfl, rfl, rfl, rfl, rfl, rfl, rfl, rfl, rfl, rfl, id⟩

theorem refillDrawPile_ok_spec (sh : List Card → List Card) (s s1 : RoundState)
    (heq : refillDrawPile sh s = (Except.ok (), s1)) :
    (0 < s.drawPileCards.length ∧ s1 = s) ∨
    (s.drawPileCards.length = 0 ∧ 1 < s.discardPileCards.length ∧
      s1 = { s with drawPileCards := sh s.discardPileCards.dropLast,
                    discardPileCards := [s.topCardD] }) := by
  unfold refillDrawPile at heq
  split at heq
  case _ hpos =>
    left
    injection heq with _ hs
    exact ⟨hpos, hs.symm⟩
  case _ hpos =>
    split at heq
    case _ => exact absurd heq (by simp)
    case _ hgt =>
      split at heq
      case _ => exact absurd heq (by simp)
      case _ top hlast =>
        right
        refine ⟨by omega, by omega, ?_⟩
        injection heq with _ hs
        rw [← hs]
        have htop : s.topCardD = top := by
          unfold RoundState.topCardD
          rw [List.getLastD_eq_getLast? Card.wild s.discardPileCards, hlast]
          rfl
        rw [htop]

theorem takeFromDrawPile_ok_spec (sh : List Card → List Card) (s : RoundState)
    (c : Card) (s' : RoundState) (h : takeFromDrawPile sh s = (Except.ok c, s')) :
    (s.drawPileCards = [] →
       sh s.discardPileCards.dropLast = c :: s'.drawPileCards ∧
       s'.discardPileCards = [s.topCardD]) ∧
    (s.drawPileCards ≠ [] →
       s.drawPileCards = c :: s'.drawPileCards ∧
       s'.discardPileCards = s.discardPileCards) := by
  unfold takeFromDrawPile at h
  split at h
  case _ e s1 heq => exact absurd h (by simp)
  case _ s1 heq =>
    split at h
    case _ => exact absurd h (by simp)
    case _ c0 rest hd =>
      injection h with hc hs
      injection hc with hc
      by_cases h1 : s.drawPileCards.length = 0
      · rw [if_pos h1] at heq
        have hnil : s.drawPileCards = [] := List.length_eq_zero.mp h1
        rcases refillDrawPile_ok_spec sh s s1 heq with ⟨hpos, _⟩ | ⟨_, _, hs1⟩
        · omega
        · refine ⟨fun _ => ⟨?_, ?_⟩, fun hne => absurd hnil hne⟩
          · have hdr : s1.drawPileCards = sh s.discardPileCards.dropLast := by rw [hs1]
            have hdr' : s'.drawPileCards = rest := by rw [← hs]
            rw [← hdr, hd, hc, hdr']
          · have hdc : s1.discardPileCards = [s.topCardD] := by rw [hs1]
            have : s'.discardPileCards = s1.discardPileCards := by rw [← hs]
            rw [this, hdc]
      · rw [if_neg h1] at heq
        injection heq with _ hs1
        refine ⟨fun hnil => absurd (by rw [hnil]; rfl) h1, fun _ => ⟨?_, ?_⟩⟩
        · have hdr' : s'.drawPileCards = rest := by rw [← hs]
          rw [hs1, hd, hc, hdr']
        · have : s'.discardPileCards = s1.discardPileCards := by rw [← hs]
          rw [this, hs1]

theorem takeFromDrawPile_frame' (sh : List Card → List Card) (s : RoundState)
    (r : Except String Card) (s1 : RoundState)
    (heq : takeFromDrawPile sh s = (r, s1)) : PileOnlyFrame s s1 := by
  have hfr := takeFromDrawPile_frame sh s
  rw [heq] at hfr
  exact hfr

theorem takeFromDrawPile_exhausted (sh : List Card → List Card) (s : RoundState)
    (h1 : s.drawPileCards = []) (h2 : s.discardPileCards.length ≤ 1) :
    takeFromDrawPile sh s = (Except.error "Cannot replenish draw pile", s) := by
  unfold takeFromDrawPile refillDrawPile
  rw [if_pos (by rw [h1]; rfl), if_neg (by rw [h1]; simp), if_pos h2]

/-- Everything a penalty draw leaves alone, plus preservation of hand count,
top card and discard non-emptiness. -/
def PenaltyFrame (s s' : RoundState) : Prop :=
  s'.players = s.players ∧ s'.dealer = s.dealer ∧ s'.direction = s.direction ∧
  s'.currentPlayerIndex = s.currentPlayerIndex ∧ s'.enforcedColor = s.enforcedColor ∧
  s'.ended = s.ended ∧ s'.winnerIndex = s.winnerIndex ∧ s'.cachedScore = s.cachedScore ∧
  s'.topCardD = s.topCardD ∧ (s.discardPileCards ≠ [] → s'.discardPileCards ≠ []) ∧
  s'.hands.length = s.hands.length

theorem penaltyFrame_refl (s : RoundState) : PenaltyFrame s s :=
  ⟨rfl, rfl, rfl, rfl, rfl, rfl, rfl, rfl, rfl, id, rfl⟩

theorem penaltyFrame_trans {s s' s'' : RoundState}
    (h1 : PenaltyFrame s s') (h2 : PenaltyFrame s' s'') : PenaltyFrame s s'' := by
  obtain ⟨a1, a2, a3, a4, a5, a6, a7, a8, a9, a10, a11⟩ := h1
  obtain ⟨b1, b2, b3, b4, b5, b6, b7, b8, b9, b10, b11⟩ := h2
  exact ⟨b1.trans a1, b2.trans a2, b3.trans a3, b4.trans a4, b5.trans a5,
    b6.trans a6, b7.trans a7, b8.trans a8, b9.trans a9,
    fun hne => b10 (a10 hne), b11.trans a11⟩

theorem pileOnlyFrame_penaltyFrame {s s' : RoundState} (h : PileOnlyFrame s s') :
    PenaltyFrame s s' := by
  obtain ⟨a1, a2, a3, a4, a5, a6, a7, a8, a9, a10, a11, a12, a13⟩ := h
  exact ⟨a1, a2, a4, a5, a6, a9, a10, a11, a12, a13, by rw [a3]⟩

theorem drawCardsForPlayer_spec (sh : List Card → List Card) (p : Nat) :
    ∀ (n : Nat) (s : RoundState) (r : Except String Unit) (s' : RoundState),
      drawCardsForPlayer sh p n s = (r, s') →
      PenaltyFrame s s' ∧ s'.unoDeclared = s.unoDeclared ∧
      s'.pendingUno = s.pendingUno ∧
      (∀ j, j ≠ p → s'.hands.getD j [] = s.hands.getD j []) ∧
      ∃ extra, s'.hands.getD p [] = s.hands.getD p [] ++ extra ∧
        (r = Except.ok () → p < s.hands.length → extra.length = n) := by
  intro n
  induction n with
  | zero =>
    intro s r s' h
    unfold drawCardsForPlayer at h
    injection h with hr hs
    rw [← hs]
    exact ⟨penaltyFrame_refl s, rfl, rfl, fun _ _ => rfl, [], by simp, fun _ _ => rfl⟩
  | succ n ih =>
    intro s r s' h
    unfold drawCardsForPlayer at h
    split at h
    case _ e s1 heq =>
      injection h with hr hs
      obtain ⟨f1, f2, f3, f4, f5, f6, f7, f8, f9, f10, f11, f12, f13⟩ :=
        takeFromDrawPile_frame' sh s _ _ heq
      rw [← hs]
      refine ⟨⟨f1, f2, f4, f5, f6, f9, f10, f11, f12, f13, by rw [f3]⟩,
        f7, f8, fun j _ => by rw [f3], [], by rw [f3, List.append_nil], ?_⟩
      intro hok
      rw [← hr] at hok
      exact absurd hok (by simp)
    case _ c s1 heq =>
      obtain ⟨f1, f2, f3, f4, f5, f6, f7, f8, f9, f10, f11, f12, f13⟩ :=
        takeFromDrawPile_frame' sh s _ _ heq
      set s2 : RoundState :=
        { s1 with hands := s1.hands.set p (s1.hands.getD p [] ++ [c]) } with hs2
      obtain ⟨g0, g1, g2, g3, g4⟩ := ih s2 r s' h
      have hlen12 : s2.hands.length = s.hands.length := by
        rw [hs2]
        show (s1.hands.set p (s1.hands.getD p [] ++ [c])).length = s.hands.length
        rw [List.length_set, f3]
      have hpf2 : PenaltyFrame s s2 := by
        refine ⟨f1, f2, f4, f5, f6, f9, f10, f11, f12, f13, hlen12⟩
      refine ⟨penaltyFrame_trans hpf2 g0, g1.trans f7, g2.trans f8, ?_, ?_⟩
      · intro j hj
        rw [g3 j hj]
        show (s1.hands.set p (s1.hands.getD p [] ++ [c])).getD j [] = s.hands.getD j []
        rw [getD_set_other _ _ _ (fun hpj => hj hpj.symm), f3]
      · obtain ⟨extra, he1, he2⟩ := g4
        by_cases hp : p < s.hands.length
        · have hp1 : p < s1.hands.length := by rw [f3]; exact hp
          have hself : s2.hands.getD p [] = s.hands.getD p [] ++ [c] := by
            rw [hs2]
            show (s1.hands.set p (s1.hands.getD p [] ++ [c])).getD p [] = _
            rw [getD_set_self _ _ _ _ hp1, f3]
          refine ⟨[c] ++ extra, ?_, ?_⟩
          · rw [he1, hself, List.append_assoc]
          · intro hok _
            have := he2 hok (by rw [hlen12]; exact hp)
            simp [this]
        · have hset : s1.hands.set p (s1.hands.getD p [] ++ [c]) = s1.hands := by
            apply List.set_eq_of_length_le
            rw [f3]
            omega
          have hself : s2.hands.getD p [] = s.hands.getD p [] := by
            rw [hs2]
            show (s1.hands.set p (s1.hands.getD p [] ++ [c])).getD p [] = _
            rw [hset, f3]
          refine ⟨extra, by rw [he1, hself], fun _ hplt => absurd hplt hp⟩

theorem applyPenalty_spec (sh : List Card → List Card) (p : Nat) (k : Nat)
    (s : RoundState) (r : Except String Unit) (s' : RoundState)
    (h : applyPenalty sh p k s = (r, s')) :
    PenaltyFrame s s' ∧ s'.unoDeclared.length = s.unoDeclared.length ∧
    (∀ j, j ≠ p → s'.hands.getD j [] = s.hands.getD j []) ∧
    ∃ extra, s'.hands.getD p [] = s.hands.getD p [] ++ extra ∧
      (r = Except.ok () → p < s.hands.length → extra.length = k) := by
  unfold applyPenalty at h
  split at h
  case _ e s1 heq =>
    injection h with hr hs
    obtain ⟨g0, g1, g2, g3, g4⟩ := drawCardsForPlayer_spec sh p k s _ _ heq
    rw [← hs]
    refine ⟨g0, by rw [g1], g3, ?_⟩
    obtain ⟨extra, he1, _⟩ := g4
    refine ⟨extra, he1, ?_⟩
    intro hok
    rw [← hr] at hok
    exact absurd hok (by simp)
  case _ s1 heq =>
    injection h with hr hs
    obtain ⟨g0, g1, g2, g3, g4⟩ := drawCardsForPlayer_spec sh p k s _ _ heq
    rw [← hs]
    obtain ⟨f1, f2, f3, f4, f5, f6, f7, f8, f9, f10, f11⟩ := g0
    refine ⟨⟨f1, f2, f3, f4, f5, f6, f7, f8, f9, f10,
        by rw [updateUnoStateFor_hands, f11]⟩,
      by rw [updateUnoStateFor_unoDeclared_length, g1], ?_, ?_⟩
    · intro j hj
      rw [updateUnoStateFor_hands]
      exact g3 j hj
    · obtain ⟨extra, he1, he2⟩ := g4
      refine ⟨extra, by rw [updateUnoStateFor_hands]; exact he1, fun _ => he2 rfl⟩

theorem setEnforcedForCard_ok_spec (card : Card) (col : Option Color)
    (s s3 : RoundState) (h : setEnforcedForCard card col s = (Except.ok (), s3)) :
    ∃ e : Option Color, s3 = { s with enforcedColor := e } ∧ e.isSome = isWild card := by
  unfold setEnforcedForCard at h
  split at h
  case _ hw =>
    split at h
    case _ => exact absurd h (by simp)
    case _ c =>
      split at h
      case _ e heq =>
        rw [ensureColorValue_ok c] at heq
        exact absurd heq (by simp)
      case _ c' heq =>
        rw [ensureColorValue_ok c] at heq
        injection heq with heq
        injection h with _ hs
        exact ⟨some c', hs.symm, by rw [hw]; rfl⟩
  case _ hw =>
    split at h
    case _ c => exact absurd h (by simp)
    case _ =>
      injection h with _ hs
      refine ⟨none, hs.symm, ?_⟩
      have : isWild card = false := by
        cases hw2 : isWild card
        · rfl
        · exact absurd hw2 hw
      rw [this]
      rfl

theorem cardEffects_ok_spec (sh : List Card → List Card) (cur : Nat) (card : Card)
    (s : RoundState) (steps : Nat) (s' : RoundState)
    (h : cardEffects sh cur card s = (Except.ok steps, s')) :
    s'.players = s.players ∧ s'.dealer = s.dealer ∧
    s'.currentPlayerIndex = s.currentPlayerIndex ∧
    s'.enforcedColor = s.enforcedColor ∧ s'.ended = s.ended ∧
    s'.winnerIndex = s.winnerIndex ∧ s'.cachedScore = s.cachedScore ∧
    s'.topCardD = s.topCardD ∧
    (s.discardPileCards ≠ [] → s'.discardPileCards ≠ []) ∧
    s'.hands.length = s.hands.length ∧
    s'.unoDeclared.length = s.unoDeclared.length ∧
    s'.direction = dirAfter card s.direction ∧
    steps = stepCount card s.playerCount ∧
    (∀ j, j ≠ nextIndexFromCurrent cur 1 s → s'.hands.getD j [] = s.hands.getD j []) ∧
    (∃ extra, s'.hands.getD (nextIndexFromCurrent cur 1 s) [] =
        s.hands.getD (nextIndexFromCurrent cur 1 s) [] ++ extra) := by
  cases card with
  | numbered c0 n0 =>
    simp only [cardEffects] at h
    injection h with hst hs
    injection hst with hst
    rw [← hs]
    exact ⟨rfl, rfl, rfl, rfl, rfl, rfl, rfl, rfl, id, rfl, rfl, rfl, hst.symm,
      fun _ _ => rfl, [], (List.append_nil _).symm⟩
  | skip c0 =>
    simp only [cardEffects] at h
    injection h with hst hs
    injection hst with hst
    rw [← hs]
    exact ⟨rfl, rfl, rfl, rfl, rfl, rfl, rfl, rfl, id, rfl, rfl, rfl, hst.symm,
      fun _ _ => rfl, [], (List.append_nil _).symm⟩
  | wild =>
    simp only [cardEffects] at h
    injection h with hst hs
    injection hst with hst
    rw [← hs]
    exact ⟨rfl, rfl, rfl, rfl, rfl, rfl, rfl, rfl, id, rfl, rfl, rfl, hst.symm,
      fun _ _ => rfl, [], (List.append_nil _).symm⟩
  | reverse c0 =>
    simp only [cardEffects] at h
    split at h
    case _ h2 =>
      injection h with hst hs
      injection hst with hst
      rw [← hs]
      refine ⟨rfl, rfl, rfl, rfl, rfl, rfl, rfl, rfl, id, rfl, rfl, rfl, ?_,
        fun _ _ => rfl, [], (List.append_nil _).symm⟩
      show steps = stepCount (Card.reverse c0) s.playerCount
      unfold stepCount
      rw [if_pos h2, ← hst]
    case _ h2 =>
      injection h with hst hs
      injection hst with hst
      rw [← hs]
      refine ⟨rfl, rfl, rfl, rfl, rfl, rfl, rfl, rfl, id, rfl, rfl, rfl, ?_,
        fun _ _ => rfl, [], (List.append_nil _).symm⟩
      show steps = stepCount (Card.reverse c0) s.playerCount
      unfold stepCount
      rw [if_neg h2, ← hst]
  | draw c0 =>
    simp only [cardEffects] at h
    split at h
    case _ e s1 heq => exact absurd h (by simp)
    case _ s1 heq =>
      injection h with hst hs
      injection hst with hst
      obtain ⟨⟨f1, f2, f3, f4, f5, f6, f7, f8, f9, f10, f11⟩, g1, g2, g3⟩ :=
        applyPenalty_spec sh _ 2 s _ _ heq
      rw [← hs]
      refine ⟨f1, f2, f4, f5, f6, f7, f8, f9, f10, f11, g1, f3, hst.symm, ?_, ?_⟩
      · intro j hj
        rw [markActionBy_hands]
        exact g2 j hj
      · obtain ⟨extra, he1, _⟩ := g3
        exact ⟨extra, by rw [markActionBy_hands]; exact he1⟩
  | wildDraw =>
    simp only [cardEffects] at h
    split at h
    case _ e s1 heq => exact absurd h (by simp)
    case _ s1 heq =>
      injection h with hst hs
      injection hst with hst
      obtain ⟨⟨f1, f2, f3, f4, f5, f6, f7, f8, f9, f10, f11⟩, g1, g2, g3⟩ :=
        applyPenalty_spec sh _ 4 s _ _ heq
      rw [← hs]
      refine ⟨f1, f2, f4, f5, f6, f7, f8, f9, f10, f11, g1, f3, hst.symm, ?_, ?_⟩
      · intro j hj
        rw [markActionBy_hands]
        exact g2 j hj
      · obtain ⟨extra, he1, _⟩ := g3
        exact ⟨extra, by rw [markActionBy_hands]; exact he1⟩

theorem playFinish_empty (current steps : Nat) (s4 : RoundState)
    (h : (s4.hands.getD current []).length = 0) :
    playFinish current steps s4 =
      finishRound current { updateUnoStateFor current s4 with pendingUno := none } := by
  have hc : ((updateUnoStateFor current s4).hands.getD current []).length = 0 := by
    rw [updateUnoStateFor_hands]
    exact h
  simp only [playFinish]
  rw [if_pos hc]

theorem playFinish_nonempty (current steps : Nat) (s4 : RoundState)
    (h : (s4.hands.getD current []).length ≠ 0) (hne : s4.ended = false) :
    playFinish current steps s4 = advance steps (updateUnoStateFor current s4) := by
  have hc : ¬((updateUnoStateFor current s4).hands.getD current []).length = 0 := by
    rw [updateUnoStateFor_hands]
    exact h
  have hc2 : ¬(updateUnoStateFor current s4).ended = true := by
    rw [updateUnoStateFor_ended, hne]
    simp
  simp only [playFinish]
  rw [if_neg hc, if_neg hc2]

theorem roundCanPlay_true_elim (s : RoundState) (i : Nat) (cur : Nat)
    (hcur : s.currentPlayerIndex = some cur) (h : s.roundCanPlay i = true) :
    cardCanPlay ((s.hands.getD cur []).getD i Card.wild) s.topCardD s.enforcedColor
      = true := by
  unfold roundCanPlay at h
  split at h
  case _ => exact absurd h (by simp)
  case _ =>
    rw [hcur] at h
    simp only [] at h
    split at h
    case _ => exact absurd h (by simp)
    case _ => exact h

theorem play_ok_mid (sh : List Card → List Card) (i : Nat) (col : Option Color)
    (s : RoundState) (c : Card) (s' : RoundState)
    (h : play sh i col s = (Except.ok c, s')) :
    ∃ current steps s4,
      s.ended = false ∧ s.currentPlayerIndex = some current ∧
      i < (s.hands.getD current []).length ∧
      c = (s.hands.getD current []).getD i Card.wild ∧
      cardCanPlay c s.topCardD s.enforcedColor = true ∧
      s' = playFinish current steps s4 ∧
      steps = stepCount c s.playerCount ∧
      s4.players = s.players ∧ s4.dealer = s.dealer ∧
      s4.ended = false ∧ s4.currentPlayerIndex = some current ∧
      s4.winnerIndex = s.winnerIndex ∧
      s4.direction = dirAfter c s.direction ∧
      s4.topCardD = c ∧ s4.discardPileCards ≠ [] ∧
      s4.enforcedColor.isSome = isWild c ∧
      s4.hands.length = s.hands.length ∧
      s4.unoDeclared.length = s.unoDeclared.length ∧
      (∀ j, j ≠ nextIndexFromCurrent current 1 s →
        s4.hands.getD j [] =
          (s.hands.set current ((s.hands.getD current []).eraseIdx i)).getD j []) ∧
      (∃ extra, s4.hands.getD (nextIndexFromCurrent current 1 s) [] =
        (s.hands.set current ((s.hands.getD current []).eraseIdx i)).getD
          (nextIndexFromCurrent current 1 s) [] ++ extra) := by
  unfold play at h
  split at h
  case _ hend => exact absurd h (by simp)
  case _ hend =>
    split at h
    case _ => exact absurd h (by simp)
    case _ current hcur =>
      split at h
      case _ => exact absurd h (by simp)
      case _ hlen =>
        split at h
        case _ => exact absurd h (by simp)
        case _ hcp =>
          split at h
          case _ e s2' heq1 => exact absurd h (by simp)
          case _ s3 heq1 =>
            split at h
            case _ e s4 heq2 => exact absurd h (by simp)
            case _ steps s4 heq2 =>
              injection h with hc hs
              injection hc with hc
              obtain ⟨e, hs3, hiso⟩ := setEnforcedForCard_ok_spec _ col _ s3 heq1
              obtain ⟨k1, k2, k3, k4, k5, k6, k7, k8, k9, k10, k11, k12, k13,
                k14, k15⟩ := cardEffects_ok_spec sh current _ s3 steps s4 heq2
              have hended : s.ended = false := by
                cases hv : s.ended
                · rfl
                · exact absurd hv hend
              have hcp' : s.roundCanPlay i = true := by
                have : (markActionBy current s).roundCanPlay i = s.roundCanPlay i := rfl
                rw [← this]
                cases hv : (markActionBy current s).roundCanPlay i
                · exact absurd hv hcp
                · rfl
              have hcanplay := roundCanPlay_true_elim s i current hcur hcp'
              have hilen : i < (s.hands.getD current []).length := by omega
              -- facts about s3
              have hs3players : s3.players = s.players := by rw [hs3]; rfl
              have hs3dealer : s3.dealer = s.dealer := by rw [hs3]; rfl
              have hs3ended : s3.ended = s.ended := by rw [hs3]; rfl
              have hs3cur : s3.currentPlayerIndex = s.currentPlayerIndex := by
                rw [hs3]; rfl
              have hs3win : s3.winnerIndex = s.winnerIndex := by rw [hs3]; rfl
              have hs3dir : s3.direction = s.direction := by rw [hs3]; rfl
              have hs3uno : s3.unoDeclared = s.unoDeclared := by rw [hs3]; rfl
              have hs3enf : s3.enforcedColor = e := by rw [hs3]
              have hs3hands : s3.hands =
                  s.hands.set current ((s.hands.getD current []).eraseIdx i) := by
                rw [hs3]; rfl
              have hs3discard : s3.discardPileCards =
                  s.discardPileCards ++ [(s.hands.getD current []).getD i Card.wild] := by
                rw [hs3]; rfl
              have hs3top : s3.topCardD =
                  (s.hands.getD current []).getD i Card.wild := by
                unfold topCardD
                rw [hs3discard]
                exact List.getLastD_concat _ _ _
              have hvictim : nextIndexFromCurrent current 1 s3 =
                  nextIndexFromCurrent current 1 s := by
                unfold nextIndexFromCurrent playerCount
                rw [hs3dir, hs3players]
              refine ⟨current, steps, s4, hended, hcur, hilen, hc.symm, ?_, hs.symm,
                ?_, ?_, ?_, ?_, ?_, ?_, ?_, ?_, ?_, ?_, ?_, ?_, ?_, ?_⟩
              · rw [← hc]
                exact hcanplay
              · rw [k13]
                unfold playerCount
                rw [hs3players, hc]
              · rw [k1, hs3players]
              · rw [k2, hs3dealer]
              · rw [k5, hs3ended, hended]
              · rw [k3, hs3cur, hcur]
              · rw [k6, hs3win]
              · rw [k12, hs3dir]
                rw [← hc]
              · rw [k8, hs3top, hc]
              · apply k9
                rw [hs3discard]
                simp
              · rw [k4, hs3enf, hiso, hc]
              · rw [k10, hs3hands, List.length_set]
              · rw [k11, hs3uno]
              · intro j hj
                rw [← hvictim] at hj
                rw [k14 j hj, hs3hands]
              · obtain ⟨extra, hex⟩ := k15
                refine ⟨extra, ?_⟩
                rw [hvictim] at hex
                rw [hex, hs3hands]

end RoundState

/-! ## The structural invariant -/

open RoundState

/-- The structural invariant maintained by every constructed round. -/
structure InvCore (s : RoundState) : Prop where
  handsLen : s.hands.length = s.players.length
  unoLen : s.unoDeclared.length = s.players.length
  playersLB : 2 ≤ s.players.length
  playersUB : s.players.length ≤ 10
  dealerLB : 0 ≤ s.dealer
  dealerUB : s.dealer < (s.players.length : Int)
  discardNE : s.discardPileCards ≠ []
  dirOK : s.direction = 1 ∨ s.direction = -1
  activeCur : s.ended = false →
    ∃ i, s.currentPlayerIndex = some i ∧ i < s.players.length
  endedCur : s.ended = true → s.currentPlayerIndex = none
  activeNoEmpty : s.ended = false →
    ∀ j, j < s.hands.length → s.hands.getD j [] ≠ []
  endedWinner : s.ended = true → ∃ w, s.winnerIndex = some w ∧ w < s.hands.length ∧
      s.hands.getD w [] = [] ∧
      ∀ j, j < s.hands.length → j ≠ w → s.hands.getD j [] ≠ []
  endedNoPending : s.ended = true → s.pendingUno = none
  enforcedIffWild : s.enforcedColor.isSome = isWild s.topCardD

theorem dirAfter_pm (c : Card) {d : Int} (h : d = 1 ∨ d = -1) :
    dirAfter c d = 1 ∨ dirAfter c d = -1 := by
  cases c <;> simp [dirAfter] <;> omega

theorem invCore_play (sh : List Card → List Card) (i : Nat) (col : Option Color)
    (s : RoundState) (c : Card) (s' : RoundState) (hinv : InvCore s)
    (h : RoundState.play sh i col s = (Except.ok c, s')) : InvCore s' := by
  obtain ⟨current, steps, s4, hended, hcur, hilen, hcard, hcanplay, hs', hsteps,
    m1, m2, m3, m4, m5, m6, m7, m8, m9, m10, m11, m12, m13⟩ := play_ok_mid sh i col s c s' h
  have hn2 : 2 ≤ s.players.length := hinv.playersLB
  have hn0 : 0 < s.players.length := by omega
  have hcurlt : current < s.players.length := by
    obtain ⟨i0, hi0, hi0lt⟩ := hinv.activeCur hended
    rw [hcur] at hi0
    injection hi0 with hi0
    omega
  have hcurlt' : current < s.hands.length := by
    rw [hinv.handsLen]
    exact hcurlt
  have hvic_ne : nextIndexFromCurrent current 1 s ≠ current := by
    unfold nextIndexFromCurrent playerCount
    exact tsMod_step_ne hcurlt hn2 hinv.dirOK
  -- hand facts at s4
  have h4len : s4.hands.length = s.hands.length := m10
  have hset_len : (s.hands.set current ((s.hands.getD current []).eraseIdx i)).length
      = s.hands.length := List.length_set _ _ _
  have h4other : ∀ j, j ≠ current → j ≠ nextIndexFromCurrent current 1 s →
      s4.hands.getD j [] = s.hands.getD j [] := by
    intro j hjc hjv
    rw [m12 j hjv, getD_set_other _ _ _ (fun hcj => hjc hcj.symm)]
  have h4victim : nextIndexFromCurrent current 1 s ≠ current →
      ∃ extra, s4.hands.getD (nextIndexFromCurrent current 1 s) [] =
        s.hands.getD (nextIndexFromCurrent current 1 s) [] ++ extra := by
    intro hne
    obtain ⟨extra, hex⟩ := m13
    refine ⟨extra, ?_⟩
    rw [hex, getD_set_other _ _ _ (fun hcj => hne hcj.symm)]
  have h4nonempty : ∀ j, j < s4.hands.length → j ≠ current →
      s4.hands.getD j [] ≠ [] := by
    intro j hjlt hjc
    by_cases hjv : j = nextIndexFromCurrent current 1 s
    · obtain ⟨extra, hex⟩ := h4victim (fun hv => hjc (hjv.trans hv))
      rw [hjv, hex]
      have hne := hinv.activeNoEmpty hended j (by omega)
      rw [hjv] at hne
      intro hc0
      exact hne (List.append_eq_nil.mp hc0).1
    · rw [h4other j hjc hjv]
      exact hinv.activeNoEmpty hended j (by omega)
  have hdir4 : s4.direction = 1 ∨ s4.direction = -1 := by
    rw [m6]
    exact dirAfter_pm c hinv.dirOK
  by_cases hempty : (s4.hands.getD current []).length = 0
  · -- the played card emptied the hand: the round finishes
    rw [hs', playFinish_empty current steps s4 hempty]
    set s6 : RoundState :=
      { updateUnoStateFor current s4 with pendingUno := none } with hs6
    have hs6ended : s6.ended = false := by
      rw [hs6]
      show (updateUnoStateFor current s4).ended = false
      rw [updateUnoStateFor_ended, m3]
    obtain ⟨e1, e2, e3, e4, e5, e6, e7, e8, e9⟩ := finishRound_fields current s6
    obtain ⟨w1, w2, w3⟩ := finishRound_of_not_ended current s6 hs6ended
    have hs6hands : s6.hands = s4.hands := by
      rw [hs6]
      show (updateUnoStateFor current s4).hands = s4.hands
      exact updateUnoStateFor_hands current s4
    have hs6top : s6.topCardD = s4.topCardD := by
      rw [hs6]
      rfl
    have hs6enf : s6.enforcedColor = s4.enforcedColor := by
      rw [hs6]
      rfl
    have hs6disc : s6.discardPileCards = s4.discardPileCards := by
      rw [hs6]
      rfl
    have hs6dir : s6.direction = s4.direction := by
      rw [hs6]
      rfl
    have hs6players : s6.players = s4.players := by
      rw [hs6]
      rfl
    have hs6dealer : s6.dealer = s4.dealer := by
      rw [hs6]
      rfl
    have hs6unolen : s6.unoDeclared.length = s4.unoDeclared.length := by
      rw [hs6]
      show (updateUnoStateFor current s4).unoDeclared.length = _
      exact updateUnoStateFor_unoDeclared_length current s4
    have hfr_top : (finishRound current s6).topCardD = s6.topCardD := by
      unfold RoundState.topCardD
      rw [e5]
    refine ⟨?_, ?_, ?_, ?_, ?_, ?_, ?_, ?_, ?_, ?_, ?_, ?_, ?_, ?_⟩
    · rw [e3, hs6hands, h4len, e1, hs6players, m1, hinv.handsLen]
    · rw [e8, hs6unolen, m11, e1, hs6players, m1, hinv.unoLen]
    · rw [e1, hs6players, m1]
      exact hinv.playersLB
    · rw [e1, hs6players, m1]
      exact hinv.playersUB
    · rw [e2, hs6dealer, m2]
      exact hinv.dealerLB
    · rw [e2, hs6dealer, m2, e1, hs6players, m1]
      exact hinv.dealerUB
    · rw [e5, hs6disc]
      exact m8
    · rw [e6, hs6dir]
      exact hdir4
    · intro hcontra
      rw [(finishRound_of_not_ended current s6 hs6ended).1] at hcontra
      exact absurd hcontra (by simp)
    · intro _
      exact w3
    · intro hcontra
      rw [(finishRound_of_not_ended current s6 hs6ended).1] at hcontra
      simp at hcontra
    · intro _
      refine ⟨current, w2, ?_, ?_, ?_⟩
      · rw [e3, hs6hands, h4len]
        exact hcurlt'
      · rw [e3, hs6hands]
        exact List.length_eq_zero.mp hempty
      · intro j hjlt hjc
        rw [e3, hs6hands]
        apply h4nonempty j _ hjc
        rw [e3, hs6hands] at hjlt
        exact hjlt
    · intro _
      rw [e9, hs6]
    · rw [e7, hs6enf, hfr_top, hs6top, m7, m9]
  · -- the hand is not empty: the turn advances
    rw [hs', playFinish_nonempty current steps s4 hempty m3]
    set s5 := updateUnoStateFor current s4 with hs5
    have hs5cur : s5.currentPlayerIndex = some current := by
      rw [hs5, updateUnoStateFor_currentPlayerIndex, m4]
    have hadv := advance_currentPlayerIndex_some steps s5 current hs5cur
    refine ⟨?_, ?_, ?_, ?_, ?_, ?_, ?_, ?_, ?_, ?_, ?_, ?_, ?_, ?_⟩
    · rw [advance_hands, hs5, updateUnoStateFor_hands, h4len, advance_players,
        updateUnoStateFor_players, m1, hinv.handsLen]
    · rw [advance_unoDeclared, hs5, updateUnoStateFor_unoDeclared_length, m11,
        advance_players, updateUnoStateFor_players, m1]
      exact hinv.unoLen
    · rw [advance_players, hs5, updateUnoStateFor_players, m1]
      exact hinv.playersLB
    · rw [advance_players, hs5, updateUnoStateFor_players, m1]
      exact hinv.playersUB
    · rw [advance_dealer, hs5, updateUnoStateFor_dealer, m2]
      exact hinv.dealerLB
    · rw [advance_dealer, hs5, updateUnoStateFor_dealer, m2, advance_players,
        updateUnoStateFor_players, m1]
      exact hinv.dealerUB
    · rw [advance_discardPileCards, hs5, updateUnoStateFor_discardPileCards]
      exact m8
    · rw [advance_direction, hs5, updateUnoStateFor_direction]
      exact hdir4
    · intro _
      refine ⟨tsMod ((current : Int) + (steps : Int) * s5.direction) s5.playerCount,
        hadv, ?_⟩
      rw [advance_players, hs5, updateUnoStateFor_players, m1]
      have hpc : s5.playerCount = s.players.length := by
        rw [hs5, updateUnoStateFor_playerCount]
        unfold RoundState.playerCount
        rw [m1]
      rw [hpc]
      exact tsMod_lt _ _ hn0
    · intro hcontra
      rw [advance_ended, hs5, updateUnoStateFor_ended, m3] at hcontra
      exact absurd hcontra (by simp)
    · intro _ j hjlt
      rw [advance_hands, hs5, updateUnoStateFor_hands]
      rw [advance_hands, hs5, updateUnoStateFor_hands] at hjlt
      by_cases hjc : j = current
      · subst hjc
        intro hc0
        rw [hc0] at hempty
        exact hempty rfl
      · exact h4nonempty j hjlt hjc
    · intro hcontra
      rw [advance_ended, hs5, updateUnoStateFor_ended, m3] at hcontra
      simp at hcontra
    · intro hcontra
      rw [advance_ended, hs5, updateUnoStateFor_ended, m3] at hcontra
      simp at hcontra
    · rw [advance_enforcedColor, hs5, updateUnoStateFor_enforcedColor, m9,
        advance_topCardD, updateUnoStateFor_topCardD, m7]

theorem invCore_of_pileOnlyFrame {s s' : RoundState} (hinv : InvCore s)
    (hf : PileOnlyFrame s s') : InvCore s' := by
  obtain ⟨f1, f2, f3, f4, f5, f6, f7, f8, f9, f10, f11, f12, f13⟩ := hf
  refine ⟨?_, ?_, ?_, ?_, ?_, ?_, ?_, ?_, ?_, ?_, ?_, ?_, ?_, ?_⟩
  · rw [f3, f1, hinv.handsLen]
  · rw [f7, f1, hinv.unoLen]
  · rw [f1]; exact hinv.playersLB
  · rw [f1]; exact hinv.playersUB
  · rw [f2]; exact hinv.dealerLB
  · rw [f2, f1]; exact hinv.dealerUB
  · exact f13 hinv.discardNE
  · rw [f4]; exact hinv.dirOK
  · intro hend
    rw [f9] at hend
    obtain ⟨i, hi, hilt⟩ := hinv.activeCur hend
    exact ⟨i, by rw [f5]; exact hi, by rw [f1]; exact hilt⟩
  · intro hend
    rw [f9] at hend
    rw [f5]
    exact hinv.endedCur hend
  · intro hend j hjlt
    rw [f9] at hend
    rw [f3] at hjlt ⊢
    exact hinv.activeNoEmpty hend j hjlt
  · intro hend
    rw [f9] at hend
    obtain ⟨w, hw1, hw2, hw3, hw4⟩ := hinv.endedWinner hend
    refine ⟨w, by rw [f10]; exact hw1, by rw [f3]; exact hw2,
      by rw [f3]; exact hw3, ?_⟩
    intro j hjlt hjw
    rw [f3] at hjlt ⊢
    exact hw4 j hjlt hjw
  · intro hend
    rw [f9] at hend
    rw [f8]
    exact hinv.endedNoPending hend
  · rw [f6, f12]
    exact hinv.enforcedIffWild

theorem invCore_markActionBy (p : Nat) (s : RoundState) (hinv : InvCore s)
    (hend : s.ended = false) : InvCore (markActionBy p s) := by
  refine ⟨hinv.handsLen, hinv.unoLen, hinv.playersLB, hinv.playersUB,
    hinv.dealerLB, hinv.dealerUB, hinv.discardNE, hinv.dirOK, hinv.activeCur,
    hinv.endedCur, hinv.activeNoEmpty, hinv.endedWinner, ?_, hinv.enforcedIffWild⟩
  intro hcontra
  rw [markActionBy_ended, hend] at hcontra
  exact absurd hcontra (by simp)

theorem invCore_updateUno (p : Nat) (s : RoundState) (hinv : InvCore s)
    (hend : s.ended = false) : InvCore (updateUnoStateFor p s) := by
  refine ⟨hinv.handsLen, ?_, hinv.playersLB, hinv.playersUB,
    hinv.dealerLB, hinv.dealerUB, hinv.discardNE, hinv.dirOK, hinv.activeCur,
    hinv.endedCur, hinv.activeNoEmpty, hinv.endedWinner, ?_, hinv.enforcedIffWild⟩
  · rw [updateUnoStateFor_unoDeclared_length, updateUnoStateFor_players]
    exact hinv.unoLen
  · intro hcontra
    rw [updateUnoStateFor_ended, hend] at hcontra
    exact absurd hcontra (by simp)

theorem invCore_advance (k : Nat) (s : RoundState) (hinv : InvCore s)
    (hend : s.ended = false) : InvCore (advance k s) := by
  have hn0 : 0 < s.players.length := by
    have := hinv.playersLB
    omega
  refine ⟨hinv.handsLen, hinv.unoLen, hinv.playersLB, hinv.playersUB,
    hinv.dealerLB, hinv.dealerUB, hinv.discardNE, hinv.dirOK, ?_, ?_, ?_, ?_, ?_,
    hinv.enforcedIffWild⟩
  · intro _
    obtain ⟨i, hi, _⟩ := hinv.activeCur hend
    refine ⟨tsMod ((i : Int) + (k : Int) * s.direction) s.playerCount,
      advance_currentPlayerIndex_some k s i hi, ?_⟩
    rw [advance_players]
    have hpc : s.playerCount = s.players.length := rfl
    rw [hpc]
    exact tsMod_lt _ _ hn0
  · intro hcontra
    rw [advance_ended, hend] at hcontra
    exact absurd hcontra (by simp)
  · intro _ j hjlt
    rw [advance_hands] at hjlt ⊢
    exact hinv.activeNoEmpty hend j hjlt
  · intro hcontra
    rw [advance_ended, hend] at hcontra
    exact absurd hcontra (by simp)
  · intro hcontra
    rw [advance_ended, hend] at hcontra
    exact absurd hcontra (by simp)

theorem invCore_draw (sh : List Card → List Card) (s : RoundState) (c : Card)
    (s' : RoundState) (hinv : InvCore s)
    (h : RoundState.draw sh s = (Except.ok c, s')) : InvCore s' := by
  unfold draw at h
  split at h
  case _ hend => exact absurd h (by simp)
  case _ hend =>
    split at h
    case _ => exact absurd h (by simp)
    case _ current hcur =>
      split at h
      case _ e s2 heq => exact absurd h (by simp)
      case _ c0 s2 heq =>
        injection h with hc hs
        injection hc with hc
        have hended : s.ended = false := by
          cases hv : s.ended
          · rfl
          · exact absurd hv hend
        have hinvm : InvCore (markActionBy current s) :=
          invCore_markActionBy current s hinv hended
        have hinv2 : InvCore s2 :=
          invCore_of_pileOnlyFrame hinvm
            (takeFromDrawPile_frame' sh (markActionBy current s) _ _ heq)
        have h2ended : s2.ended = false := by
          obtain ⟨_, _, _, _, _, _, _, _, f9, _, _, _, _⟩ :=
            takeFromDrawPile_frame' sh (markActionBy current s) _ _ heq
          rw [f9, markActionBy_ended]
          exact hended
        set s3 : RoundState :=
          { s2 with hands := s2.hands.set current (s2.hands.getD current [] ++ [c0]) }
          with hs3
        have hinv3 : InvCore s3 := by
          refine ⟨?_, hinv2.unoLen, hinv2.playersLB, hinv2.playersUB,
            hinv2.dealerLB, hinv2.dealerUB, hinv2.discardNE, hinv2.dirOK,
            hinv2.activeCur, hinv2.endedCur, ?_, ?_, hinv2.endedNoPending,
            hinv2.enforcedIffWild⟩
          · show (s2.hands.set current (s2.hands.getD current [] ++ [c0])).length = _
            rw [List.length_set]
            exact hinv2.handsLen
          · intro hend3 j hjlt
            have hlen3 : s3.hands.length = s2.hands.length := by
              show (s2.hands.set current (s2.hands.getD current [] ++ [c0])).length = _
              exact List.length_set _ _ _
            have hjlt2 : j < s2.hands.length := by
              rw [hlen3] at hjlt
              exact hjlt
            show (s2.hands.set current (s2.hands.getD current [] ++ [c0])).getD j [] ≠ []
            by_cases hjc : j = current
            · subst hjc
              rw [getD_set_self _ _ _ _ hjlt2]
              simp
            · rw [getD_set_other _ _ _ (fun hcj => hjc hcj.symm)]
              exact hinv2.activeNoEmpty h2ended j hjlt2
          · intro hcontra
            have h3e : s3.ended = false := h2ended
            rw [h3e] at hcontra
            exact absurd hcontra (by simp)
        have h3ended : s3.ended = false := by
          rw [hs3]
          exact h2ended
        have hinv5 : InvCore (updateUnoStateFor current s3) :=
          invCore_updateUno current s3 hinv3 h3ended
        have h5ended : (updateUnoStateFor current s3).ended = false := by
          rw [updateUnoStateFor_ended]
          exact h3ended
        rw [← hs]
        unfold drawAdvance
        split
        · exact hinv5
        · exact invCore_advance 1 _ hinv5 h5ended

theorem invCore_sayUno (p : Int) (s : RoundState) (s' : RoundState)
    (hinv : InvCore s) (h : RoundState.sayUno p s = (Except.ok (), s')) :
    InvCore s' := by
  unfold sayUno at h
  split at h
  case _ => exact absurd h (by simp)
  case _ =>
    split at h
    case _ => exact absurd h (by simp)
    case _ hend =>
      split at h
      case _ => exact absurd h (by simp)
      case _ =>
        injection h with _ hs
        rw [← hs]
        have hended : s.ended = false := by
          cases hv : s.ended
          · rfl
          · exact absurd hv hend
        refine ⟨hinv.handsLen, ?_, hinv.playersLB, hinv.playersUB,
          hinv.dealerLB, hinv.dealerUB, hinv.discardNE, hinv.dirOK,
          hinv.activeCur, hinv.endedCur, hinv.activeNoEmpty, hinv.endedWinner,
          ?_, hinv.enforcedIffWild⟩
        · show (s.unoDeclared.set p.toNat true).length = _
          rw [List.length_set]
          exact hinv.unoLen
        · intro hcontra
          have : (sayUnoApply p.toNat s).ended = s.ended := rfl
          rw [this, hended] at hcontra
          exact absurd hcontra (by simp)

theorem invCore_catch (sh : List Card → List Card) (a b : Int) (s : RoundState)
    (r : Bool) (s' : RoundState) (hinv : InvCore s)
    (h : RoundState.catchUnoFailure sh a b s = (Except.ok r, s')) : InvCore s' := by
  unfold catchUnoFailure at h
  split at h
  case _ => exact absurd h (by simp)
  case _ =>
    split at h
    case _ => exact absurd h (by simp)
    case _ =>
      split at h
      case _ =>
        injection h with _ hs
        rw [← hs]
        exact hinv
      case _ pu hpu =>
        split at h
        case _ =>
          injection h with _ hs
          rw [← hs]
          exact hinv
        case _ hacc =>
          split at h
          case _ =>
            injection h with _ hs
            rw [← hs]
            exact hinv
          case _ hopen =>
            split at h
            case _ =>
              injection h with _ hs
              rw [← hs]
              exact hinv
            case _ hdecl =>
              split at h
              case _ =>
                injection h with _ hs
                rw [← hs]
                exact hinv
              case _ hone =>
                split at h
                case _ e s2 heq => exact absurd h (by simp)
                case _ s2 heq =>
                  injection h with _ hs
                  -- the round cannot be over: an open window contradicts
                  -- the ended-round invariant
                  have hended : s.ended = false := by
                    cases hv : s.ended
                    · rfl
                    · rw [hinv.endedNoPending hv] at hpu
                      exact absurd hpu (by simp)
                  have hsp : InvCore { s with pendingUno := none } := by
                    refine ⟨hinv.handsLen, hinv.unoLen, hinv.playersLB,
                      hinv.playersUB, hinv.dealerLB, hinv.dealerUB,
                      hinv.discardNE, hinv.dirOK, hinv.activeCur, hinv.endedCur,
                      hinv.activeNoEmpty, hinv.endedWinner, fun _ => rfl,
                      hinv.enforcedIffWild⟩
                  obtain ⟨⟨f1, f2, f3, f4, f5, f6, f7, f8, f9, f10, f11⟩,
                    g1, g2, g3⟩ := applyPenalty_spec sh b.toNat 4 _ _ _ heq
                  have hspended : ({ s with pendingUno := none } : RoundState).ended
                      = false := hended
                  have hinv2 : InvCore s2 := by
                    refine ⟨?_, ?_, ?_, ?_, ?_, ?_, ?_, ?_, ?_, ?_, ?_, ?_, ?_, ?_⟩
                    · rw [f11, f1]
                      exact hsp.handsLen
                    · rw [g1, f1]
                      exact hsp.unoLen
                    · rw [f1]; exact hsp.playersLB
                    · rw [f1]; exact hsp.playersUB
                    · rw [f2]; exact hsp.dealerLB
                    · rw [f2, f1]; exact hsp.dealerUB
                    · exact f10 hsp.discardNE
                    · rw [f3]; exact hsp.dirOK
                    · intro hend2
                      rw [f6] at hend2
                      obtain ⟨i, hi, hilt⟩ := hsp.activeCur hend2
                      exact ⟨i, by rw [f4]; exact hi, by rw [f1]; exact hilt⟩
                    · intro hend2
                      rw [f6, hspended] at hend2
                      exact absurd hend2 (by simp)
                    · intro hend2 j hjlt
                      rw [f6] at hend2
                      rw [f11] at hjlt
                      by_cases hjb : j = b.toNat
                      · subst hjb
                        obtain ⟨extra, hex, _⟩ := g3
                        rw [hex]
                        intro hc0
                        have h1 : (s.hands.getD b.toNat []).length = 1 := by
                          by_contra hcc
                          exact hone (by exact hcc)
                        have : (({ s with pendingUno := none } :
                            RoundState).hands.getD b.toNat []) =
                            s.hands.getD b.toNat [] := rfl
                        rw [this] at hc0
                        have := (List.append_eq_nil.mp hc0).1
                        rw [this] at h1
                        simp at h1
                      · rw [g2 j hjb]
                        exact hsp.activeNoEmpty hend2 j hjlt
                    · intro hend2
                      rw [f6, hspended] at hend2
                      exact absurd hend2 (by simp)
                    · intro hend2
                      rw [f6, hspended] at hend2
                      exact absurd hend2 (by simp)
                    · rw [f5, f9]
                      exact hsp.enforcedIffWild
                  rw [← hs]
                  refine ⟨hinv2.handsLen, ?_, hinv2.playersLB, hinv2.playersUB,
                    hinv2.dealerLB, hinv2.dealerUB, hinv2.discardNE, hinv2.dirOK,
                    hinv2.activeCur, hinv2.endedCur, hinv2.activeNoEmpty,
                    hinv2.endedWinner, ?_, hinv2.enforcedIffWild⟩
                  · show (s2.unoDeclared.set b.toNat false).length = _
                    rw [List.length_set]
                    exact hinv2.unoLen
                  · intro hcontra
                    have h2e : s2.ended = false := by
                      rw [f6]
                      exact hspended
                    have : ({ s2 with unoDeclared :=
                        s2.unoDeclared.set b.toNat false } : RoundState).ended
                        = s2.ended := rfl
                    rw [this, h2e] at hcontra
                    exact absurd hcontra (by simp)

/-! ## Invariant establishment by the constructors -/

theorem validatePlayers_ok_elim {ps : List String} {u : Unit}
    (h : validatePlayers ps = Except.ok u) :
    2 ≤ ps.length ∧ ps.length ≤ 10 := by
  unfold validatePlayers at h
  split at h
  · exact absurd h (by simp)
  · split at h
    · exact absurd h (by simp)
    · omega

theorem ensureIndex_ok_elim {i : Int} {n : Nat} {lbl : String} {u : Unit}
    (h : ensureIndex i n lbl = Except.ok u) : 0 ≤ i ∧ i < (n : Int) := by
  unfold ensureIndex at h
  split at h
  · exact absurd h (by simp)
  · omega

theorem ensureIndex_of_bounds {i : Int} {n : Nat} (lbl : String)
    (h0 : 0 ≤ i) (h1 : i < (n : Int)) : ensureIndex i n lbl = Except.ok () := by
  unfold ensureIndex
  rw [if_neg (by omega)]

theorem ensureIndex_err_of_out {i : Int} {n : Nat} (lbl : String)
    (h : i < 0 ∨ (n : Int) ≤ i) :
    ensureIndex i n lbl = Except.error (lbl ++ " is out of bounds") := by
  unfold ensureIndex
  rw [if_pos h]

theorem cloneCardsWithValidation_ok {cards l : List Card}
    (h : cloneCardsWithValidation cards = Except.ok l) :
    l = cards ∧ ∀ c ∈ cards, validCard c = true := by
  induction cards generalizing l with
  | nil =>
    unfold cloneCardsWithValidation mapExcept at h
    injection h with h
    exact ⟨h.symm, by simp⟩
  | cons a t ih =>
    unfold cloneCardsWithValidation mapExcept at h
    split at h
    case _ e heqf => exact absurd h (by simp)
    case _ b heqf =>
      split at h
      case _ e heqr => exact absurd h (by simp)
      case _ bs heqr =>
        injection h with h
        have hval : validCard a = true ∧ b = a := by
          by_cases hv : validCard a = true
          · rw [if_pos hv] at heqf
            injection heqf with heqf
            exact ⟨hv, heqf.symm⟩
          · rw [if_neg hv] at heqf
            exact absurd heqf (by simp)
        obtain ⟨ihl, ihv⟩ := ih heqr
        refine ⟨?_, ?_⟩
        · rw [← h, hval.2, ihl]
        · intro c hc
          rcases List.mem_cons.mp hc with rfl | hm
          · exact hval.1
          · exact ihv c hm

theorem cloneCardsWithValidation_of_valid {cards : List Card}
    (hv : ∀ c ∈ cards, validCard c = true) :
    cloneCardsWithValidation cards = Except.ok cards := by
  induction cards with
  | nil => rfl
  | cons a t ih =>
    unfold cloneCardsWithValidation mapExcept
    rw [if_pos (hv a (List.mem_cons_self a t))]
    have := ih (fun c hc => hv c (List.mem_cons_of_mem a hc))
    unfold cloneCardsWithValidation at this
    rw [this]

theorem cloneHandsWithValidation_ok {hands l : List (List Card)}
    (h : cloneHandsWithValidation hands = Except.ok l) :
    l = hands ∧ ∀ h' ∈ hands, ∀ c ∈ h', validCard c = true := by
  induction hands generalizing l with
  | nil =>
    unfold cloneHandsWithValidation at h
    injection h with h
    exact ⟨h.symm, by simp⟩
  | cons a t ih =>
    unfold cloneHandsWithValidation at h
    split at h
    case _ e heqf => exact absurd h (by simp)
    case _ b heqf =>
      split at h
      case _ e heqr => exact absurd h (by simp)
      case _ bs heqr =>
        injection h with h
        obtain ⟨hb, hbv⟩ := cloneCardsWithValidation_ok heqf
        obtain ⟨ihl, ihv⟩ := ih heqr
        refine ⟨by rw [← h, hb, ihl], ?_⟩
        intro h' hm c hc
        rcases List.mem_cons.mp hm with rfl | hm'
        · exact hbv c hc
        · exact ihv h' hm' c hc

theorem cloneHandsWithValidation_of_valid {hands : List (List Card)}
    (hv : ∀ h' ∈ hands, ∀ c ∈ h', validCard c = true) :
    cloneHandsWithValidation hands = Except.ok hands := by
  induction hands with
  | nil => rfl
  | cons a t ih =>
    unfold cloneHandsWithValidation
    rw [cloneCardsWithValidation_of_valid (hv a (List.mem_cons_self a t))]
    rw [ih (fun h' hm c hc => hv h' (List.mem_cons_of_mem a hm) c hc)]

theorem mementoCurrentPlayer_ok_elim {fin : Bool} {pit : Option Int} {n : Nat}
    {cp : Option Nat} (h : mementoCurrentPlayer fin pit n = Except.ok cp) :
    (fin = true → cp = none) ∧ (∀ i, cp = some i → i < n) := by
  unfold mementoCurrentPlayer at h
  split at h
  case _ hfin =>
    injection h with h
    refine ⟨fun _ => h.symm, ?_⟩
    intro i hi
    rw [← h] at hi
    exact absurd hi (by simp)
  case _ hfin =>
    split at h
    case _ => exact absurd h (by simp)
    case _ p =>
      split at h
      case _ => exact absurd h (by simp)
      case _ u heq =>
        injection h with h
        obtain ⟨hp0, hpn⟩ := ensureIndex_ok_elim heq
        refine ⟨fun hf => absurd hf hfin, ?_⟩
        intro i hi
        rw [← h] at hi
        injection hi with hi
        omega

theorem mementoEnforcedColor_ok_elim {top : Card} {col : Color} {e : Option Color}
    (h : mementoEnforcedColor top col = Except.ok e) :
    e.isSome = isWild top ∧ (isWild top = false → e = none) := by
  unfold mementoEnforcedColor at h
  split at h
  case _ hw =>
    injection h with h
    rw [← h, hw]
    exact ⟨rfl, fun hc => absurd hc (by simp)⟩
  case _ hw =>
    have hwf : isWild top = false := by
      cases hv : isWild top
      · rfl
      · exact absurd hv hw
    split at h
    case _ c heqc =>
      split at h
      case _ hcc =>
        injection h with h
        rw [← h, hwf]
        exact ⟨rfl, fun _ => rfl⟩
      case _ => exact absurd h (by simp)
    case _ => exact absurd h (by simp)

theorem invCore_mk {players : List String} {dealer : Int} {hands : List (List Card)}
    {drawPile discardPile : List Card} {direction : Int} {currentPlayer : Option Nat}
    {enforcedColor : Option Color} {s : RoundState}
    (hplayers : 2 ≤ players.length) (hplayersUB : players.length ≤ 10)
    (hdealer0 : 0 ≤ dealer) (hdealerN : dealer < (players.length : Int))
    (hhands : hands.length = players.length)
    (hdir : direction = 1 ∨ direction = -1)
    (hcur : ∀ i, currentPlayer = some i → i < players.length)
    (henf : enforcedColor.isSome = isWild (discardPile.getLastD Card.wild))
    (h : mkRoundImpl players dealer hands drawPile discardPile direction
      currentPlayer enforcedColor = Except.ok s) : InvCore s := by
  unfold mkRoundImpl at h
  split at h
  case _ => exact absurd h (by simp)
  case _ hdne =>
    split at h
    case _ => exact absurd h (by simp)
    case _ hw2 =>
      have hdiscne : discardPile ≠ [] := by
        intro hc
        rw [hc] at hdne
        exact hdne rfl
      split at h
      case _ hw1 =>
        obtain ⟨w, hwOf⟩ := List.length_eq_one.mp hw1
        obtain ⟨hwlt, hwe, hwo⟩ := winnersOf_singleton_inv hands w hwOf
        injection h with h
        rw [← h]
        refine ⟨hhands, by simp, hplayers, hplayersUB, hdealer0, hdealerN,
          hdiscne, hdir, ?_, fun _ => rfl, ?_, ?_, fun _ => rfl, henf⟩
        · intro hc
          exact absurd hc (by simp)
        · intro hc j
          exact absurd hc (by simp)
        · intro _
          refine ⟨w, ?_, hwlt, hwe, hwo⟩
          show (winnersOf hands).head? = some w
          rw [hwOf]
          rfl
      case _ hw1 =>
        split at h
        case _ => exact absurd h (by simp)
        case _ cur =>
          injection h with h
          rw [← h]
          have hwnil : winnersOf hands = [] := by
            cases hwl : winnersOf hands with
            | nil => rfl
            | cons a t =>
              exfalso
              have := congrArg List.length hwl
              simp at this
              omega
          have hnone : ∀ j, j < hands.length → hands.getD j [] ≠ [] := by
            intro j hjlt
            have hall := (winnersOf_eq_nil_iff hands).mp hwnil
            exact hall _ (getD_mem ([] : List Card) hjlt)
          refine ⟨hhands, by simp, hplayers, hplayersUB, hdealer0, hdealerN,
            hdiscne, hdir, ?_, ?_, ?_, ?_, fun _ => rfl, henf⟩
          · intro _
            exact ⟨cur, rfl, hcur cur rfl⟩
          · intro hc
            exact absurd hc (by simp)
          · intro _ j hjlt
            exact hnone j hjlt
          · intro hc
            exact absurd hc (by simp)

theorem toDirection_pm (lbl : DirectionLabel) :
    toDirection lbl = 1 ∨ toDirection lbl = -1 := by
  cases lbl
  · exact Or.inl rfl
  · exact Or.inr rfl

theorem invCore_fromMemento {m : RoundMemento} {s : RoundState}
    (h : createRoundFromMemento m = Except.ok s) : InvCore s := by
  unfold createRoundFromMemento at h
  split at h
  case _ => exact absurd h (by simp)
  case _ u1 heq1 =>
    split at h
    case _ => exact absurd h (by simp)
    case _ u2 heq2 =>
      split at h
      case _ => exact absurd h (by simp)
      case _ ncol heq3 =>
        split at h
        case _ => exact absurd h (by simp)
        case _ hcount =>
          split at h
          case _ => exact absurd h (by simp)
          case _ hands heq4 =>
            split at h
            case _ => exact absurd h (by simp)
            case _ drawPile heq5 =>
              split at h
              case _ => exact absurd h (by simp)
              case _ discardPile heq6 =>
                split at h
                case _ => exact absurd h (by simp)
                case _ hdlen =>
                  split at h
                  case _ => exact absurd h (by simp)
                  case _ hwin =>
                    split at h
                    case _ => exact absurd h (by simp)
                    case _ cp heq7 =>
                      split at h
                      case _ => exact absurd h (by simp)
                      case _ enf heq8 =>
                        obtain ⟨hp2, hp10⟩ := validatePlayers_ok_elim heq1
                        obtain ⟨hd0, hdn⟩ := ensureIndex_ok_elim heq2
                        obtain ⟨hhl, _⟩ := cloneHandsWithValidation_ok heq4
                        obtain ⟨hcp1, hcp2⟩ := mementoCurrentPlayer_ok_elim heq7
                        obtain ⟨henf1, _⟩ := mementoEnforcedColor_ok_elim heq8
                        refine invCore_mk hp2 hp10 hd0 hdn ?_
                          (toDirection_pm m.currentDirection) hcp2 henf1 h
                        rw [hhl]
                        omega

theorem buildInitialAttempt_spec {n dealer cpp : Nat} {cards : List Card}
    {init : InitialState} (hn : 0 < n) (hdealer : dealer < n)
    (h : buildInitialAttempt n dealer cpp cards = some init) :
    init.hands.length = n ∧
    (∃ fd, init.discardPile = [fd] ∧ isWild fd = false) ∧
    (init.direction = 1 ∨ init.direction = -1) ∧
    init.currentPlayer < n ∧
    (∀ h' ∈ init.hands, ∀ c ∈ h', c ∈ cards) ∧
    (∀ c ∈ init.drawPile, c ∈ cards) ∧
    (∀ c ∈ init.discardPile, c ∈ cards) := by
  unfold buildInitialAttempt at h
  split at h
  case _ => exact absurd h (by simp)
  case _ hlen =>
    split at h
    case _ hr => exact absurd h (by simp)
    case _ firstDiscard rest' hr =>
      have hbase : ∀ h' ∈ dealHands n cpp cards, ∀ c ∈ h', c ∈ cards := by
        intro h' hm c hc
        unfold dealHands at hm
        obtain ⟨p, hp, hph⟩ := List.mem_map.mp hm
        rw [← hph] at hc
        obtain ⟨i, hi, hic⟩ := List.mem_map.mp hc
        rw [← hic]
        apply getD_mem
        have hpn : p < n := List.mem_range.mp hp
        have hicpp : i < cpp := List.mem_range.mp hi
        have : i * n + p < cpp * n := by
          calc i * n + p < i * n + n := by omega
          _ = (i + 1) * n := by ring
          _ ≤ cpp * n := Nat.mul_le_mul_right n (by omega)
        have : i * n + p < n * cpp := by
          rw [Nat.mul_comm n cpp]
          exact this
        omega
      have hrest : ∀ c ∈ rest', c ∈ cards := by
        intro c hc
        have h1 : c ∈ firstDiscard :: rest' := List.mem_cons_of_mem _ hc
        rw [← hr] at h1
        exact List.mem_of_mem_drop h1
      have hfd : firstDiscard ∈ cards := by
        have h1 : firstDiscard ∈ firstDiscard :: rest' := List.mem_cons_self _ _
        rw [← hr] at h1
        exact List.mem_of_mem_drop h1
      split at h
      case _ => exact absurd h (by simp)
      case _ hwild =>
        have hwildf : isWild firstDiscard = false := by
          cases hv : isWild firstDiscard
          · rfl
          · exact absurd hv hwild
        have hbaselen : (dealHands n cpp cards).length = n := by
          unfold dealHands
          rw [List.length_map, List.length_range]
        cases firstDiscard with
        | wild => simp [isWild] at hwildf
        | wildDraw => simp [isWild] at hwildf
        | numbered c0 n0 =>
          simp only [openingEffects] at h
          injection h with h
          rw [← h]
          exact ⟨hbaselen, ⟨Card.numbered c0 n0, rfl, hwildf⟩, Or.inl rfl,
            by show tsMod ((dealer : Int) + 1) n < n; exact tsMod_lt _ _ hn,
            hbase, hrest,
            fun c hc => by rw [List.mem_singleton.mp hc]; exact hfd⟩
        | skip c0 =>
          simp only [openingEffects] at h
          injection h with h
          rw [← h]
          exact ⟨hbaselen, ⟨Card.skip c0, rfl, hwildf⟩, Or.inl rfl,
            by show tsMod ((dealer : Int) + 2) n < n; exact tsMod_lt _ _ hn,
            hbase, hrest,
            fun c hc => by rw [List.mem_singleton.mp hc]; exact hfd⟩
        | reverse c0 =>
          simp only [openingEffects] at h
          split at h
          case _ hn2 =>
            injection h with h
            rw [← h]
            exact ⟨hbaselen, ⟨Card.reverse c0, rfl, hwildf⟩, Or.inr rfl,
              by show dealer < n; exact hdealer, hbase, hrest,
              fun c hc => by rw [List.mem_singleton.mp hc]; exact hfd⟩
          case _ hn2 =>
            injection h with h
            rw [← h]
            exact ⟨hbaselen, ⟨Card.reverse c0, rfl, hwildf⟩, Or.inr rfl,
              by show tsMod ((dealer : Int) - 1) n < n; exact tsMod_lt _ _ hn,
              hbase, hrest,
              fun c hc => by rw [List.mem_singleton.mp hc]; exact hfd⟩
        | draw c0 =>
          simp only [openingEffects] at h
          split at h
          case _ => exact absurd h (by simp)
          case _ hr2 =>
            injection h with h
            rw [← h]
            refine ⟨by rw [List.length_set]; exact hbaselen,
              ⟨Card.draw c0, rfl, hwildf⟩, Or.inl rfl,
              by show tsMod ((dealer : Int) + 2) n < n; exact tsMod_lt _ _ hn, ?_,
              ?_, fun c hc => by rw [List.mem_singleton.mp hc]; exact hfd⟩
            · intro h' hm c hc
              rcases List.mem_or_eq_of_mem_set hm with hm' | rfl
              · exact hbase h' hm' c hc
              · rcases List.mem_append.mp hc with hc' | hc'
                · exact hbase _
                    (getD_mem _ (by rw [hbaselen]; exact tsMod_lt _ _ hn)) c hc'
                · exact hrest c (List.mem_of_mem_take hc')
            · intro c hc
              exact hrest c (List.mem_of_mem_drop hc)

theorem invCore_fromDeal {players : List String} {dealer : Nat} {cpp : Nat}
    {cards : List Card} {init : InitialState} {s : RoundState}
    (hp2 : 2 ≤ players.length) (hp10 : players.length ≤ 10)
    (hdealer : dealer < players.length)
    (hatt : buildInitialAttempt players.length dealer cpp cards = some init)
    (h : mkRoundFromInitial players (dealer : Int) init = Except.ok s) :
    InvCore s := by
  have hn0 : 0 < players.length := by omega
  obtain ⟨a1, ⟨fd, a2, a2w⟩, a3, a4, _, _, _⟩ :=
    buildInitialAttempt_spec hn0 hdealer hatt
  unfold mkRoundFromInitial at h
  refine invCore_mk hp2 hp10 (by exact_mod_cast Nat.zero_le dealer)
    (by exact_mod_cast hdealer) a1 a3 ?_ ?_ h
  · intro i hi
    injection hi with hi
    omega
  · rw [a2]
    show (none : Option Color).isSome = isWild fd
    rw [a2w]
    rfl

/-! ## Validity of all cards in play -/

/-- Every card in the hands and piles is a well-formed card record. -/
def AllValid (s : RoundState) : Prop :=
  (∀ h ∈ s.hands, ∀ c ∈ h, validCard c = true) ∧
  (∀ c ∈ s.drawPileCards, validCard c = true) ∧
  (∀ c ∈ s.discardPileCards, validCard c = true)

theorem getLastD_mem {α : Type} (l : List α) (d : α) (h : l ≠ []) :
    l.getLastD d ∈ l := by
  rw [List.getLastD_eq_getLast?, List.getLast?_eq_getLast l h]
  exact List.getLast_mem h

theorem allValid_of_eq {s s' : RoundState} (hv : AllValid s)
    (h1 : s'.hands = s.hands) (h2 : s'.drawPileCards = s.drawPileCards)
    (h3 : s'.discardPileCards = s.discardPileCards) : AllValid s' := by
  obtain ⟨v1, v2, v3⟩ := hv
  exact ⟨by rw [h1]; exact v1, by rw [h2]; exact v2, by rw [h3]; exact v3⟩

theorem takeFromDrawPile_allValid (sh : List Card → List Card) (s : RoundState)
    (c : Card) (s' : RoundState) (hsh : IsShuffler sh) (hv : AllValid s)
    (h : takeFromDrawPile sh s = (Except.ok c, s')) :
    AllValid s' ∧ validCard c = true := by
  obtain ⟨v1, v2, v3⟩ := hv
  obtain ⟨f1, f2, f3, f4, f5, f6, f7, f8, f9, f10, f11, f12, f13⟩ :=
    takeFromDrawPile_frame' sh s _ _ h
  obtain ⟨hempty, hnonempty⟩ := takeFromDrawPile_ok_spec sh s c s' h
  by_cases hd : s.drawPileCards = []
  · obtain ⟨hpile, hdisc⟩ := hempty hd
    have hmemrefill : ∀ x ∈ c :: s'.drawPileCards, validCard x = true := by
      intro x hx
      rw [← hpile] at hx
      have hx2 : x ∈ s.discardPileCards.dropLast := (hsh _).mem_iff.mp hx
      exact v3 x ((List.dropLast_sublist _).subset hx2)
    refine ⟨⟨by rw [f3]; exact v1, ?_, ?_⟩, hmemrefill c (List.mem_cons_self _ _)⟩
    · intro x hx
      exact hmemrefill x (List.mem_cons_of_mem _ hx)
    · intro x hx
      rw [hdisc] at hx
      rw [List.mem_singleton.mp hx]
      have hne : s.discardPileCards ≠ [] := by
        intro hcc
        rw [takeFromDrawPile_exhausted sh s hd (by rw [hcc]; simp)] at h
        exact absurd h (by simp)
      exact v3 _ (getLastD_mem _ _ hne)
  · obtain ⟨hpile, hdisc⟩ := hnonempty hd
    refine ⟨⟨by rw [f3]; exact v1, ?_, by rw [hdisc]; exact v3⟩, ?_⟩
    · intro x hx
      apply v2
      rw [hpile]
      exact List.mem_cons_of_mem _ hx
    · apply v2
      rw [hpile]
      exact List.mem_cons_self _ _

theorem drawCardsForPlayer_allValid (sh : List Card → List Card) (p : Nat)
    (hsh : IsShuffler sh) :
    ∀ (n : Nat) (s : RoundState) (s' : RoundState), AllValid s →
      RoundState.drawCardsForPlayer sh p n s = (Except.ok (), s') → AllValid s' := by
  intro n
  induction n with
  | zero =>
    intro s s' hv h
    unfold drawCardsForPlayer at h
    injection h with _ hs
    rw [← hs]
    exact hv
  | succ n ih =>
    intro s s' hv h
    unfold drawCardsForPlayer at h
    split at h
    case _ e s1 heq => exact absurd h (by simp)
    case _ c s1 heq =>
      obtain ⟨hv1, hcv⟩ := takeFromDrawPile_allValid sh s c s1 hsh hv heq
      apply ih _ _ _ h
      obtain ⟨v1, v2, v3⟩ := hv1
      refine ⟨?_, v2, v3⟩
      intro h' hm x hx
      rcases List.mem_or_eq_of_mem_set hm with hm' | rfl
      · exact v1 h' hm' x hx
      · rcases List.mem_append.mp hx with hx' | hx'
        · by_cases hp : p < s1.hands.length
          · exact v1 _ (getD_mem _ hp) x hx'
          · rw [List.getD_eq_default _ _ (by omega)] at hx'
            simp at hx'
        · rw [List.mem_singleton.mp hx']
          exact hcv

theorem applyPenalty_allValid (sh : List Card → List Card) (p k : Nat)
    (s s' : RoundState) (hsh : IsShuffler sh) (hv : AllValid s)
    (h : RoundState.applyPenalty sh p k s = (Except.ok (), s')) : AllValid s' := by
  unfold applyPenalty at h
  split at h
  case _ e s1 heq => exact absurd h (by simp)
  case _ s1 heq =>
    injection h with _ hs
    rw [← hs]
    have hv1 := drawCardsForPlayer_allValid sh p hsh k s s1 hv heq
    exact allValid_of_eq hv1 (updateUnoStateFor_hands p s1)
      (updateUnoStateFor_drawPileCards p s1) (updateUnoStateFor_discardPileCards p s1)

theorem cardEffects_allValid (sh : List Card → List Card) (cur : Nat) (card : Card)
    (s : RoundState) (steps : Nat) (s' : RoundState) (hsh : IsShuffler sh)
    (hv : AllValid s) (h : RoundState.cardEffects sh cur card s = (Except.ok steps, s')) :
    AllValid s' := by
  cases card with
  | numbered c0 n0 =>
    simp only [cardEffects] at h
    injection h with _ hs
    rw [← hs]
    exact hv
  | skip c0 =>
    simp only [cardEffects] at h
    injection h with _ hs
    rw [← hs]
    exact hv
  | wild =>
    simp only [cardEffects] at h
    injection h with _ hs
    rw [← hs]
    exact hv
  | reverse c0 =>
    simp only [cardEffects] at h
    split at h <;>
    · injection h with _ hs
      rw [← hs]
      exact allValid_of_eq hv rfl rfl rfl
  | draw c0 =>
    simp only [cardEffects] at h
    split at h
    case _ e s1 heq => exact absurd h (by simp)
    case _ s1 heq =>
      injection h with _ hs
      rw [← hs]
      have := applyPenalty_allValid sh _ 2 s s1 hsh hv heq
      exact allValid_of_eq this (markActionBy_hands _ _)
        (markActionBy_drawPileCards _ _) (markActionBy_discardPileCards _ _)
  | wildDraw =>
    simp only [cardEffects] at h
    split at h
    case _ e s1 heq => exact absurd h (by simp)
    case _ s1 heq =>
      injection h with _ hs
      rw [← hs]
      have := applyPenalty_allValid sh _ 4 s s1 hsh hv heq
      exact allValid_of_eq this (markActionBy_hands _ _)
        (markActionBy_drawPileCards _ _) (markActionBy_discardPileCards _ _)

theorem play_allValid (sh : List Card → List Card) (i : Nat) (col : Option Color)
    (s : RoundState) (c : Card) (s' : RoundState) (hsh : IsShuffler sh)
    (hv : AllValid s) (h : RoundState.play sh i col s = (Except.ok c, s')) :
    AllValid s' := by
  unfold play at h
  split at h
  case _ => exact absurd h (by simp)
  case _ hend =>
    split at h
    case _ => exact absurd h (by simp)
    case _ current hcur =>
      split at h
      case _ => exact absurd h (by simp)
      case _ hlen =>
        split at h
        case _ => exact absurd h (by simp)
        case _ hcp =>
          split at h
          case _ e s2' heq1 => exact absurd h (by simp)
          case _ s3 heq1 =>
            split at h
            case _ e s4 heq2 => exact absurd h (by simp)
            case _ steps s4 heq2 =>
              injection h with hc hs
              obtain ⟨v1, v2, v3⟩ := hv
              have hhand : current < s.hands.length := by
                by_contra hcc
                rw [List.getD_eq_default _ _ (by omega)] at hlen
                simp at hlen
              have hcv : validCard ((s.hands.getD current []).getD i Card.wild)
                  = true := by
                apply v1 _ (getD_mem _ hhand)
                apply getD_mem
                omega
              obtain ⟨e, hs3, _⟩ := setEnforcedForCard_ok_spec _ col _ s3 heq1
              have hv3 : AllValid s3 := by
                refine ⟨?_, ?_, ?_⟩
                · show ∀ h' ∈ s3.hands, ∀ c ∈ h', validCard c = true
                  have : s3.hands = s.hands.set current
                      ((s.hands.getD current []).eraseIdx i) := by
                    rw [hs3]; rfl
                  rw [this]
                  intro h' hm x hx
                  rcases List.mem_or_eq_of_mem_set hm with hm' | rfl
                  · exact v1 h' hm' x hx
                  · exact v1 _ (getD_mem _ hhand) x
                      ((List.eraseIdx_sublist _ _).subset hx)
                · have : s3.drawPileCards = s.drawPileCards := by
                    rw [hs3]; rfl
                  rw [this]
                  exact v2
                · have : s3.discardPileCards = s.discardPileCards ++
                      [(s.hands.getD current []).getD i Card.wild] := by
                    rw [hs3]; rfl
                  rw [this]
                  intro x hx
                  rcases List.mem_append.mp hx with hx' | hx'
                  · exact v3 x hx'
                  · rw [List.mem_singleton.mp hx']
                    exact hcv
              have hv4 := cardEffects_allValid sh current _ s3 steps s4 hsh hv3 heq2
              rw [← hs]
              have h3e : s3.ended = s.ended := by rw [hs3]; rfl
              have hended4 : s4.ended = false := by
                obtain ⟨_, _, _, _, k5, _⟩ :=
                  cardEffects_ok_spec sh current _ s3 steps s4 heq2
                rw [k5, h3e]
                cases hv0 : s.ended
                · rfl
                · exact absurd hv0 hend
              by_cases hempty : (s4.hands.getD current []).length = 0
              · rw [playFinish_empty current steps s4 hempty]
                have hfin := finishRound_fields current
                  { updateUnoStateFor current s4 with pendingUno := none }
                exact allValid_of_eq hv4
                  (by rw [hfin.2.2.1]; exact updateUnoStateFor_hands current s4)
                  (by rw [hfin.2.2.2.1]
                      exact updateUnoStateFor_drawPileCards current s4)
                  (by rw [hfin.2.2.2.2.1]
                      exact updateUnoStateFor_discardPileCards current s4)
              · rw [playFinish_nonempty current steps s4 hempty hended4]
                exact allValid_of_eq hv4
                  (by rw [advance_hands]; exact updateUnoStateFor_hands current s4)
                  (by rw [advance_drawPileCards]
                      exact updateUnoStateFor_drawPileCards current s4)
                  (by rw [advance_discardPileCards]
                      exact updateUnoStateFor_discardPileCards current s4)

theorem draw_allValid (sh : List Card → List Card) (s : RoundState) (c : Card)
    (s' : RoundState) (hsh : IsShuffler sh) (hv : AllValid s)
    (h : RoundState.draw sh s = (Except.ok c, s')) : AllValid s' := by
  unfold draw at h
  split at h
  case _ => exact absurd h (by simp)
  case _ =>
    split at h
    case _ => exact absurd h (by simp)
    case _ current hcur =>
      split at h
      case _ e s2 heq => exact absurd h (by simp)
      case _ c0 s2 heq =>
        injection h with hc hs
        have hvm : AllValid (markActionBy current s) :=
          allValid_of_eq hv rfl rfl rfl
        obtain ⟨hv2, hcv⟩ :=
          takeFromDrawPile_allValid sh (markActionBy current s) c0 s2 hsh hvm heq
        rw [← hs]
        unfold drawAdvance
        obtain ⟨v1, v2, v3⟩ := hv2
        have hv3 : AllValid
            { s2 with hands := s2.hands.set current (s2.hands.getD current [] ++ [c0]) } := by
          refine ⟨?_, v2, v3⟩
          intro h' hm x hx
          rcases List.mem_or_eq_of_mem_set hm with hm' | rfl
          · exact v1 h' hm' x hx
          · rcases List.mem_append.mp hx with hx' | hx'
            · by_cases hp : current < s2.hands.length
              · exact v1 _ (getD_mem _ hp) x hx'
              · rw [List.getD_eq_default _ _ (by omega)] at hx'
                simp at hx'
            · rw [List.mem_singleton.mp hx']
              exact hcv
        split
        · exact allValid_of_eq hv3 (updateUnoStateFor_hands _ _)
            (updateUnoStateFor_drawPileCards _ _)
            (updateUnoStateFor_discardPileCards _ _)
        · exact allValid_of_eq hv3
            (by rw [advance_hands]; exact updateUnoStateFor_hands _ _)
            (by rw [advance_drawPileCards]
                exact updateUnoStateFor_drawPileCards _ _)
            (by rw [advance_discardPileCards]
                exact updateUnoStateFor_discardPileCards _ _)

theorem sayUno_allValid (p : Int) (s s' : RoundState) (hv : AllValid s)
    (h : RoundState.sayUno p s = (Except.ok (), s')) : AllValid s' := by
  unfold sayUno at h
  split at h
  case _ => exact absurd h (by simp)
  case _ =>
    split at h
    case _ => exact absurd h (by simp)
    case _ =>
      split at h
      case _ => exact absurd h (by simp)
      case _ =>
        injection h with _ hs
        rw [← hs]
        exact allValid_of_eq hv rfl rfl rfl

theorem catch_allValid (sh : List Card → List Card) (a b : Int) (s : RoundState)
    (r : Bool) (s' : RoundState) (hsh : IsShuffler sh) (hv : AllValid s)
    (h : RoundState.catchUnoFailure sh a b s = (Except.ok r, s')) : AllValid s' := by
  unfold catchUnoFailure at h
  split at h
  case _ => exact absurd h (by simp)
  case _ =>
    split at h
    case _ => exact absurd h (by simp)
    case _ =>
      split at h
      case _ =>
        injection h with _ hs
        rw [← hs]
        exact hv
      case _ pu hpu =>
        split at h
        case _ =>
          injection h with _ hs
          rw [← hs]
          exact hv
        case _ =>
          split at h
          case _ =>
            injection h with _ hs
            rw [← hs]
            exact hv
          case _ =>
            split at h
            case _ =>
              injection h with _ hs
              rw [← hs]
              exact hv
            case _ =>
              split at h
              case _ =>
                injection h with _ hs
                rw [← hs]
                exact hv
              case _ =>
                split at h
                case _ e s2 heq => exact absurd h (by simp)
                case _ s2 heq =>
                  injection h with _ hs
                  rw [← hs]
                  have hvp : AllValid { s with pendingUno := none } :=
                    allValid_of_eq hv rfl rfl rfl
                  have hv2 := applyPenalty_allValid sh b.toNat 4 _ s2 hsh hvp heq
                  exact allValid_of_eq hv2 rfl rfl rfl


/-! ## Reachable rounds -/

theorem mkRoundImpl_ok_spec {players : List String} {dealer : Int}
    {hands : List (List Card)} {drawPile discardPile : List Card}
    {direction : Int} {currentPlayer : Option Nat} {enforcedColor : Option Color}
    {s : RoundState}
    (h : mkRoundImpl players dealer hands drawPile discardPile direction
      currentPlayer enforcedColor = Except.ok s) :
    s.players = players ∧ s.dealer = dealer ∧ s.hands = hands ∧
    s.drawPileCards = drawPile ∧ s.discardPileCards = discardPile ∧
    s.direction = direction ∧ s.enforcedColor = enforcedColor ∧
    s.unoDeclared = List.replicate players.length false ∧
    s.pendingUno = none ∧ s.cachedScore = none ∧
    ((winnersOf hands).length = 1 →
       s.ended = true ∧ s.currentPlayerIndex = none ∧
       s.winnerIndex = (winnersOf hands).head?) ∧
    ((winnersOf hands).length ≠ 1 →
       s.ended = false ∧ s.currentPlayerIndex = currentPlayer ∧
       s.winnerIndex = none) := by
  unfold mkRoundImpl at h
  split at h
  case _ => exact absurd h (by simp)
  case _ =>
    split at h
    case _ => exact absurd h (by simp)
    case _ =>
      split at h
      case _ hw1 =>
        injection h with h
        rw [← h]
        exact ⟨rfl, rfl, rfl, rfl, rfl, rfl, rfl, rfl, rfl, rfl,
          fun _ => ⟨rfl, rfl, rfl⟩, fun hc => absurd hw1 hc⟩
      case _ hw1 =>
        split at h
        case _ => exact absurd h (by simp)
        case _ cur =>
          injection h with h
          rw [← h]
          exact ⟨rfl, rfl, rfl, rfl, rfl, rfl, rfl, rfl, rfl, rfl,
            fun hc => absurd hc hw1, fun _ => ⟨rfl, rfl, rfl⟩⟩

theorem allValid_fromMemento {m : RoundMemento} {s : RoundState}
    (h : createRoundFromMemento m = Except.ok s) : AllValid s := by
  unfold createRoundFromMemento at h
  split at h
  case _ => exact absurd h (by simp)
  case _ =>
    split at h
    case _ => exact absurd h (by simp)
    case _ =>
      split at h
      case _ => exact absurd h (by simp)
      case _ ncol heq3 =>
        split at h
        case _ => exact absurd h (by simp)
        case _ hcount =>
          split at h
          case _ => exact absurd h (by simp)
          case _ hands heq4 =>
            split at h
            case _ => exact absurd h (by simp)
            case _ drawPile heq5 =>
              split at h
              case _ => exact absurd h (by simp)
              case _ discardPile heq6 =>
                split at h
                case _ => exact absurd h (by simp)
                case _ hdlen =>
                  split at h
                  case _ => exact absurd h (by simp)
                  case _ hwin =>
                    split at h
                    case _ => exact absurd h (by simp)
                    case _ cp heq7 =>
                      split at h
                      case _ => exact absurd h (by simp)
                      case _ enf heq8 =>
                        obtain ⟨_, _, s3, s4, s5, _, _, _, _, _, _, _⟩ :=
                          mkRoundImpl_ok_spec h
                        obtain ⟨_, hhv⟩ := cloneHandsWithValidation_ok heq4
                        obtain ⟨hdr, hdrv⟩ := cloneCardsWithValidation_ok heq5
                        obtain ⟨hdc, hdcv⟩ := cloneCardsWithValidation_ok heq6
                        refine ⟨?_, ?_, ?_⟩
                        · rw [s3]
                          obtain ⟨hhl, _⟩ := cloneHandsWithValidation_ok heq4
                          rw [hhl]
                          exact hhv
                        · rw [s4, hdr]
                          exact hdrv
                        · rw [s5, hdc]
                          exact hdcv

theorem allValid_fromDeal {players : List String} {dealer : Nat} {cpp : Nat}
    {cards : List Card} {init : InitialState} {s : RoundState}
    (hp2 : 2 ≤ players.length) (hdealer : dealer < players.length)
    (hcards : ∀ c ∈ cards, validCard c = true)
    (hatt : buildInitialAttempt players.length dealer cpp cards = some init)
    (h : mkRoundFromInitial players (dealer : Int) init = Except.ok s) :
    AllValid s := by
  have hn0 : 0 < players.length := by omega
  obtain ⟨_, _, _, _, b5, b6, b7⟩ := buildInitialAttempt_spec hn0 hdealer hatt
  unfold mkRoundFromInitial at h
  obtain ⟨_, _, s3, s4, s5, _, _, _, _, _, _, _⟩ := mkRoundImpl_ok_spec h
  refine ⟨?_, ?_, ?_⟩
  · rw [s3]
    intro h' hm c hc
    exact hcards c (b5 h' hm c hc)
  · rw [s4]
    intro c hc
    exact hcards c (b6 c hc)
  · rw [s5]
    intro c hc
    exact hcards c (b7 c hc)

/-- A round is reachable when it was built by one of the two factory paths and
then evolved through successful public operations, each using a genuinely
permuting shuffler. -/
inductive Reachable : RoundState → Prop where
  | fromMemento (m : RoundMemento) (s : RoundState) :
      createRoundFromMemento m = Except.ok s → Reachable s
  | fromDeal (players : List String) (dealer : Nat) (cpp : Nat)
      (cards : List Card) (init : InitialState) (s : RoundState) :
      2 ≤ players.length → players.length ≤ 10 → dealer < players.length →
      (∀ c ∈ cards, validCard c = true) →
      buildInitialAttempt players.length dealer cpp cards = some init →
      mkRoundFromInitial players (dealer : Int) init = Except.ok s → Reachable s
  | playStep (sh : List Card → List Card) (i : Nat) (col : Option Color)
      (c : Card) (s s' : RoundState) : IsShuffler sh → Reachable s →
      RoundState.play sh i col s = (Except.ok c, s') → Reachable s'
  | drawStep (sh : List Card → List Card) (c : Card) (s s' : RoundState) :
      IsShuffler sh → Reachable s →
      RoundState.draw sh s = (Except.ok c, s') → Reachable s'
  | sayUnoStep (p : Int) (s s' : RoundState) : Reachable s →
      RoundState.sayUno p s = (Except.ok (), s') → Reachable s'
  | catchStep (sh : List Card → List Card) (a b : Int) (r : Bool)
      (s s' : RoundState) : IsShuffler sh → Reachable s →
      RoundState.catchUnoFailure sh a b s = (Except.ok r, s') → Reachable s'

theorem inv_reachable {s : RoundState} (h : Reachable s) :
    InvCore s ∧ AllValid s := by
  induction h with
  | fromMemento m s hm => exact ⟨invCore_fromMemento hm, allValid_fromMemento hm⟩
  | fromDeal players dealer cpp cards init s h2 h10 hd hv hatt hmk =>
    exact ⟨invCore_fromDeal h2 h10 hd hatt hmk,
      allValid_fromDeal h2 hd hv hatt hmk⟩
  | playStep sh i col c s s' hsh _ hp ih =>
    exact ⟨invCore_play sh i col s c s' ih.1 hp,
      play_allValid sh i col s c s' hsh ih.2 hp⟩
  | drawStep sh c s s' hsh _ hd ih =>
    exact ⟨invCore_draw sh s c s' ih.1 hd, draw_allValid sh s c s' hsh ih.2 hd⟩
  | sayUnoStep p s s' _ hu ih =>
    exact ⟨invCore_sayUno p s s' ih.1 hu, sayUno_allValid p s s' ih.2 hu⟩
  | catchStep sh a b r s s' hsh _ hc ih =>
    exact ⟨invCore_catch sh a b s r s' ih.1 hc,
      catch_allValid sh a b s r s' hsh ih.2 hc⟩


/-! ## Computation lemmas for concrete paths -/

deriving instance DecidableEq for Except

theorem takeFromDrawPile_cons (sh : List Card → List Card) (s : RoundState)
    (c : Card) (rest : List Card) (hd : s.drawPileCards = c :: rest) :
    RoundState.takeFromDrawPile sh s =
      (Except.ok c, { s with drawPileCards := rest }) := by
  have hne : ¬s.drawPileCards.length = 0 := by rw [hd]; simp
  unfold takeFromDrawPile
  split
  case _ e s1 heq =>
    rw [if_neg hne] at heq
    exact absurd heq (by simp)
  case _ s1 heq =>
    rw [if_neg hne] at heq
    injection heq with _ hs1
    split
    case _ hnil =>
      rw [← hs1, hd] at hnil
      exact absurd hnil (by simp)
    case _ c' rest' hd' =>
      rw [← hs1, hd] at hd'
      injection hd' with h1 h2
      rw [← hs1, h1, h2]

theorem takeFromDrawPile_error_spec (sh : List Card → List Card) (s : RoundState)
    (e : String) (s' : RoundState)
    (h : RoundState.takeFromDrawPile sh s = (Except.error e, s')) :
    s.drawPileCards = [] ∧
    (s.discardPileCards.length ≤ 1 ∨ sh s.discardPileCards.dropLast = []) := by
  by_cases hd : s.drawPileCards = []
  · refine ⟨hd, ?_⟩
    by_cases hdl : s.discardPileCards.length ≤ 1
    · exact Or.inl hdl
    · right
      unfold takeFromDrawPile at h
      split at h
      case _ e1 s1 heq =>
        rw [if_pos (by rw [hd]; rfl)] at heq
        unfold refillDrawPile at heq
        rw [if_neg (by rw [hd]; simp), if_neg hdl] at heq
        split at heq
        case _ hlast =>
          exact absurd (List.getLast?_eq_none_iff.mp hlast)
            (by intro hc; rw [hc] at hdl; simp at hdl)
        case _ top hlast => exact absurd heq (by simp)
      case _ s1 heq =>
        rw [if_pos (by rw [hd]; rfl)] at heq
        rcases refillDrawPile_ok_spec sh s s1 heq with ⟨hpos, _⟩ | ⟨_, _, hs1⟩
        · rw [hd] at hpos
          simp at hpos
        · split at h
          case _ hnil =>
            rw [hs1] at hnil
            exact hnil
          case _ c' rest' hd' => exact absurd h (by simp)
  · exfalso
    obtain ⟨c, rest, hcons⟩ := List.exists_cons_of_ne_nil hd
    rw [takeFromDrawPile_cons sh s c rest hcons] at h
    exact absurd h (by simp)

theorem drawCardsForPlayer_succeeds (sh : List Card → List Card) (p : Nat) :
    ∀ (k : Nat) (s : RoundState), k ≤ s.drawPileCards.length →
      ∃ s', RoundState.drawCardsForPlayer sh p k s = (Except.ok (), s') ∧
        s'.drawPileCards.length = s.drawPileCards.length - k := by
  intro k
  induction k with
  | zero =>
    intro s _
    exact ⟨s, rfl, by omega⟩
  | succ k ih =>
    intro s hk
    have hne : s.drawPileCards ≠ [] := by
      intro hc
      rw [hc] at hk
      simp at hk
    obtain ⟨c, rest, hcons⟩ := List.exists_cons_of_ne_nil hne
    have htake := takeFromDrawPile_cons sh s c rest hcons
    have hlrest : ({ s with drawPileCards := rest } : RoundState).drawPileCards.length
        = s.drawPileCards.length - 1 := by
      show rest.length = s.drawPileCards.length - 1
      rw [hcons]
      simp
    set s2 : RoundState :=
      { ({ s with drawPileCards := rest } : RoundState) with
        hands := ({ s with drawPileCards := rest } : RoundState).hands.set p
          (({ s with drawPileCards := rest } : RoundState).hands.getD p [] ++ [c]) }
      with hs2
    have hlen2 : s2.drawPileCards.length = s.drawPileCards.length - 1 := hlrest
    obtain ⟨s', hs', hlen'⟩ := ih s2 (by rw [hlen2]; omega)
    refine ⟨s', ?_, by rw [hlen', hlen2]; omega⟩
    unfold drawCardsForPlayer
    split
    case _ e s1 heq =>
      rw [htake] at heq
      exact absurd heq (by simp)
    case _ c1 s1 heq =>
      rw [htake] at heq
      injection heq with hc1 hs1
      injection hc1 with hc1
      rw [← hs1, ← hc1]
      exact hs'

theorem applyPenalty_succeeds (sh : List Card → List Card) (p k : Nat)
    (s : RoundState) (hk : k ≤ s.drawPileCards.length) :
    ∃ s', RoundState.applyPenalty sh p k s = (Except.ok (), s') := by
  obtain ⟨s1, hs1, _⟩ := drawCardsForPlayer_succeeds sh p k s hk
  refine ⟨updateUnoStateFor p s1, ?_⟩
  unfold applyPenalty
  split
  case _ e s2 heq =>
    rw [hs1] at heq
    exact absurd heq (by simp)
  case _ s2 heq =>
    rw [hs1] at heq
    injection heq with _ hs2
    rw [hs2]

/-! ## C4: turn advancement -/

/-- C4: for every successful `play` that does not end the round, the new
current player is `(old + steps·direction) mod playerCount`, where the step
count is 1 for NUMBERED and WILD, 2 for SKIP, DRAW and WILD DRAW, and REVERSE
flips the direction with step count 1 for more than two players and 2 for
exactly two players (acting as a skip). -/
theorem c4_turn_advance (sh : List Card → List Card) (i : Nat) (col : Option Color)
    (s : RoundState) (c : Card) (s' : RoundState) (cur : Nat)
    (hcur : s.currentPlayerIndex = some cur)
    (h : RoundState.play sh i col s = (Except.ok c, s'))
    (hne : s'.ended = false) :
    s'.direction = dirAfter c s.direction ∧
    s'.currentPlayerIndex = some (tsMod ((cur : Int) +
      (stepCount c s.playerCount : Int) * dirAfter c s.direction) s.playerCount) := by
  obtain ⟨current, steps, s4, hended, hcur', hilen, hcard, hcp, hs', hsteps,
    m1, m2, m3, m4, m5, m6, m7, m8, m9, m10, m11, m12, m13⟩ :=
    play_ok_mid sh i col s c s' h
  have hcc : current = cur := by
    rw [hcur] at hcur'
    injection hcur' with h0
    exact h0.symm
  by_cases hempty : (s4.hands.getD current []).length = 0
  · exfalso
    rw [hs', playFinish_empty current steps s4 hempty] at hne
    have h6e : ({ updateUnoStateFor current s4 with pendingUno := none } :
        RoundState).ended = false := m3
    obtain ⟨w1, _, _⟩ := finishRound_of_not_ended current _ h6e
    rw [w1] at hne
    exact absurd hne (by simp)
  · rw [hs', playFinish_nonempty current steps s4 hempty m3]
    have hdir : (updateUnoStateFor current s4).direction = dirAfter c s.direction := by
      rw [updateUnoStateFor_direction, m6]
    constructor
    · rw [advance_direction]
      exact hdir
    · have h5cur : (updateUnoStateFor current s4).currentPlayerIndex
          = some current := by
        rw [updateUnoStateFor_currentPlayerIndex, m4]
      rw [advance_currentPlayerIndex_some steps _ current h5cur]
      have hpc : (updateUnoStateFor current s4).playerCount = s.playerCount := by
        rw [updateUnoStateFor_playerCount]
        unfold RoundState.playerCount
        rw [m1]
      rw [hdir, hpc, ← hsteps, hcc]

def c4state : RoundState :=
  { players := ["A", "B"], dealer := 0,
    hands := [[Card.reverse Color.red, Card.numbered Color.red 5],
              [Card.numbered Color.red 6, Card.numbered Color.blue 1]],
    drawPileCards := [Card.numbered Color.blue 1],
    discardPileCards := [Card.numbered Color.red 3],
    direction := 1, currentPlayerIndex := some 0, enforcedColor := none,
    unoDeclared := [false, false], pendingUno := none,
    ended := false, winnerIndex := none, cachedScore := none }

theorem c4_turn_advance_witness :
    (RoundState.play (fun l => l) 0 none c4state).2.direction
      = dirAfter (Card.reverse Color.red) c4state.direction ∧
    (RoundState.play (fun l => l) 0 none c4state).2.currentPlayerIndex
      = some (tsMod ((0 : Int) +
          (stepCount (Card.reverse Color.red) c4state.playerCount : Int) *
          dirAfter (Card.reverse Color.red) c4state.direction)
          c4state.playerCount) :=
  c4_turn_advance (fun l => l) 0 none c4state (Card.reverse Color.red)
    (RoundState.play (fun l => l) 0 none c4state).2 0 (by decide) (by rfl)
    (by decide)


/-! ## C5: draw -/

/-- C5: on an active round with a current player, a successful `draw` appends
exactly one card — the removed front card of the draw pile (after a transparent
refill when the pile was empty) — to the current player's hand, and the turn
advances by exactly one step if and only if the drawn card is not playable
against the unchanged top card and enforced color. -/
theorem c5_draw_effect (sh : List Card → List Card) (s : RoundState) (c : Card)
    (s' : RoundState) (cur : Nat)
    (hcur : s.currentPlayerIndex = some cur)
    (hlen : cur < s.hands.length)
    (h : RoundState.draw sh s = (Except.ok c, s')) :
    s'.hands.getD cur [] = s.hands.getD cur [] ++ [c] ∧
    (s.drawPileCards ≠ [] → s.drawPileCards = c :: s'.drawPileCards) ∧
    (s.drawPileCards = [] → sh s.discardPileCards.dropLast = c :: s'.drawPileCards) ∧
    s'.currentPlayerIndex =
      (if cardCanPlay c s.topCardD s.enforcedColor then some cur
       else some (tsMod ((cur : Int) + 1 * s.direction) s.playerCount)) := by
  unfold draw at h
  split at h
  case _ => exact absurd h (by simp)
  case _ hended =>
    split at h
    case _ => exact absurd h (by simp)
    case _ current hcpe =>
      have hcc : current = cur := by
        rw [hcur] at hcpe
        injection hcpe with h0
        exact h0.symm
      split at h
      case _ e s2 heq => exact absurd h (by simp)
      case _ c0 s2 heq =>
        injection h with hc hs'
        injection hc with hc
        obtain ⟨f1, f2, f3, f4, f5, f6, f7, f8, f9, f10, f11, f12, f13⟩ :=
          takeFromDrawPile_frame' sh (markActionBy current s) _ s2 heq
        have hh2 : s2.hands = s.hands := by rw [f3, markActionBy_hands]
        have hcur2 : s2.currentPlayerIndex = some cur := by
          rw [f5, markActionBy_currentPlayerIndex, hcur]
        have hXcur : (updateUnoStateFor current
            ({ s2 with hands := s2.hands.set current (s2.hands.getD current [] ++ [c0]) } :
              RoundState)).currentPlayerIndex = some cur := by
          rw [updateUnoStateFor_currentPlayerIndex]
          exact hcur2
        have hXtop : (updateUnoStateFor current
            ({ s2 with hands := s2.hands.set current (s2.hands.getD current [] ++ [c0]) } :
              RoundState)).topCardD = s.topCardD := by
          rw [updateUnoStateFor_topCardD]
          show s2.topCardD = s.topCardD
          rw [f12, markActionBy_topCardD]
        have hXenf : (updateUnoStateFor current
            ({ s2 with hands := s2.hands.set current (s2.hands.getD current [] ++ [c0]) } :
              RoundState)).enforcedColor = s.enforcedColor := by
          rw [updateUnoStateFor_enforcedColor]
          show s2.enforcedColor = s.enforcedColor
          rw [f6, markActionBy_enforcedColor]
        have hXdir : (updateUnoStateFor current
            ({ s2 with hands := s2.hands.set current (s2.hands.getD current [] ++ [c0]) } :
              RoundState)).direction = s.direction := by
          rw [updateUnoStateFor_direction]
          show s2.direction = s.direction
          rw [f4, markActionBy_direction]
        have hXpc : (updateUnoStateFor current
            ({ s2 with hands := s2.hands.set current (s2.hands.getD current [] ++ [c0]) } :
              RoundState)).playerCount = s.playerCount := by
          rw [updateUnoStateFor_playerCount]
          show s2.playerCount = s.playerCount
          unfold RoundState.playerCount
          rw [f1, markActionBy_players]
        refine ⟨?_, ?_, ?_, ?_⟩
        · rw [← hs']
          unfold drawAdvance
          have hhand : ∀ t : RoundState,
              t.hands = s2.hands.set current (s2.hands.getD current [] ++ [c0]) →
              t.hands.getD cur [] = s.hands.getD cur [] ++ [c] := by
            intro t ht
            rw [ht, hcc, ← hh2]
            rw [getD_set_self s2.hands cur _ [] (by rw [hh2]; exact hlen)]
            rw [hh2, hc]
          split
          · exact hhand _ (by rw [updateUnoStateFor_hands])
          · exact hhand _ (by rw [advance_hands, updateUnoStateFor_hands])
        · intro hne
          obtain ⟨hp1, _⟩ := (takeFromDrawPile_ok_spec sh (markActionBy current s)
            c0 s2 heq).2 (by rw [markActionBy_drawPileCards]; exact hne)
          rw [markActionBy_drawPileCards] at hp1
          have hdp : s'.drawPileCards = s2.drawPileCards := by
            rw [← hs']
            unfold drawAdvance
            split
            · rw [updateUnoStateFor_drawPileCards]
            · rw [advance_drawPileCards, updateUnoStateFor_drawPileCards]
          rw [hdp, ← hc]
          exact hp1
        · intro hnil
          obtain ⟨hp1, _⟩ := (takeFromDrawPile_ok_spec sh (markActionBy current s)
            c0 s2 heq).1 (by rw [markActionBy_drawPileCards]; exact hnil)
          rw [markActionBy_discardPileCards] at hp1
          have hdp : s'.drawPileCards = s2.drawPileCards := by
            rw [← hs']
            unfold drawAdvance
            split
            · rw [updateUnoStateFor_drawPileCards]
            · rw [advance_drawPileCards, updateUnoStateFor_drawPileCards]
          rw [hdp, ← hc]
          exact hp1
        · rw [← hs']
          unfold drawAdvance
          rw [hXtop, hXenf, ← hc]
          by_cases hplay : cardCanPlay c0 s.topCardD s.enforcedColor = true
          · rw [if_pos hplay, if_pos hplay]
            exact hXcur
          · rw [if_neg hplay, if_neg hplay]
            rw [advance_currentPlayerIndex_some 1 _ cur hXcur, hXdir, hXpc]
            norm_num

def c5state : RoundState :=
  { players := ["A", "B"], dealer := 0,
    hands := [[Card.wild, Card.numbered Color.red 5],
              [Card.numbered Color.red 6, Card.numbered Color.blue 1]],
    drawPileCards := [Card.numbered Color.blue 1, Card.numbered Color.red 5],
    discardPileCards := [Card.numbered Color.red 3],
    direction := 1, currentPlayerIndex := some 0, enforcedColor := none,
    unoDeclared := [false, false], pendingUno := none,
    ended := false, winnerIndex := none, cachedScore := none }

theorem c5_draw_effect_witness :
    (RoundState.draw (fun l => l) c5state).2.hands.getD 0 []
        = c5state.hands.getD 0 [] ++ [Card.numbered Color.blue 1] ∧
    (c5state.drawPileCards ≠ [] →
      c5state.drawPileCards
        = Card.numbered Color.blue 1 :: (RoundState.draw (fun l => l) c5state).2.drawPileCards) ∧
    (c5state.drawPileCards = [] →
      (fun l => l) c5state.discardPileCards.dropLast
        = Card.numbered Color.blue 1 :: (RoundState.draw (fun l => l) c5state).2.drawPileCards) ∧
    (RoundState.draw (fun l => l) c5state).2.currentPlayerIndex =
      (if cardCanPlay (Card.numbered Color.blue 1) c5state.topCardD c5state.enforcedColor
       then some 0
       else some (tsMod ((0 : Int) + 1 * c5state.direction) c5state.playerCount)) :=
  c5_draw_effect (fun l => l) c5state (Card.numbered Color.blue 1)
    (RoundState.draw (fun l => l) c5state).2 0 (by decide) (by decide) (by rfl)

/-! ## C6: draw-pile exhaustion and refill -/

/-- C6: when a card must be taken from an empty draw pile, a discard pile
holding more than one card has all cards but its top moved (shuffled) into a
fresh draw pile, the top alone remaining as the discard pile, and the take
succeeds; a discard pile holding exactly one card makes the operation fail. -/
theorem c6_draw_pile_exhaustion (sh : List Card → List Card) (s : RoundState)
    (hsh : IsShuffler sh) (hempty : s.drawPileCards = []) :
    (1 < s.discardPileCards.length →
      ∃ c s', RoundState.takeFromDrawPile sh s = (Except.ok c, s') ∧
        c :: s'.drawPileCards = sh s.discardPileCards.dropLast ∧
        (c :: s'.drawPileCards).Perm s.discardPileCards.dropLast ∧
        s'.discardPileCards = [s.topCardD]) ∧
    (s.discardPileCards.length = 1 →
      RoundState.takeFromDrawPile sh s =
        (Except.error "Cannot replenish draw pile", s)) := by
  constructor
  · intro hgt
    rcases htr : RoundState.takeFromDrawPile sh s with ⟨r, s1⟩
    cases r with
    | error e =>
      exfalso
      obtain ⟨_, hcase⟩ := takeFromDrawPile_error_spec sh s e s1 htr
      rcases hcase with hle | hnil
      · omega
      · have hl := (hsh s.discardPileCards.dropLast).length_eq
        rw [hnil, List.length_dropLast] at hl
        simp at hl
        omega
    | ok c =>
      obtain ⟨hemp, _⟩ := takeFromDrawPile_ok_spec sh s c s1 htr
      obtain ⟨h1, h2⟩ := hemp hempty
      refine ⟨c, s1, rfl, h1.symm, ?_, h2⟩
      rw [h1.symm]
      exact hsh s.discardPileCards.dropLast
  · intro h1
    exact takeFromDrawPile_exhausted sh s hempty (by omega)

def c6state : RoundState :=
  { players := ["A", "B"], dealer := 0,
    hands := [[Card.wild, Card.numbered Color.red 5],
              [Card.numbered Color.red 6, Card.numbered Color.blue 1]],
    drawPileCards := [],
    discardPileCards := [Card.numbered Color.red 5, Card.numbered Color.red 6,
                         Card.numbered Color.red 3],
    direction := 1, currentPlayerIndex := some 0, enforcedColor := none,
    unoDeclared := [false, false], pendingUno := none,
    ended := false, winnerIndex := none, cachedScore := none }

theorem c6_draw_pile_exhaustion_witness :
    (1 < c6state.discardPileCards.length →
      ∃ c s', RoundState.takeFromDrawPile (fun l => l) c6state = (Except.ok c, s') ∧
        c :: s'.drawPileCards = (fun l => l) c6state.discardPileCards.dropLast ∧
        (c :: s'.drawPileCards).Perm c6state.discardPileCards.dropLast ∧
        s'.discardPileCards = [c6state.topCardD]) ∧
    (c6state.discardPileCards.length = 1 →
      RoundState.takeFromDrawPile (fun l => l) c6state =
        (Except.error "Cannot replenish draw pile", c6state)) :=
  c6_draw_pile_exhaustion (fun l => l) c6state isShuffler_id (by rfl)


/-! ## C7: catchUnoFailure -/

/-- The accusation-success conditions read by `catchUnoFailure`: an open
window targeting the accused, no declaration, and a one-card hand. -/
def CatchConditions (s : RoundState) (accused : Nat) : Prop :=
  s.pendingUno = some { player := accused, windowOpen := true } ∧
  s.unoDeclared.getD accused false = false ∧
  (s.hands.getD accused []).length = 1

instance (s : RoundState) (accused : Nat) : Decidable (CatchConditions s accused) :=
  inferInstanceAs (Decidable (_ ∧ _ ∧ _))

theorem updateUnoStateFor_pendingUno_of_ne_one (p : Nat) (s : RoundState)
    (hsz : (s.hands.getD p []).length ≠ 1) (hpend : s.pendingUno = none) :
    (updateUnoStateFor p s).pendingUno = none := by
  simp only [updateUnoStateFor]
  rw [hpend]
  unfold unoPending1
  rw [if_neg hsz]

theorem applyPenalty_ok_pendingUno (sh : List Card → List Card) (p k : Nat)
    (s s2 : RoundState) (h : RoundState.applyPenalty sh p k s = (Except.ok (), s2))
    (hk : p < s.hands.length) (hsz : (s.hands.getD p []).length + k ≠ 1)
    (hpend : s.pendingUno = none) : s2.pendingUno = none := by
  unfold applyPenalty at h
  split at h
  case _ e s1 heq => exact absurd h (by simp)
  case _ s1 heq =>
    injection h with _ hs2
    obtain ⟨pf, _, hpn, _, extra, hext, hlen⟩ := drawCardsForPlayer_spec sh p k s _ _ heq
    rw [← hs2]
    refine updateUnoStateFor_pendingUno_of_ne_one p s1 ?_ (hpn.trans hpend)
    rw [hext, List.length_append, hlen rfl hk]
    exact hsz

/-- C7 (amended): with in-bounds accuser and accused, `catchUnoFailure`
returns `false` and leaves the state unchanged when any success condition
fails (open window targeting the accused, no declaration, one-card hand);
when all conditions hold AND the draw pile can solvently supply the 4-card
penalty, it returns `true`, adds exactly 4 cards to the accused's hand and
closes the window.  (Without the solvency condition the success direction of
the original claim fails: the penalty draw can throw mid-operation, see the
counterexample.)  An out-of-bounds accuser or accused yields an index error
with no state change. -/
theorem c7_catch_uno (sh : List Card → List Card) (accuser accused : Int)
    (s : RoundState) :
    ((accuser < 0 ∨ (s.playerCount : Int) ≤ accuser ∨
      accused < 0 ∨ (s.playerCount : Int) ≤ accused) →
      ∃ e, RoundState.catchUnoFailure sh accuser accused s = (Except.error e, s)) ∧
    (0 ≤ accuser → accuser < (s.playerCount : Int) →
     0 ≤ accused → accused < (s.playerCount : Int) →
      (¬CatchConditions s accused.toNat →
        RoundState.catchUnoFailure sh accuser accused s = (Except.ok false, s)) ∧
      (CatchConditions s accused.toNat → 4 ≤ s.drawPileCards.length →
       accused.toNat < s.hands.length →
        ∃ s', RoundState.catchUnoFailure sh accuser accused s = (Except.ok true, s') ∧
          (s'.hands.getD accused.toNat []).length
            = (s.hands.getD accused.toNat []).length + 4 ∧
          s'.pendingUno = none)) := by
  constructor
  · intro hbad
    by_cases ha : accuser < 0 ∨ (s.playerCount : Int) ≤ accuser
    · refine ⟨"player" ++ " is out of bounds", ?_⟩
      unfold catchUnoFailure
      rw [ensureIndex_err_of_out "player" (by omega)]
    · have hb : accused < 0 ∨ (s.playerCount : Int) ≤ accused := by
        rcases hbad with h | h | h | h
        · exact absurd (Or.inl h) ha
        · exact absurd (Or.inr h) ha
        · exact Or.inl h
        · exact Or.inr h
      refine ⟨"player" ++ " is out of bounds", ?_⟩
      unfold catchUnoFailure
      rw [ensureIndex_of_bounds "player" (by omega) (by omega),
        ensureIndex_err_of_out "player" (by omega)]
  · intro ha0 ha1 hb0 hb1
    constructor
    · intro hnc
      unfold catchUnoFailure
      split
      case _ e heq =>
        rw [ensureIndex_of_bounds "player" ha0 ha1] at heq
        exact absurd heq (by simp)
      case _ heq =>
        split
        case _ e heq2 =>
          rw [ensureIndex_of_bounds "player" hb0 hb1] at heq2
          exact absurd heq2 (by simp)
        case _ heq2 =>
          split
          case _ => rfl
          case _ pu hpu =>
            split
            case _ => rfl
            case _ h1 =>
              split
              case _ => rfl
              case _ h2 =>
                split
                case _ => rfl
                case _ h3 =>
                  split
                  case _ => rfl
                  case _ h4 =>
                    exfalso
                    apply hnc
                    have hp : pu.player = accused.toNat := by
                      by_contra hcon
                      exact h1 hcon
                    have hw : pu.windowOpen = true := by
                      cases hwo : pu.windowOpen
                      · exact absurd hwo h2
                      · rfl
                    have hlen1 : (s.hands.getD accused.toNat []).length = 1 := by
                      by_contra hcon
                      exact h4 hcon
                    refine ⟨?_, ?_, hlen1⟩
                    · rw [hpu]
                      cases pu
                      simp only at hp hw
                      rw [hp, hw]
                    · cases hd : s.unoDeclared.getD accused.toNat false
                      · rfl
                      · exact absurd hd h3
    · intro hc hsolv hbnd
      obtain ⟨hpend, hdecl, hone⟩ := hc
      obtain ⟨s2, hs2⟩ := applyPenalty_succeeds sh accused.toNat 4
        ({ s with pendingUno := none }) hsolv
      obtain ⟨pf, hul, hothers, extra, hext, hlen⟩ :=
        applyPenalty_spec sh accused.toNat 4 ({ s with pendingUno := none }) _ s2 hs2
      refine ⟨{ s2 with unoDeclared := s2.unoDeclared.set accused.toNat false },
        ?_, ?_, ?_⟩
      · unfold catchUnoFailure
        split
        case _ e heq =>
          rw [ensureIndex_of_bounds "player" ha0 ha1] at heq
          exact absurd heq (by simp)
        case _ heq =>
          split
          case _ e heq2 =>
            rw [ensureIndex_of_bounds "player" hb0 hb1] at heq2
            exact absurd heq2 (by simp)
          case _ heq2 =>
            split
            case _ hpn => exact absurd (hpn ▸ hpend) (by simp)
            case _ pu hpu =>
              rw [hpend] at hpu
              injection hpu with hpu
              subst hpu
              split
              case _ h1 => exact absurd rfl h1
              case _ h1 =>
                split
                case _ h2 => exact absurd h2 (by simp)
                case _ h2 =>
                  split
                  case _ h3 => exact absurd (hdecl ▸ h3) (by simp)
                  case _ h3 =>
                    split
                    case _ h4 => exact absurd hone h4
                    case _ h4 =>
                      split
                      case _ e s3 heq3 =>
                        rw [hs2] at heq3
                        exact absurd heq3 (by simp)
                      case _ s3 heq3 =>
                        rw [hs2] at heq3
                        injection heq3 with _ hs3
                        rw [hs3]
      · rw [show ({ s2 with unoDeclared := s2.unoDeclared.set accused.toNat false } :
            RoundState).hands = s2.hands from rfl]
        rw [hext, List.length_append, hlen rfl hbnd]
      · show s2.pendingUno = none
        exact applyPenalty_ok_pendingUno sh accused.toNat 4 _ s2 hs2 hbnd
          (by rw [show ({ s with pendingUno := none } : RoundState).hands = s.hands
                from rfl, hone]; omega) rfl

def c7state : RoundState :=
  { players := ["A", "B"], dealer := 0,
    hands := [[Card.numbered Color.red 5, Card.numbered Color.red 6],
              [Card.numbered Color.blue 1]],
    drawPileCards := [Card.numbered Color.blue 1, Card.numbered Color.red 5,
                      Card.numbered Color.red 6, Card.numbered Color.red 3,
                      Card.numbered Color.blue 1],
    discardPileCards := [Card.numbered Color.red 3],
    direction := 1, currentPlayerIndex := some 0, enforcedColor := none,
    unoDeclared := [false, false],
    pendingUno := some { player := 1, windowOpen := true },
    ended := false, winnerIndex := none, cachedScore := none }

theorem c7_catch_uno_witness :
    ∃ s', RoundState.catchUnoFailure (fun l => l) 0 1 c7state = (Except.ok true, s') ∧
      (s'.hands.getD 1 []).length = (c7state.hands.getD 1 []).length + 4 ∧
      s'.pendingUno = none :=
  ((c7_catch_uno (fun l => l) 0 1 c7state).2 (by decide) (by decide) (by decide)
    (by decide)).2 (by decide) (by decide) (by decide)

def c7cex : RoundState :=
  { players := ["A", "B"], dealer := 0,
    hands := [[Card.numbered Color.red 5, Card.numbered Color.red 6],
              [Card.numbered Color.blue 1]],
    drawPileCards := [],
    discardPileCards := [Card.numbered Color.red 3],
    direction := 1, currentPlayerIndex := some 0, enforcedColor := none,
    unoDeclared := [false, false],
    pendingUno := some { player := 1, windowOpen := true },
    ended := false, winnerIndex := none, cachedScore := none }

/-- C7 counterexample to the unamended claim: all four accusation-success
conditions hold, the indices are in bounds, yet `catchUnoFailure` neither
returns `true` nor returns `false` with the state unchanged — the penalty
draw exhausts both piles, the call throws, and the pending window has
already been consumed at the throw point (the state IS changed). -/
theorem c7_catch_uno_cex :
    CatchConditions c7cex 1 ∧
    (RoundState.catchUnoFailure (fun l => l) 0 1 c7cex).1
      = Except.error "Cannot replenish draw pile" ∧
    (RoundState.catchUnoFailure (fun l => l) 0 1 c7cex).2.pendingUno = none ∧
    c7cex.pendingUno = some { player := 1, windowOpen := true } := by
  decide

/-! ## C10: catchUnoFailure on an ended round -/

/-- C10: `catchUnoFailure` has no ended-round precondition: on every
reachable round that has ended, with in-bounds accuser and accused, it does
not throw — it returns `false` and leaves the state unchanged, because the
pending-UNO window is always cleared by the time a round ends. -/
theorem c10_catch_after_end (sh : List Card → List Card) (accuser accused : Int)
    (s : RoundState) (hreach : Reachable s) (hend : s.ended = true)
    (ha0 : 0 ≤ accuser) (ha1 : accuser < (s.playerCount : Int))
    (hb0 : 0 ≤ accused) (hb1 : accused < (s.playerCount : Int)) :
    RoundState.catchUnoFailure sh accuser accused s = (Except.ok false, s) := by
  have hpn : s.pendingUno = none := (inv_reachable hreach).1.endedNoPending hend
  unfold catchUnoFailure
  split
  case _ e heq =>
    rw [ensureIndex_of_bounds "player" ha0 ha1] at heq
    exact absurd heq (by simp)
  case _ heq =>
    split
    case _ e heq2 =>
      rw [ensureIndex_of_bounds "player" hb0 hb1] at heq2
      exact absurd heq2 (by simp)
    case _ heq2 =>
      split
      case _ => rfl
      case _ pu hpu => exact absurd (hpu ▸ hpn) (by simp)

def c10memento : RoundMemento :=
  { players := ["A", "B"], hands := [[], [Card.numbered Color.red 5]],
    drawPile := [Card.numbered Color.blue 1],
    discardPile := [Card.numbered Color.red 3], currentColor := Color.red,
    currentDirection := DirectionLabel.clockwise, dealer := 0,
    playerInTurn := none }

def c10state : RoundState :=
  { players := ["A", "B"], dealer := 0,
    hands := [[], [Card.numbered Color.red 5]],
    drawPileCards := [Card.numbered Color.blue 1],
    discardPileCards := [Card.numbered Color.red 3],
    direction := 1, currentPlayerIndex := none, enforcedColor := none,
    unoDeclared := [false, false], pendingUno := none,
    ended := true, winnerIndex := some 0, cachedScore := none }

theorem c10_catch_after_end_witness :
    RoundState.catchUnoFailure (fun l => l) 0 1 c10state = (Except.ok false, c10state) :=
  c10_catch_after_end (fun l => l) 0 1 c10state
    (Reachable.fromMemento c10memento c10state (by decide))
    (by decide) (by decide) (by decide) (by decide) (by decide)


/-! ## C1: atomicity of failing operations -/

theorem setEnforcedForCard_wild_none (card : Card) (s : RoundState)
    (hw : isWild card = true) :
    RoundState.setEnforcedForCard card none s =
      (Except.error "Color must be specified when playing a wild card", s) := by
  unfold setEnforcedForCard
  rw [if_pos hw]

theorem setEnforcedForCard_nonwild_some (card : Card) (col : Color) (s : RoundState)
    (hw : isWild card = false) :
    RoundState.setEnforcedForCard card (some col) s =
      (Except.error "Color can only be provided for wild cards", s) := by
  unfold setEnforcedForCard
  rw [if_neg (by rw [hw]; simp)]

/-- C1 (amended): `play` is NOT atomic on failure.  After the validation steps
pass (active round, current player, in-bounds index, playable card), the card
is moved from the hand to the discard pile BEFORE the color argument is
checked, so playing a wild variant without a color — or a non-wild card with a
color — throws with the card already moved (and the action already recorded by
`markActionBy`): the state at the throw is
`playMove cur i card (markActionBy cur s)`, not `s`. -/
theorem c1_play_throw_state (sh : List Card → List Card) (i : Nat) (s : RoundState)
    (cur : Nat) (hend : s.ended = false) (hcur : s.currentPlayerIndex = some cur)
    (hi : i < (s.hands.getD cur []).length)
    (hcan : (markActionBy cur s).roundCanPlay i = true) :
    (isWild ((s.hands.getD cur []).getD i Card.wild) = true →
      RoundState.play sh i none s =
        (Except.error "Color must be specified when playing a wild card",
         playMove cur i ((s.hands.getD cur []).getD i Card.wild)
           (markActionBy cur s))) ∧
    (isWild ((s.hands.getD cur []).getD i Card.wild) = false → ∀ col : Color,
      RoundState.play sh i (some col) s =
        (Except.error "Color can only be provided for wild cards",
         playMove cur i ((s.hands.getD cur []).getD i Card.wild)
           (markActionBy cur s))) := by
  constructor
  · intro hw
    unfold play
    split
    case _ ht => rw [hend] at ht; exact absurd ht (by simp)
    case _ ht =>
      split
      case _ heq => rw [hcur] at heq; exact absurd heq (by simp)
      case _ current heq =>
        rw [hcur] at heq
        injection heq with heq
        subst heq
        split
        case _ hlen => exact absurd hlen (by omega)
        case _ hlen =>
          split
          case _ hcp => rw [hcan] at hcp; exact absurd hcp (by simp)
          case _ hcp =>
            split
            case _ e s2x heq2 =>
              rw [setEnforcedForCard_wild_none _ _ hw] at heq2
              injection heq2 with h1 h2
              injection h1 with h1
              rw [← h1, ← h2]
            case _ s3 heq2 =>
              rw [setEnforcedForCard_wild_none _ _ hw] at heq2
              exact absurd heq2 (by simp)
  · intro hw col
    unfold play
    split
    case _ ht => rw [hend] at ht; exact absurd ht (by simp)
    case _ ht =>
      split
      case _ heq => rw [hcur] at heq; exact absurd heq (by simp)
      case _ current heq =>
        rw [hcur] at heq
        injection heq with heq
        subst heq
        split
        case _ hlen => exact absurd hlen (by omega)
        case _ hlen =>
          split
          case _ hcp => rw [hcan] at hcp; exact absurd hcp (by simp)
          case _ hcp =>
            split
            case _ e s2x heq2 =>
              rw [setEnforcedForCard_nonwild_some _ col _ hw] at heq2
              injection heq2 with h1 h2
              injection h1 with h1
              rw [← h1, ← h2]
            case _ s3 heq2 =>
              rw [setEnforcedForCard_nonwild_some _ col _ hw] at heq2
              exact absurd heq2 (by simp)

def c1state : RoundState :=
  { players := ["A", "B"], dealer := 0,
    hands := [[Card.wild, Card.numbered Color.red 5],
              [Card.numbered Color.red 6, Card.numbered Color.blue 1]],
    drawPileCards := [Card.numbered Color.blue 1, Card.numbered Color.red 5,
                      Card.numbered Color.red 6],
    discardPileCards := [Card.numbered Color.red 3],
    direction := 1, currentPlayerIndex := some 0, enforcedColor := none,
    unoDeclared := [false, false], pendingUno := none,
    ended := false, winnerIndex := none, cachedScore := none }

theorem c1_play_throw_state_witness :
    RoundState.play (fun l => l) 0 none c1state =
      (Except.error "Color must be specified when playing a wild card",
       playMove 0 0 ((c1state.hands.getD 0 []).getD 0 Card.wild)
         (markActionBy 0 c1state)) :=
  (c1_play_throw_state (fun l => l) 0 c1state 0 (by decide) (by decide) (by decide)
    (by decide)).1 (by decide)

/-- C1 counterexample to the unamended claim: an active round whose current
player's card at index 0 is a wild variant; `play(0)` without a color throws,
yet the hand and the discard pile are both observably different at the throw
(the wild card has moved from the hand to the discard pile). -/
theorem c1_play_throw_state_cex :
    isWild ((c1state.hands.getD 0 []).getD 0 Card.wild) = true ∧
    (RoundState.play (fun l => l) 0 none c1state).1
      = Except.error "Color must be specified when playing a wild card" ∧
    (RoundState.play (fun l => l) 0 none c1state).2.hands ≠ c1state.hands ∧
    (RoundState.play (fun l => l) 0 none c1state).2.discardPileCards
      ≠ c1state.discardPileCards := by
  decide

/-! ## C8: memento with an extra playerInTurn -/

/-- C8 (amended): `createRoundFromMemento` does NOT reject an extra
`playerInTurn`.  For a memento whose hands contain exactly one winner (an
ended round), the `playerInTurn` field is silently ignored: construction
produces the same result whatever value (present or absent) the field
holds — it does not fail on a present value. -/
theorem c8_playerInTurn_ignored (pl : List String) (hs : List (List Card))
    (dp dc : List Card) (cc : Color) (cd : DirectionLabel) (dl : Int)
    (hwin : (winnersOf hs).length = 1) (p q : Option Int) :
    createRoundFromMemento
        { players := pl, hands := hs, drawPile := dp, discardPile := dc,
          currentColor := cc, currentDirection := cd, dealer := dl,
          playerInTurn := p }
      = createRoundFromMemento
        { players := pl, hands := hs, drawPile := dp, discardPile := dc,
          currentColor := cc, currentDirection := cd, dealer := dl,
          playerInTurn := q } := by
  simp only [createRoundFromMemento]
  split
  · rfl
  · split
    · rfl
    · split
      · rfl
      · split
        · rfl
        · split
          · rfl
          · rename_i hands heq4
            split
            · rfl
            · split
              · rfl
              · split
                · rfl
                · split
                  · rfl
                  · obtain ⟨hh, _⟩ := cloneHandsWithValidation_ok heq4
                    have hf : ((winnersOf hands).length == 1) = true := by
                      rw [hh, hwin]
                      rfl
                    rw [hf]
                    rfl

def c8memento : RoundMemento :=
  { players := ["A", "B"], hands := [[], [Card.numbered Color.red 5]],
    drawPile := [], discardPile := [Card.numbered Color.red 3],
    currentColor := Color.red, currentDirection := DirectionLabel.clockwise,
    dealer := 0, playerInTurn := some 0 }

def c8state : RoundState :=
  { players := ["A", "B"], dealer := 0,
    hands := [[], [Card.numbered Color.red 5]],
    drawPileCards := [], discardPileCards := [Card.numbered Color.red 3],
    direction := 1, currentPlayerIndex := none, enforcedColor := none,
    unoDeclared := [false, false], pendingUno := none,
    ended := true, winnerIndex := some 0, cachedScore := none }

/-- C8 counterexample: a memento with exactly one empty hand and a present
`playerInTurn` is ACCEPTED — construction succeeds (as an ended round) instead
of failing with a descriptive error. -/
theorem c8_playerInTurn_ignored_cex :
    countEmptyHands c8memento.hands = 1 ∧
    c8memento.playerInTurn = some 0 ∧
    createRoundFromMemento c8memento = Except.ok c8state ∧
    c8state.ended = true := by
  decide

theorem c8_playerInTurn_ignored_witness :
    createRoundFromMemento
        { players := ["A", "B"], hands := [[], [Card.numbered Color.red 5]],
          drawPile := [], discardPile := [Card.numbered Color.red 3],
          currentColor := Color.red, currentDirection := DirectionLabel.clockwise,
          dealer := 0, playerInTurn := some 0 }
      = createRoundFromMemento
        { players := ["A", "B"], hands := [[], [Card.numbered Color.red 5]],
          drawPile := [], discardPile := [Card.numbered Color.red 3],
          currentColor := Color.red, currentDirection := DirectionLabel.clockwise,
          dealer := 0, playerInTurn := none } :=
  c8_playerInTurn_ignored ["A", "B"] [[], [Card.numbered Color.red 5]]
    [] [Card.numbered Color.red 3] Color.red DirectionLabel.clockwise 0
    (by decide) (some 0) none

/-! ## C9: pile views -/

/-- C9 (amended): the pile views returned by `drawPile()` and `discardPile()`
are NOT protective copies — they alias the round's engine-owned arrays.
`deal()` on the draw-pile view removes the round's own internal front card,
`shuffle(f)` rewrites the round's own internal draw pile in place, and
`deal()` on the discard-pile view removes the round's own internal front
discard card, so external code CAN mutate the engine-owned storage. -/
theorem c9_views_alias (s : RoundState) :
    (∀ c rest, s.drawPileCards = c :: rest →
      RoundState.drawPileViewDeal s = (some c, { s with drawPileCards := rest })) ∧
    (s.drawPileCards = [] → RoundState.drawPileViewDeal s = (none, s)) ∧
    (∀ f, (RoundState.drawPileViewShuffle f s).drawPileCards = f s.drawPileCards) ∧
    (∀ c rest, s.discardPileCards = c :: rest →
      RoundState.discardPileViewDeal s =
        (some c, { s with discardPileCards := rest })) := by
  refine ⟨?_, ?_, fun f => rfl, ?_⟩
  · intro c rest hd
    unfold drawPileViewDeal
    split
    case _ hnil => rw [hd] at hnil; exact absurd hnil (by simp)
    case _ c0 rest0 hd0 =>
      rw [hd] at hd0
      injection hd0 with h1 h2
      rw [← h1, ← h2]
  · intro hnil
    unfold drawPileViewDeal
    split
    case _ => rfl
    case _ c0 rest0 hd0 => rw [hnil] at hd0; exact absurd hd0 (by simp)
  · intro c rest hd
    unfold discardPileViewDeal
    split
    case _ hnil => rw [hd] at hnil; exact absurd hnil (by simp)
    case _ c0 rest0 hd0 =>
      rw [hd] at hd0
      injection hd0 with h1 h2
      rw [← h1, ← h2]

def c9state : RoundState :=
  { players := ["A", "B"], dealer := 0,
    hands := [[Card.wild, Card.numbered Color.red 5],
              [Card.numbered Color.red 6, Card.numbered Color.blue 1]],
    drawPileCards := [Card.numbered Color.blue 1, Card.numbered Color.red 5,
                      Card.numbered Color.red 6],
    discardPileCards := [Card.numbered Color.red 3],
    direction := 1, currentPlayerIndex := some 0, enforcedColor := none,
    unoDeclared := [false, false], pendingUno := none,
    ended := false, winnerIndex := none, cachedScore := none }

/-- C9 counterexample to the unamended claim: calling `deal()` (or
`shuffle`) on the view returned for a round observably changes the round's
internal draw pile — the change is visible through `toMemento()`. -/
theorem c9_views_alias_cex :
    (RoundState.drawPileViewDeal c9state).2.drawPileCards ≠ c9state.drawPileCards ∧
    RoundState.toMemento ((RoundState.drawPileViewDeal c9state).2)
      ≠ RoundState.toMemento c9state ∧
    (RoundState.drawPileViewShuffle (fun _ => []) c9state).drawPileCards
      ≠ c9state.drawPileCards := by
  decide


/-! ## C2: observable invariants after successful operations -/

/-- The observable invariants the spec promises after any successful
operation: non-empty discard pile, at most one empty hand, enforced color
defined exactly when the top discard is wild, and otherwise an effective
color equal to the top card's intrinsic color. -/
def ObservableInvariants (s : RoundState) : Prop :=
  s.discardPileCards ≠ [] ∧
  countEmptyHands s.hands ≤ 1 ∧
  s.enforcedColor.isSome = isWild s.topCardD ∧
  (isWild s.topCardD = false →
    ∃ c, cardColor s.topCardD = some c ∧ RoundState.currentColorE s = Except.ok c)

theorem currentColorE_ok_of_invCore {s : RoundState} (hinv : InvCore s) :
    ∃ c, RoundState.currentColorE s = Except.ok c ∧
      (s.enforcedColor = some c ∨
       (s.enforcedColor = none ∧ cardColor s.topCardD = some c)) := by
  cases henf : s.enforcedColor with
  | some c =>
    refine ⟨c, ?_, Or.inl rfl⟩
    unfold currentColorE
    split
    case _ c0 heq =>
      rw [henf] at heq
      injection heq with heq
      rw [heq]
    case _ heq => rw [henf] at heq; exact absurd heq (by simp)
  | none =>
    have hwild : isWild s.topCardD = false := by
      rw [← hinv.enforcedIffWild, henf]
      rfl
    obtain ⟨c, hc⟩ := cardColor_isSome_of_not_wild hwild
    refine ⟨c, ?_, Or.inr ⟨rfl, hc⟩⟩
    unfold currentColorE
    split
    case _ c0 heq => rw [henf] at heq; exact absurd heq (by simp)
    case _ heq =>
      split
      case _ hlast => exact absurd (List.getLast?_eq_none_iff.mp hlast) hinv.discardNE
      case _ top hlast =>
        have htop : s.topCardD = top := by
          unfold RoundState.topCardD
          rw [List.getLastD_eq_getLast?, hlast]
          rfl
        split
        case _ c0 hc0 =>
          rw [← htop, hc] at hc0
          injection hc0 with hc0
          rw [← hc0]
        case _ hc0 => rw [← htop, hc] at hc0; exact absurd hc0 (by simp)

theorem winnersOf_of_invCore {s : RoundState} (hinv : InvCore s) :
    (s.ended = true → ∃ w, s.winnerIndex = some w ∧ winnersOf s.hands = [w]) ∧
    (s.ended = false → winnersOf s.hands = []) := by
  constructor
  · intro hend
    obtain ⟨w, hw, hwlt, hwe, hwo⟩ := hinv.endedWinner hend
    exact ⟨w, hw, winnersOf_singleton_of s.hands w hwlt hwe hwo⟩
  · intro hend
    rw [winnersOf_eq_nil_iff]
    intro h hmem
    obtain ⟨j, hj, hgd⟩ := exists_getD_of_mem [] hmem
    intro hne
    exact hinv.activeNoEmpty hend j hj (by rw [hgd, hne])

theorem observable_of_invCore {s : RoundState} (hinv : InvCore s) :
    ObservableInvariants s := by
  refine ⟨hinv.discardNE, ?_, hinv.enforcedIffWild, ?_⟩
  · rw [countEmptyHands_eq]
    by_cases hend : s.ended = true
    · obtain ⟨w, _, hw⟩ := (winnersOf_of_invCore hinv).1 hend
      rw [hw]
      simp
    · have hend2 : s.ended = false := by
        revert hend
        cases s.ended <;> simp
      rw [(winnersOf_of_invCore hinv).2 hend2]
      simp
  · intro hw
    obtain ⟨c, hc, hcase⟩ := currentColorE_ok_of_invCore hinv
    rcases hcase with hsome | ⟨_, hcc⟩
    · exfalso
      have := hinv.enforcedIffWild
      rw [hsome, hw] at this
      exact absurd this (by simp)
    · exact ⟨c, hcc, hc⟩

/-- C2: after every successful public operation (`play`, `draw`, `sayUno`,
`catchUnoFailure`) on any reachable round, the discard pile is non-empty, at
most one player has an empty hand, the enforced color is defined exactly when
the top discard card is a wild variant, and otherwise the effective color is
the top card's intrinsic color. -/
theorem c2_invariants (s : RoundState) (hreach : Reachable s) :
    (∀ sh i col c s', RoundState.play sh i col s = (Except.ok c, s') →
      ObservableInvariants s') ∧
    (∀ sh c s', RoundState.draw sh s = (Except.ok c, s') →
      ObservableInvariants s') ∧
    (∀ p s', RoundState.sayUno p s = (Except.ok (), s') →
      ObservableInvariants s') ∧
    (∀ sh a b r s', RoundState.catchUnoFailure sh a b s = (Except.ok r, s') →
      ObservableInvariants s') := by
  have hinv := (inv_reachable hreach).1
  exact ⟨fun sh i col c s' h =>
      observable_of_invCore (invCore_play sh i col s c s' hinv h),
    fun sh c s' h => observable_of_invCore (invCore_draw sh s c s' hinv h),
    fun p s' h => observable_of_invCore (invCore_sayUno p s s' hinv h),
    fun sh a b r s' h =>
      observable_of_invCore (invCore_catch sh a b s r s' hinv h)⟩

def c2memento : RoundMemento :=
  { players := ["A", "B"],
    hands := [[Card.numbered Color.red 5, Card.numbered Color.red 6],
              [Card.numbered Color.blue 1]],
    drawPile := [Card.numbered Color.blue 1],
    discardPile := [Card.numbered Color.red 3], currentColor := Color.red,
    currentDirection := DirectionLabel.clockwise, dealer := 0,
    playerInTurn := some 0 }

def c2state : RoundState :=
  { players := ["A", "B"], dealer := 0,
    hands := [[Card.numbered Color.red 5, Card.numbered Color.red 6],
              [Card.numbered Color.blue 1]],
    drawPileCards := [Card.numbered Color.blue 1],
    discardPileCards := [Card.numbered Color.red 3],
    direction := 1, currentPlayerIndex := some 0, enforcedColor := none,
    unoDeclared := [false, false], pendingUno := none,
    ended := false, winnerIndex := none, cachedScore := none }

theorem c2_invariants_witness :
    ObservableInvariants (RoundState.sayUno 0 c2state).2 :=
  (c2_invariants c2state
    (Reachable.fromMemento c2memento c2state (by decide))).2.2.1
    0 (RoundState.sayUno 0 c2state).2 (by rfl)


/-! ## C3 infrastructure: memento stage computations and winner preservation -/

theorem validatePlayers_of_bounds {players : List String}
    (h2 : 2 ≤ players.length) (h10 : players.length ≤ 10) :
    validatePlayers players = Except.ok () := by
  unfold validatePlayers
  rw [if_neg (by omega), if_neg (by omega)]

theorem mementoCurrentPlayer_finished (pit : Option Int) (n : Nat) :
    mementoCurrentPlayer true pit n = Except.ok none := rfl

theorem mementoCurrentPlayer_active (p : Int) (n : Nat) (h0 : 0 ≤ p)
    (h1 : p < (n : Int)) :
    mementoCurrentPlayer false (some p) n = Except.ok (some p.toNat) := by
  unfold mementoCurrentPlayer
  rw [if_neg (by simp)]
  simp only [ensureIndex_of_bounds "playerInTurn" h0 h1]

theorem mementoEnforcedColor_wild {top : Card} (col : Color)
    (hw : isWild top = true) :
    mementoEnforcedColor top col = Except.ok (some col) := by
  unfold mementoEnforcedColor
  rw [if_pos hw]

theorem mementoEnforcedColor_matched {top : Card} {col : Color}
    (hw : isWild top = false) (hc : cardColor top = some col) :
    mementoEnforcedColor top col = Except.ok none := by
  unfold mementoEnforcedColor
  rw [if_neg (by rw [hw]; simp), hc]
  simp

theorem currentColorE_congr {s s' : RoundState}
    (h1 : s'.enforcedColor = s.enforcedColor)
    (h2 : s'.discardPileCards = s.discardPileCards) :
    RoundState.currentColorE s' = RoundState.currentColorE s := by
  unfold RoundState.currentColorE
  rw [h1, h2]

theorem toMemento_ok_of (s : RoundState) (c : Color)
    (hc : RoundState.currentColorE s = Except.ok c) :
    RoundState.toMemento s = Except.ok
      { players := s.players, hands := s.hands, drawPile := s.drawPileCards,
        discardPile := s.discardPileCards, currentColor := c,
        currentDirection :=
          if s.direction = 1 then DirectionLabel.clockwise
          else DirectionLabel.counterclockwise,
        dealer := s.dealer,
        playerInTurn :=
          if s.ended then none
          else s.currentPlayerIndex.map (fun n => (n : Int)) } := by
  unfold toMemento
  rw [hc]

theorem play_ok_winner (sh : List Card → List Card) (i : Nat) (col : Option Color)
    (s : RoundState) (c : Card) (s' : RoundState)
    (h : RoundState.play sh i col s = (Except.ok c, s'))
    (hne : s'.ended = false) :
    s.ended = false ∧ s'.winnerIndex = s.winnerIndex := by
  obtain ⟨current, steps, s4, hended, hcur', hilen, hcard, hcp, hs', hsteps,
    m1, m2, m3, m4, m5, m6, m7, m8, m9, m10, m11, m12, m13⟩ :=
    play_ok_mid sh i col s c s' h
  refine ⟨hended, ?_⟩
  by_cases hempty : (s4.hands.getD current []).length = 0
  · exfalso
    rw [hs', playFinish_empty current steps s4 hempty] at hne
    have h6e : ({ updateUnoStateFor current s4 with pendingUno := none } :
        RoundState).ended = false := m3
    obtain ⟨w1, _, _⟩ := finishRound_of_not_ended current _ h6e
    rw [w1] at hne
    exact absurd hne (by simp)
  · rw [hs', playFinish_nonempty current steps s4 hempty m3]
    rw [advance_winnerIndex, updateUnoStateFor_winnerIndex]
    exact m5

theorem draw_ok_winner (sh : List Card → List Card) (s : RoundState) (c : Card)
    (s' : RoundState) (h : RoundState.draw sh s = (Except.ok c, s')) :
    s.ended = false ∧ s'.winnerIndex = s.winnerIndex ∧ s'.ended = s.ended := by
  unfold draw at h
  split at h
  case _ => exact absurd h (by simp)
  case _ hended =>
    refine ⟨by revert hended; cases s.ended <;> simp, ?_⟩
    split at h
    case _ => exact absurd h (by simp)
    case _ current hcpe =>
      split at h
      case _ e s2 heq => exact absurd h (by simp)
      case _ c0 s2 heq =>
        injection h with hc hs'
        obtain ⟨f1, f2, f3, f4, f5, f6, f7, f8, f9, f10, f11, f12, f13⟩ :=
          takeFromDrawPile_frame' sh (markActionBy current s) _ s2 heq
        have hwin : s'.winnerIndex = s2.winnerIndex := by
          rw [← hs']
          unfold drawAdvance
          split
          · rw [updateUnoStateFor_winnerIndex]
          · rw [advance_winnerIndex, updateUnoStateFor_winnerIndex]
        have hend : s'.ended = s2.ended := by
          rw [← hs']
          unfold drawAdvance
          split
          · rw [updateUnoStateFor_ended]
          · rw [advance_ended, updateUnoStateFor_ended]
        constructor
        · rw [hwin, f10, markActionBy_winnerIndex]
        · rw [hend, f9, markActionBy_ended]

theorem sayUno_ok_winner (p : Int) (s : RoundState) (s' : RoundState)
    (h : RoundState.sayUno p s = (Except.ok (), s')) :
    s'.winnerIndex = s.winnerIndex ∧ s'.ended = s.ended := by
  unfold sayUno at h
  split at h
  case _ => exact absurd h (by simp)
  case _ =>
    split at h
    case _ => exact absurd h (by simp)
    case _ =>
      split at h
      case _ => exact absurd h (by simp)
      case _ =>
        injection h with _ hs'
        rw [← hs']
        exact ⟨rfl, rfl⟩

theorem catch_ok_winner (sh : List Card → List Card) (a b : Int) (s : RoundState)
    (r : Bool) (s' : RoundState)
    (h : RoundState.catchUnoFailure sh a b s = (Except.ok r, s')) :
    s'.winnerIndex = s.winnerIndex ∧ s'.ended = s.ended := by
  unfold catchUnoFailure at h
  split at h
  case _ => exact absurd h (by simp)
  case _ =>
    split at h
    case _ => exact absurd h (by simp)
    case _ =>
      split at h
      case _ =>
        injection h with _ hs'
        rw [← hs']
        exact ⟨rfl, rfl⟩
      case _ pu hpu =>
        split at h
        case _ =>
          injection h with _ hs'
          rw [← hs']
          exact ⟨rfl, rfl⟩
        case _ =>
          split at h
          case _ =>
            injection h with _ hs'
            rw [← hs']
            exact ⟨rfl, rfl⟩
          case _ =>
            split at h
            case _ =>
              injection h with _ hs'
              rw [← hs']
              exact ⟨rfl, rfl⟩
            case _ =>
              split at h
              case _ =>
                injection h with _ hs'
                rw [← hs']
                exact ⟨rfl, rfl⟩
              case _ =>
                split at h
                case _ e s2 heq => exact absurd h (by simp)
                case _ s2 heq =>
                  injection h with _ hs'
                  obtain ⟨pf, _, _, _, _⟩ :=
                    applyPenalty_spec sh b.toNat 4 _ _ s2 heq
                  obtain ⟨a1, a2, a3, a4, a5, a6, a7, a8, a9, a10, a11⟩ := pf
                  rw [← hs']
                  constructor
                  · show s2.winnerIndex = s.winnerIndex
                    rw [a7]
                  · show s2.ended = s.ended
                    rw [a6]

theorem reachable_active_no_winner {s : RoundState} (h : Reachable s) :
    s.ended = false → s.winnerIndex = none := by
  induction h with
  | fromMemento m s hm =>
    intro hne
    unfold createRoundFromMemento at hm
    split at hm
    case _ => exact absurd hm (by simp)
    case _ u1 heq1 =>
      split at hm
      case _ => exact absurd hm (by simp)
      case _ u2 heq2 =>
        split at hm
        case _ => exact absurd hm (by simp)
        case _ ncol heq3 =>
          split at hm
          case _ => exact absurd hm (by simp)
          case _ hcount =>
            split at hm
            case _ => exact absurd hm (by simp)
            case _ hands heq4 =>
              split at hm
              case _ => exact absurd hm (by simp)
              case _ drawPile heq5 =>
                split at hm
                case _ => exact absurd hm (by simp)
                case _ discardPile heq6 =>
                  split at hm
                  case _ => exact absurd hm (by simp)
                  case _ hdlen =>
                    split at hm
                    case _ => exact absurd hm (by simp)
                    case _ hwin =>
                      split at hm
                      case _ => exact absurd hm (by simp)
                      case _ cp heq7 =>
                        split at hm
                        case _ => exact absurd hm (by simp)
                        case _ enf heq8 =>
                          obtain ⟨_, _, _, _, _, _, _, _, _, _, hfin, hact⟩ :=
                            mkRoundImpl_ok_spec hm
                          by_cases hw1 : (winnersOf hands).length = 1
                          · obtain ⟨he, _, _⟩ := hfin hw1
                            rw [he] at hne
                            exact absurd hne (by simp)
                          · exact (hact hw1).2.2
  | fromDeal players dealer cpp cards init s h2 h10 hd hv hatt hmk =>
    intro hne
    unfold mkRoundFromInitial at hmk
    obtain ⟨_, _, _, _, _, _, _, _, _, _, hfin, hact⟩ := mkRoundImpl_ok_spec hmk
    by_cases hw1 : (winnersOf init.hands).length = 1
    · obtain ⟨he, _, _⟩ := hfin hw1
      rw [he] at hne
      exact absurd hne (by simp)
    · exact (hact hw1).2.2
  | playStep sh i col c s s' hsh hr hp ih =>
    intro hne
    obtain ⟨hse, hw⟩ := play_ok_winner sh i col s c s' hp hne
    rw [hw]
    exact ih hse
  | drawStep sh c s s' hsh hr hd ih =>
    intro hne
    obtain ⟨hse, hw, he⟩ := draw_ok_winner sh s c s' hd
    rw [hw]
    exact ih hse
  | sayUnoStep p s s' hr hu ih =>
    intro hne
    obtain ⟨hw, he⟩ := sayUno_ok_winner p s s' hu
    rw [hw]
    apply ih
    rw [← he]
    exact hne
  | catchStep sh a b r s s' hsh hr hc ih =>
    intro hne
    obtain ⟨hw, he⟩ := catch_ok_winner sh a b s r s' hc
    rw [hw]
    apply ih
    rw [← he]
    exact hne


/-! ## C3: memento round trip -/

/-- Observable equivalence of two rounds: same player names, hands, piles,
current player, effective color, direction, ended status and winner. -/
def ObsEq (s s' : RoundState) : Prop :=
  s'.players = s.players ∧ s'.hands = s.hands ∧
  s'.drawPileCards = s.drawPileCards ∧ s'.discardPileCards = s.discardPileCards ∧
  s'.currentPlayerIndex = s.currentPlayerIndex ∧
  RoundState.currentColorE s' = RoundState.currentColorE s ∧
  s'.direction = s.direction ∧ s'.ended = s.ended ∧ s'.winnerIndex = s.winnerIndex

/-- C3: for every reachable round, `createRoundFromMemento (toMemento round)`
succeeds and produces a round equivalent to the original in observable state:
same player names, hands, draw pile, discard pile, current player, effective
color, direction, ended status and winner. -/
theorem c3_round_trip (s : RoundState) (hreach : Reachable s) :
    ∃ m s', RoundState.toMemento s = Except.ok m ∧
      createRoundFromMemento m = Except.ok s' ∧ ObsEq s s' := by
  obtain ⟨hinv, hval⟩ := inv_reachable hreach
  have hnw := reachable_active_no_winner hreach
  obtain ⟨c, hcE, hcase⟩ := currentColorE_ok_of_invCore hinv
  obtain ⟨m, hm, f1, f2, f3, f4, f5, f6, f7, f8⟩ :
      ∃ m, RoundState.toMemento s = Except.ok m ∧ m.players = s.players ∧
        m.hands = s.hands ∧ m.drawPile = s.drawPileCards ∧
        m.discardPile = s.discardPileCards ∧ m.currentColor = c ∧
        m.currentDirection = (if s.direction = 1 then DirectionLabel.clockwise
          else DirectionLabel.counterclockwise) ∧
        m.dealer = s.dealer ∧
        m.playerInTurn = (if s.ended then none
          else s.currentPlayerIndex.map (fun n => (n : Int))) :=
    ⟨_, toMemento_ok_of s c hcE, rfl, rfl, rfl, rfl, rfl, rfl, rfl, rfl⟩
  have hc1 : validatePlayers m.players = Except.ok () := by
    rw [f1]
    exact validatePlayers_of_bounds hinv.playersLB hinv.playersUB
  have hc2 : ensureIndex m.dealer m.players.length "dealer" = Except.ok () := by
    rw [f7, f1]
    exact ensureIndex_of_bounds "dealer" hinv.dealerLB hinv.dealerUB
  have hc3 : ensureColorValue m.currentColor = Except.ok m.currentColor :=
    ensureColorValue_ok _
  have hc4 : cloneHandsWithValidation m.hands = Except.ok m.hands := by
    rw [f2]
    exact cloneHandsWithValidation_of_valid hval.1
  have hc5 : cloneCardsWithValidation m.drawPile = Except.ok m.drawPile := by
    rw [f3]
    exact cloneCardsWithValidation_of_valid hval.2.1
  have hc6 : cloneCardsWithValidation m.discardPile = Except.ok m.discardPile := by
    rw [f4]
    exact cloneCardsWithValidation_of_valid hval.2.2
  have hc8 : mementoEnforcedColor s.topCardD m.currentColor
      = Except.ok s.enforcedColor := by
    rw [f5]
    rcases hcase with hsome | ⟨hnone, hcc⟩
    · have hwild : isWild s.topCardD = true := by
        rw [← hinv.enforcedIffWild, hsome]
        rfl
      rw [hsome]
      exact mementoEnforcedColor_wild c hwild
    · have hwild : isWild s.topCardD = false := by
        rw [← hinv.enforcedIffWild, hnone]
        rfl
      rw [hnone]
      exact mementoEnforcedColor_matched hwild hcc
  obtain ⟨r, hr0⟩ : ∃ r, createRoundFromMemento m = r := ⟨_, rfl⟩
  have hr := hr0
  unfold createRoundFromMemento at hr
  split at hr
  case _ e1 heq => rw [hc1] at heq; exact absurd heq (by simp)
  case _ u1 heq =>
    split at hr
    case _ e1 heq2 => rw [hc2] at heq2; exact absurd heq2 (by simp)
    case _ u2 heq2 =>
      split at hr
      case _ e1 heq3 => rw [hc3] at heq3; exact absurd heq3 (by simp)
      case _ ncol heq3 =>
        have hncol : ncol = m.currentColor := by
          rw [hc3] at heq3
          injection heq3 with h
          exact h.symm
        split at hr
        case _ hcnt =>
          rw [f2, f1, hinv.handsLen] at hcnt
          exact absurd hcnt (by simp)
        case _ hcnt =>
          split at hr
          case _ e1 heq4 => rw [hc4] at heq4; exact absurd heq4 (by simp)
          case _ hands heq4 =>
            have hhands : hands = s.hands := by
              rw [hc4] at heq4
              injection heq4 with h
              rw [← h, f2]
            split at hr
            case _ e1 heq5 => rw [hc5] at heq5; exact absurd heq5 (by simp)
            case _ drawPile heq5 =>
              have hdraw : drawPile = s.drawPileCards := by
                rw [hc5] at heq5
                injection heq5 with h
                rw [← h, f3]
              split at hr
              case _ e1 heq6 => rw [hc6] at heq6; exact absurd heq6 (by simp)
              case _ discardPile heq6 =>
                have hdisc : discardPile = s.discardPileCards := by
                  rw [hc6] at heq6
                  injection heq6 with h
                  rw [← h, f4]
                split at hr
                case _ hd0 =>
                  rw [hdisc] at hd0
                  exact absurd (List.length_eq_zero.mp hd0) hinv.discardNE
                case _ hd0 =>
                  have hwl : (winnersOf hands).length ≤ 1 := by
                    rw [hhands]
                    by_cases hend : s.ended = true
                    · obtain ⟨w, _, hw⟩ := (winnersOf_of_invCore hinv).1 hend
                      rw [hw]
                      simp
                    · have hend2 : s.ended = false := by
                        revert hend
                        cases s.ended <;> simp
                      rw [(winnersOf_of_invCore hinv).2 hend2]
                      simp
                  split at hr
                  case _ hgt => exact absurd hgt (by omega)
                  case _ hgt =>
                    split at hr
                    case _ e1 heq7 =>
                      by_cases hend : s.ended = true
                      · obtain ⟨w, hw, hws⟩ := (winnersOf_of_invCore hinv).1 hend
                        have hflag : ((winnersOf hands).length == 1) = true := by
                          rw [hhands, hws]
                          rfl
                        rw [hflag, mementoCurrentPlayer_finished] at heq7
                        exact absurd heq7 (by simp)
                      · have hend2 : s.ended = false := by
                          revert hend
                          cases s.ended <;> simp
                        obtain ⟨ci, hci, hcilt⟩ := hinv.activeCur hend2
                        have hflag : ((winnersOf hands).length == 1) = false := by
                          rw [hhands, (winnersOf_of_invCore hinv).2 hend2]
                          rfl
                        have hpit : m.playerInTurn = some ((ci : Nat) : Int) := by
                          rw [f8, if_neg (by rw [hend2]; simp), hci]
                          rfl
                        rw [hflag, hpit, mementoCurrentPlayer_active ((ci : Nat) : Int)
                          m.players.length (by omega) (by rw [f1]; omega)] at heq7
                        exact absurd heq7 (by simp)
                    case _ cp heq7 =>
                      split at hr
                      case _ e1 heq8 =>
                        rw [show discardPile.getLastD Card.wild = s.topCardD from
                            by rw [hdisc]; rfl, hncol, hc8] at heq8
                        exact absurd heq8 (by simp)
                      case _ enf heq8 =>
                        have henf : enf = s.enforcedColor := by
                          rw [show discardPile.getLastD Card.wild = s.topCardD from
                              by rw [hdisc]; rfl, hncol, hc8] at heq8
                          injection heq8 with h
                          exact h.symm
                        have hdir : toDirection m.currentDirection = s.direction := by
                          rw [f6]
                          rcases hinv.dirOK with h1 | h1
                          · rw [if_pos h1, h1]
                            rfl
                          · rw [if_neg (by rw [h1]; simp), h1]
                            rfl
                        by_cases hend : s.ended = true
                        · obtain ⟨w, hwin, hws⟩ := (winnersOf_of_invCore hinv).1 hend
                          have hw1 : (winnersOf hands).length = 1 := by
                            rw [hhands, hws]
                            rfl
                          have hdne : ¬discardPile.length = 0 := by
                            rw [hdisc]
                            intro hcon
                            exact hinv.discardNE (List.length_eq_zero.mp hcon)
                          unfold mkRoundImpl at hr
                          rw [if_neg hdne, if_neg (by omega), if_pos hw1] at hr
                          subst hr
                          refine ⟨m, _, hm, hr0, ?_, ?_, ?_, ?_, ?_, ?_, ?_, ?_, ?_⟩
                          · exact f1
                          · exact hhands
                          · exact hdraw
                          · exact hdisc
                          · exact (hinv.endedCur hend).symm
                          · exact currentColorE_congr henf hdisc
                          · exact hdir
                          · exact hend.symm
                          · show (winnersOf hands).head? = s.winnerIndex
                            rw [hhands, hws]
                            exact hwin.symm
                        · have hend2 : s.ended = false := by
                            revert hend
                            cases s.ended <;> simp
                          obtain ⟨ci, hci, hcilt⟩ := hinv.activeCur hend2
                          have hwnil : winnersOf s.hands = [] :=
                            (winnersOf_of_invCore hinv).2 hend2
                          have hw0 : (winnersOf hands).length = 0 := by
                            rw [hhands, hwnil]
                            rfl
                          have hflag : ((winnersOf hands).length == 1) = false := by
                            rw [hw0]
                            rfl
                          have hpit : m.playerInTurn = some ((ci : Nat) : Int) := by
                            rw [f8, if_neg (by rw [hend2]; simp), hci]
                            rfl
                          have hdne : ¬discardPile.length = 0 := by
                            rw [hdisc]
                            intro hcon
                            exact hinv.discardNE (List.length_eq_zero.mp hcon)
                          unfold mkRoundImpl at hr
                          rw [if_neg hdne, if_neg (by omega), if_neg (by omega)] at hr
                          split at hr
                          case _ hcpn =>
                            rw [hflag, hpit, mementoCurrentPlayer_active
                              ((ci : Nat) : Int) m.players.length (by omega)
                              (by rw [f1]; omega)] at heq7
                            exact absurd heq7 (by simp)
                          case _ cur =>
                            have hcur : cur = ci := by
                              rw [hflag, hpit, mementoCurrentPlayer_active
                                ((ci : Nat) : Int) m.players.length (by omega)
                                (by rw [f1]; omega)] at heq7
                              injection heq7 with h
                              injection h with h
                              rw [← h]
                              simp
                            subst hcur
                            subst hr
                            refine ⟨m, _, hm, hr0, ?_, ?_, ?_, ?_, ?_, ?_, ?_, ?_, ?_⟩
                            · exact f1
                            · exact hhands
                            · exact hdraw
                            · exact hdisc
                            · show some cur = s.currentPlayerIndex
                              exact hci.symm
                            · exact currentColorE_congr henf hdisc
                            · exact hdir
                            · exact hend2.symm
                            · exact (hnw hend2).symm

def c3memento : RoundMemento :=
  { players := ["A", "B"],
    hands := [[Card.numbered Color.red 5, Card.numbered Color.red 6],
              [Card.numbered Color.blue 1]],
    drawPile := [Card.numbered Color.blue 1],
    discardPile := [Card.numbered Color.red 3], currentColor := Color.red,
    currentDirection := DirectionLabel.clockwise, dealer := 0,
    playerInTurn := some 0 }

def c3state : RoundState :=
  { players := ["A", "B"], dealer := 0,
    hands := [[Card.numbered Color.red 5, Card.numbered Color.red 6],
              [Card.numbered Color.blue 1]],
    drawPileCards := [Card.numbered Color.blue 1],
    discardPileCards := [Card.numbered Color.red 3],
    direction := 1, currentPlayerIndex := some 0, enforcedColor := none,
    unoDeclared := [false, false], pendingUno := none,
    ended := false, winnerIndex := none, cachedScore := none }

theorem c3_round_trip_witness :
    ∃ m s', RoundState.toMemento c3state = Except.ok m ∧
      createRoundFromMemento m = Except.ok s' ∧ ObsEq c3state s' :=
  c3_round_trip c3state (Reachable.fromMemento c3memento c3state (by decide))

end Uno
